import Mathlib

/-!
# User-agent parser: the regex cascade of `ua_parser.hpp`

The first part models the regular-expression library the parser calls through
its alias `RegexImpl`; the second part is the parser itself: `Result`, the
formatter objects, `Extractor`, `Matcher`, the table of `getMatcherGroups` and
`parse`. Strings are handled inside the matcher as lists of character codes.
-/

namespace RegexImpl

/-- Escape classes of the pattern language: `\w`, `\d`, `\s`. -/
inductive CharClass where
  | word
  | digit
  | space
  deriving DecidableEq, Repr

/-- One member of a bracket expression. -/
inductive SetItem where
  | single (c : Nat)
  | range (lo hi : Nat)
  | cls (k : CharClass)
  deriving DecidableEq, Repr

/-- Syntax tree of a compiled pattern. -/
inductive Node where
  | chr (c : Nat)
  | any
  | cls (k : CharClass)
  | set (items : List SetItem)
  | empty
  | seq (a b : Node)
  | alt (a b : Node)
  | group (idx : Nat) (r : Node)
  | ncgroup (r : Node)
  | look (r : Node)
  | backref (idx : Nat)
  | rep (r : Node) (min : Nat) (max : Option Nat) (greedy : Bool)
  deriving DecidableEq, Repr

/-- The digits `0`..`9` (codes 48..57). -/
def isDigit (c : Nat) : Bool := Nat.ble 48 c && Nat.ble c 57
/-- The letters `A`..`Z` (codes 65..90). -/
def isUpper (c : Nat) : Bool := Nat.ble 65 c && Nat.ble c 90
/-- The letters `a`..`z` (codes 97..122). -/
def isLower (c : Nat) : Bool := Nat.ble 97 c && Nat.ble c 122
/-- Word characters: letters, digits and the underscore (code 95). -/
def isWord (c : Nat) : Bool := isLower c || isUpper c || isDigit c || Nat.beq c 95
/-- White space: the blank (code 32) and the controls 9..13. -/
def isSpace (c : Nat) : Bool := Nat.beq c 32 || (Nat.ble 9 c && Nat.ble c 13)

/-- Membership of a character in an escape class. -/
def CharClass.test : CharClass → Nat → Bool
  | .word, c => isWord c
  | .digit, c => isDigit c
  | .space, c => isSpace c

/-- Case folding of the default ("C") locale: `A`..`Z` go to `a`..`z`. -/
def fold (c : Nat) : Nat := if isUpper c then c + 32 else c

/-- The translation applied to both sides of a comparison. -/
def tr (icase : Bool) (c : Nat) : Nat := if icase then fold c else c

/-- Membership of `x` in one member of a bracket expression; the end points of
a range are translated like the character itself. -/
def SetItem.test (icase : Bool) (x : Nat) : SetItem → Bool
  | .single c => Nat.beq (tr icase x) (tr icase c)
  | .range lo hi => Nat.ble (tr icase lo) (tr icase x) && Nat.ble (tr icase x) (tr icase hi)
  | .cls k => k.test x

/-! ### Pattern compiler -/

/-- The class named by the letter after a backslash: `w` (119), `d` (100),
`s` (115). -/
def escapeClass (c : Nat) : Option CharClass :=
  if c = 119 then some .word else if c = 100 then some .digit else if c = 115 then some .space
  else none

/-- Members of a bracket expression, read up to the closing bracket (93). After
a backslash (92) stands a class letter or a character taken literally; a minus
(45) between two characters makes a range, before the closing bracket it is
literal. -/
def parseSet : Nat → List Nat → List SetItem → Option (List SetItem × List Nat)
  | 0, _, _ => none
  | _, [], _ => none
  | fuel + 1, c :: rest, acc =>
    if c = 93 then some (acc.reverse, rest)
    else if c = 92 then
      match rest with
      | [] => none
      | e :: rest2 =>
        match escapeClass e with
        | some k => parseSet fuel rest2 (.cls k :: acc)
        | none => if isWord e then none else parseSet fuel rest2 (.single e :: acc)
    else
      match rest with
      | 45 :: hi :: rest2 =>
        if hi = 93 then parseSet fuel rest (.single c :: acc)
        else if hi = 92 then none
        else if Nat.ble c hi then parseSet fuel rest2 (.range c hi :: acc) else none
      | _ => parseSet fuel rest (.single c :: acc)

/-- The decimal number at the head of the text and the text after it. -/
def digitsVal : List Nat → Nat → Nat × List Nat
  | [], acc => (acc, [])
  | c :: rest, acc => if isDigit c then digitsVal rest (acc * 10 + (c - 48)) else (acc, c :: rest)

/-- Bounds of a quantifier standing at the head of the text, if there is one:
`*` (42), `+` (43), `?` (63), or braces (123, 125) around one number or two
numbers separated by a comma (44). -/
def parseBounds (cs : List Nat) : Option (Nat × Option Nat × List Nat) :=
  match cs with
  | 42 :: rest => some (0, none, rest)
  | 43 :: rest => some (1, none, rest)
  | 63 :: rest => some (0, some 1, rest)
  | 123 :: d :: rest =>
    if isDigit d then
      match digitsVal (d :: rest) 0 with
      | (lo, 125 :: rest2) => some (lo, some lo, rest2)
      | (lo, 44 :: 125 :: rest2) => some (lo, none, rest2)
      | (lo, 44 :: d2 :: rest2) =>
        if isDigit d2 then
          match digitsVal (d2 :: rest2) 0 with
          | (hi, 125 :: rest3) => if Nat.ble lo hi then some (lo, some hi, rest3) else none
          | _ => none
        else none
      | _ => none
    else none
  | _ => none

/-- Wrap an atom in the quantifier that follows it, if any; a `?` (63) after
the quantifier makes it lazy. -/
def applyQuant (atom : Node) (cs : List Nat) : Node × List Nat :=
  match parseBounds cs with
  | none => (atom, cs)
  | some (lo, hi, 63 :: rest) => (.rep atom lo hi false, rest)
  | some (lo, hi, rest) => (.rep atom lo hi true, rest)

/-- Concatenation of a list of trees. -/
def mkSeq : List Node → Node
  | [] => .empty
  | [a] => a
  | a :: rest => .seq a (mkSeq rest)

/-- Alternation of a list of trees, first alternative first. -/
def mkAlt : List Node → Node
  | [] => .empty
  | [a] => a
  | a :: rest => .alt a (mkAlt rest)

/-- Close the alternation: `alts` holds the finished alternatives and `sq` the
atoms of the current one, both in reverse. -/
def finish (alts sq : List Node) : Node := mkAlt ((mkSeq sq.reverse :: alts).reverse)

/-- Parse an alternation up to the end of the text or an unmatched closing
parenthesis (41). `n` is the number of capturing groups opened so far; groups
are numbered by their opening parenthesis (40). `(?:` (63, 58) opens a group
without capture, `(?=` (63, 61) a lookahead, `|` (124) separates alternatives,
`[` (91) opens a bracket expression, a backslash (92) is followed by a class
letter, the digit of a backreference or a literal character, `.` (46) stands
for any character. Anything else the table does not use is refused. -/
def parseAlt : Nat → List Nat → Nat → List Node → List Node → Option (Node × List Nat × Nat)
  | 0, _, _, _, _ => none
  | _ + 1, [], n, alts, sq => some (finish alts sq, [], n)
  | fuel + 1, c :: rest, n, alts, sq =>
    if c = 41 then some (finish alts sq, c :: rest, n)
    else if c = 124 then parseAlt fuel rest n (mkSeq sq.reverse :: alts) []
    else if c = 40 then
      match rest with
      | 63 :: 58 :: inner =>
        match parseAlt fuel inner n [] [] with
        | some (body, 41 :: rest2, n2) =>
          match applyQuant (.ncgroup body) rest2 with
          | (atom, rest3) => parseAlt fuel rest3 n2 alts (atom :: sq)
        | _ => none
      | 63 :: 61 :: inner =>
        match parseAlt fuel inner n [] [] with
        | some (body, 41 :: rest2, n2) => parseAlt fuel rest2 n2 alts (.look body :: sq)
        | _ => none
      | 63 :: _ => none
      | inner =>
        match parseAlt fuel inner (n + 1) [] [] with
        | some (body, 41 :: rest2, n2) =>
          match applyQuant (.group (n + 1) body) rest2 with
          | (atom, rest3) => parseAlt fuel rest3 n2 alts (atom :: sq)
        | _ => none
    else if c = 91 then
      match rest with
      | 94 :: _ => none
      | _ =>
        match parseSet fuel rest [] with
        | some (items, rest2) =>
          match applyQuant (.set items) rest2 with
          | (atom, rest3) => parseAlt fuel rest3 n alts (atom :: sq)
        | none => none
    else if c = 92 then
      match rest with
      | [] => none
      | e :: rest2 =>
        let atom? : Option Node :=
          match escapeClass e with
          | some k => some (.cls k)
          | none =>
            if isDigit e then (if e = 48 then none else some (.backref (e - 48)))
            else if isWord e then none else some (.chr e)
        match atom? with
        | none => none
        | some a =>
          match applyQuant a rest2 with
          | (atom, rest3) => parseAlt fuel rest3 n alts (atom :: sq)
    else if c = 42 || c = 43 || c = 63 || c = 123 || c = 125 || c = 93 || c = 94 || c = 36 then none
    else
      match applyQuant (if c = 46 then .any else .chr c) rest with
      | (atom, rest3) => parseAlt fuel rest3 n alts (atom :: sq)

/-- A compiled pattern: its tree and its number of capturing groups. -/
structure Prog where
  node : Node
  ngroups : Nat
  deriving DecidableEq, Repr

/-- Modelled from the spec: the pattern compiler of the regular-expression
library (`boost::regex`, used through the alias `RegexImpl`) is not part of the
repository. The spec asks for capturing and non-capturing groups, lookahead,
backreferences, bracket expressions, the escapes for word, digit and space
characters and counted repetition; `none` stands for a constructor that throws. -/
def compile (pattern : String) : Option Prog :=
  let cs := pattern.data.map Char.toNat
  match parseAlt (cs.length + 1) cs 0 [] [] with
  | some (node, [], n) => some ⟨node, n⟩
  | _ => none

/-! ### Backtracking matcher -/

/-- Matcher state: characters consumed so far, text still ahead, and the text
last captured by each group (slot 0 is the whole match). -/
structure MState where
  pos : Nat
  rest : List Nat
  caps : List (Option (List Nat))
  deriving Repr

/-- What remains to be matched after a step, as a function of the state. -/
abbrev Cont := MState → Option MState

/-- Match text `txt` at the head of the state, comparing through `tr`. -/
def matchText (icase : Bool) : List Nat → MState → Option MState
  | [], s => some s
  | c :: cs, s =>
    match s.rest with
    | [] => none
    | x :: xs =>
      if Nat.beq (tr icase x) (tr icase c) then matchText icase cs ⟨s.pos + 1, xs, s.caps⟩
      else none

/-- Repetition of `body` between `min` and `max` times. `bound` exceeds the
number of characters ahead, and an iteration that consumes nothing is cut. -/
def repLoop (body : Cont → MState → Option MState) (min : Nat) (max : Option Nat)
    (greedy : Bool) (k : Cont) : Nat → Nat → MState → Option MState
  | 0, cnt, s => if Nat.ble min cnt then k s else none
  | bound + 1, cnt, s =>
    let allowed : Bool := match max with
      | none => true
      | some m => Nat.blt cnt m
    if greedy then
      match (if allowed then
          body (fun s' => if Nat.beq s'.pos s.pos then none
                          else repLoop body min max greedy k bound (cnt + 1) s') s
        else none) with
      | some t => some t
      | none => if Nat.ble min cnt then k s else none
    else
      match (if Nat.ble min cnt then k s else none) with
      | some t => some t
      | none =>
        if allowed then
          body (fun s' => if Nat.beq s'.pos s.pos then none
                          else repLoop body min max greedy k bound (cnt + 1) s') s
        else none

/-- Consume one character that satisfies `p`. -/
def one (p : Nat → Bool) (k : Cont) (s : MState) : Option MState :=
  match s.rest with
  | [] => none
  | x :: xs => if p x then k ⟨s.pos + 1, xs, s.caps⟩ else none

/-- Modelled from the spec: the matching procedure of the regular-expression
library is not part of the repository. Alternatives are tried left to right,
greedy repetition takes the longest run first and backs off, a group keeps the
text of its last iteration, comparison is case-insensitive (ASCII) under `icase`.
A `std::string` is read as the list of its character codes. -/
def matchNode (icase : Bool) : Node → Cont → MState → Option MState
  | .chr c, k, s => one (fun x => Nat.beq (tr icase x) (tr icase c)) k s
  | .any, k, s => one (fun _ => true) k s
  | .cls c, k, s => one c.test k s
  | .set items, k, s => one (fun x => items.any (SetItem.test icase x)) k s
  | .empty, k, s => k s
  | .seq a b, k, s => matchNode icase a (fun s' => matchNode icase b k s') s
  | .alt a b, k, s =>
    match matchNode icase a k s with
    | some t => some t
    | none => matchNode icase b k s
  | .group idx r, k, s =>
    matchNode icase r
      (fun s' => k ⟨s'.pos, s'.rest, s'.caps.set idx (some (s.rest.take (s'.pos - s.pos)))⟩) s
  | .ncgroup r, k, s => matchNode icase r k s
  | .look r, k, s =>
    match matchNode icase r some s with
    | some t => k ⟨s.pos, s.rest, t.caps⟩
    | none => none
  | .backref idx, k, s =>
    match s.caps.getD idx none with
    | none => none
    | some txt =>
      match matchText icase txt s with
      | some s' => k s'
      | none => none
  | .rep r min max greedy, k, s =>
    repLoop (fun k' s' => matchNode icase r k' s') min max greedy k (s.rest.length + 1) 0 s

/-- Leftmost match: try every start position in turn. -/
def searchFrom (icase : Bool) (p : Prog) : Nat → List Nat → Option (List (Option (List Nat)))
  | pos, [] =>
    match matchNode icase p.node some ⟨pos, [], List.replicate (p.ngroups + 1) none⟩ with
    | some t => some (t.caps.set 0 (some []))
    | none => none
  | pos, c :: cs =>
    match matchNode icase p.node some ⟨pos, c :: cs, List.replicate (p.ngroups + 1) none⟩ with
    | some t => some (t.caps.set 0 (some ((c :: cs).take (t.pos - pos))))
    | none => searchFrom icase p (pos + 1) cs

/-- A matching step `body` hands its continuation a state in which group `idx`
holds the text it held on entry. -/
def Frames (idx : Nat) (body : Cont → MState → Option MState) : Prop :=
  ∀ (k : Cont) (s t : MState), body k s = some t →
    ∃ s1, s1.caps.getD idx none = s.caps.getD idx none ∧ k s1 = some t

/-- Option flags of a compiled expression; only case-insensitivity matters here. -/
structure flag_type where
  icase : Bool
  deriving DecidableEq, Repr

/-- The `|` of two flag sets. -/
def flag_type.or (a b : flag_type) : flag_type := ⟨a.icase || b.icase⟩

/-- A regular expression object: the pattern text and the flags it was built with. -/
structure regex where
  pattern : String
  flags : flag_type
  deriving DecidableEq, Repr

/-- The grammar flag `regex::ECMAScript`; it does not set `icase`. -/
def regex.ECMAScript : flag_type := ⟨false⟩

/-- The flags of a `regex` built from a pattern alone. -/
def regex.normal : flag_type := ⟨false⟩

/-- The flag `regex::icase`. -/
def regex.icase : flag_type := ⟨true⟩

/-- Result of a successful search: sub-match 0 is the whole match, sub-match
`n` the text last captured by group `n`, `none` for a group that took no part. -/
structure smatch where
  subs : List (Option String)
  deriving DecidableEq, Repr

/-- The number of sub-matches: one more than the pattern has groups. -/
def smatch.size (m : smatch) : Nat := m.subs.length

/-- Indexing never fails: an index past the end yields the unmatched sub-match. -/
def smatch.get (m : smatch) (n : Nat) : Option String := m.subs.getD n none

/-- Text of a sub-match; the empty string when it did not take part. -/
def sub_match_str : Option String → String
  | some s => s
  | none => ""

/-- The string with the given character codes. -/
def toStr (cs : List Nat) : String := String.mk (cs.map Char.ofNat)

/-- Modelled from the spec: `RegexImpl::regex_search` is library code outside
the repository. Unanchored substring search of `e` in `ua`, leftmost match
first; `none` when there is no match. Every pattern of the table compiles, so
the first branch is never taken on it. -/
def regex_search (ua : String) (e : regex) : Option smatch :=
  match compile e.pattern with
  | none => none
  | some p =>
    match searchFrom e.flags.icase p 0 (ua.data.map Char.toNat) with
    | none => none
    | some caps => some ⟨caps.map (Option.map toStr)⟩

/-- Whether a capturing group numbered `idx` occurs in the tree. -/
def Node.hasGroup (idx : Nat) : Node → Bool
  | .chr _ => false
  | .any => false
  | .cls _ => false
  | .set _ => false
  | .empty => false
  | .seq a b => a.hasGroup idx || b.hasGroup idx
  | .alt a b => a.hasGroup idx || b.hasGroup idx
  | .group j r => Nat.beq j idx || r.hasGroup idx
  | .ncgroup r => r.hasGroup idx
  | .look r => r.hasGroup idx
  | .backref _ => false
  | .rep r _ _ _ => r.hasGroup idx

end RegexImpl

namespace UaParser

open RegexImpl

/-- `UaParser::Result`: eleven strings, all empty in `Result()`. -/
structure Result where
  browserName : String := ""
  browserUnit : String := ""
  browserVersion : String := ""
  cpuArchitecture : String := ""
  deviceType : String := ""
  deviceModel : String := ""
  deviceVendor : String := ""
  engineName : String := ""
  engineVersion : String := ""
  osName : String := ""
  osVersion : String := ""
  deriving DecidableEq, Repr

/-- Pointer to a member of `Result`. -/
inductive Field where
  | browserName
  | browserUnit
  | browserVersion
  | cpuArchitecture
  | deviceType
  | deviceModel
  | deviceVendor
  | engineName
  | engineVersion
  | osName
  | osVersion
  deriving DecidableEq, Repr

/-- Read through a member pointer: `result.*f`. -/
def Result.get (r : Result) : Field → String
  | .browserName => r.browserName
  | .browserUnit => r.browserUnit
  | .browserVersion => r.browserVersion
  | .cpuArchitecture => r.cpuArchitecture
  | .deviceType => r.deviceType
  | .deviceModel => r.deviceModel
  | .deviceVendor => r.deviceVendor
  | .engineName => r.engineName
  | .engineVersion => r.engineVersion
  | .osName => r.osName
  | .osVersion => r.osVersion

/-- Write through a member pointer: `result.*f = v`. -/
def Result.set (r : Result) (f : Field) (v : String) : Result :=
  match f with
  | .browserName => { r with browserName := v }
  | .browserUnit => { r with browserUnit := v }
  | .browserVersion => { r with browserVersion := v }
  | .cpuArchitecture => { r with cpuArchitecture := v }
  | .deviceType => { r with deviceType := v }
  | .deviceModel => { r with deviceModel := v }
  | .deviceVendor => { r with deviceVendor := v }
  | .engineName => { r with engineName := v }
  | .engineVersion => { r with engineVersion := v }
  | .osName => { r with osName := v }
  | .osVersion => { r with osVersion := v }

/-- `std::replace(s.begin(), s.end(), old_, new_)`. -/
def FnReplace (old_ new_ : Char) (s : String) : String :=
  String.mk (s.data.map fun c => if c = old_ then new_ else c)

/-- `::tolower` in the default locale. -/
def tolower (c : Char) : Char :=
  if 65 ≤ c.toNat ∧ c.toNat ≤ 90 then Char.ofNat (c.toNat + 32) else c

/-- `std::transform(s.begin(), s.end(), s.begin(), ::tolower)`. -/
def FnToLower (s : String) : String := String.mk (s.data.map tolower)

/-- `mapping.find(s)`, then the mapped value or `s` itself. -/
def lookupOr (mapping : List (String × String)) (s : String) : String :=
  match mapping.lookup s with
  | some v => v
  | none => s

/-- The `mapping` of `FnFixSafariVersion`. -/
def FnFixSafariVersion.mapping : List (String × String) :=
  [("/8", "1.0"), ("/1", "1.2"), ("/3", "1.3"), ("/412", "2.0"), ("/416", "2.0.2"),
   ("/417", "2.0.3"), ("/419", "2.0.4"), ("/", "?")]

/-- `FnFixSafariVersion::operator()`. -/
def FnFixSafariVersion (s : String) : String := lookupOr FnFixSafariVersion.mapping s

/-- The `mapping` of `FnFixAmazonDeviceModel`. -/
def FnFixAmazonDeviceModel.mapping : List (String × String) :=
  [("KF", "Fire Phone"), ("SD", "Fire Phone")]

/-- `FnFixAmazonDeviceModel::operator()`. -/
def FnFixAmazonDeviceModel (s : String) : String := lookupOr FnFixAmazonDeviceModel.mapping s

/-- The `mapping` of `FnFixWindowsVersion`. -/
def FnFixWindowsVersion.mapping : List (String × String) :=
  [("4.90", "ME"), ("NT3.51", "NT 3.11"), ("NT4.0", "NT 4.0"), ("NT 5.0", "2000"),
   ("NT 5.1", "XP"), ("NT 5.2", "XP"), ("NT 6.0", "Vista"), ("NT 6.1", "7"), ("NT 6.2", "8"),
   ("NT 6.3", "8.1"), ("NT 6.4", "10"), ("NT 10.0", "10"), ("ARM", "RT")]

/-- `FnFixWindowsVersion::operator()`. -/
def FnFixWindowsVersion (s : String) : String := lookupOr FnFixWindowsVersion.mapping s

/-- The `mapping` of `FnFixSprintDeviceModel`. -/
def FnFixSprintDeviceModel.mapping : List (String × String) := [("7373KT", "Evo Shift 4G")]

/-- `FnFixSprintDeviceModel::operator()`. -/
def FnFixSprintDeviceModel (s : String) : String := lookupOr FnFixSprintDeviceModel.mapping s

/-- The `mapping` of `FnFixSprintDeviceVendor`. -/
def FnFixSprintDeviceVendor.mapping : List (String × String) := [("APA", "HTC")]

/-- `FnFixSprintDeviceVendor::operator()`. -/
def FnFixSprintDeviceVendor (s : String) : String := lookupOr FnFixSprintDeviceVendor.mapping s

/-- The callable objects an `Extractor` can hold in its `fn_` member. -/
inductive Formatter where
  | FnReplace (old_ new_ : Char)
  | FnToLower
  | FnFixSafariVersion
  | FnFixAmazonDeviceModel
  | FnFixWindowsVersion
  | FnFixSprintDeviceModel
  | FnFixSprintDeviceVendor
  deriving DecidableEq, Repr

/-- Calling the held object: `fn_(std::move(v))`. -/
def Formatter.call : Formatter → String → String
  | .FnReplace old_ new_, s => UaParser.FnReplace old_ new_ s
  | .FnToLower, s => UaParser.FnToLower s
  | .FnFixSafariVersion, s => UaParser.FnFixSafariVersion s
  | .FnFixAmazonDeviceModel, s => UaParser.FnFixAmazonDeviceModel s
  | .FnFixWindowsVersion, s => UaParser.FnFixWindowsVersion s
  | .FnFixSprintDeviceModel, s => UaParser.FnFixSprintDeviceModel s
  | .FnFixSprintDeviceVendor, s => UaParser.FnFixSprintDeviceVendor s

/-- Members of `Extractor`: target field `f_`, optional fixed value `v_`,
optional formatter `fn_`. The table never passes a null member pointer. -/
structure Extractor where
  f_ : Field
  v_ : Option String
  fn_ : Option Formatter
  deriving DecidableEq, Repr

/-- `Extractor(std::string Result::*f)`. -/
def Extractor.capture (f : Field) : Extractor := ⟨f, none, none⟩

/-- `Extractor(std::string Result::*f, std::string v)`. -/
def Extractor.literal (f : Field) (v : String) : Extractor := ⟨f, some v, none⟩

/-- `Extractor(std::string Result::*f, Formatter fn)`. -/
def Extractor.transform (f : Field) (fn : Formatter) : Extractor := ⟨f, none, some fn⟩

/-- `Extractor::operator()`. A fixed value is assigned whatever the match; else
the text of sub-match `group` is assigned, through `fn_` when there is one,
under the guard `matches.size() >= group` (the test of `f_` always passes). -/
def Extractor.call (e : Extractor) (_ua : String) (ms : smatch) (group : Nat)
    (result : Result) : Result :=
  match e.v_ with
  | some v => result.set e.f_ v
  | none =>
    if ms.size ≥ group then
      let v := sub_match_str (ms.get group)
      result.set e.f_ (match e.fn_ with
        | some fn => fn.call v
        | none => v)
    else result

/-- Members of `Matcher`: the alternative expressions and the extractors. -/
structure Matcher where
  expressions_ : List regex
  extractors_ : List Extractor
  deriving DecidableEq, Repr

/-- `using MatcherGroup = std::vector<Matcher>`. -/
abbrev MatcherGroup := List Matcher

/-- The inner loop of `Matcher::operator()`: extractor number `idx` is called
with group `idx + 1`. -/
def Matcher.extract (ua : String) (ms : smatch) : List Extractor → Nat → Result → Result
  | [], _, result => result
  | ex :: rest, idx, result => Matcher.extract ua ms rest (idx + 1) (ex.call ua ms (idx + 1) result)

/-- The outer loop of `Matcher::operator()` over the expressions still to try. -/
def Matcher.tryExpressions (extractors : List Extractor) (ua : String) (result : Result) :
    List regex → Bool × Result
  | [] => (false, result)
  | expression :: rest =>
    match regex_search ua expression with
    | none => Matcher.tryExpressions extractors ua result rest
    | some ms => (true, Matcher.extract ua ms extractors 0 result)

/-- `Matcher::operator()`: the returned flag and the result object afterwards. -/
def Matcher.call (m : Matcher) (ua : String) (result : Result) : Bool × Result :=
  Matcher.tryExpressions m.extractors_ ua result m.expressions_

/-- The device type tokens of `getMatcherGroups`. -/
def CONSOLE : String := "console"

/-- See `CONSOLE`. -/
def MOBILE : String := "mobile"

/-- See `CONSOLE`. -/
def SMARTTV : String := "smarttv"

/-- See `CONSOLE`. -/
def TABLET : String := "tablet"

/-- See `CONSOLE`. -/
def WEARABLE : String := "wearable"

/-- The flags `regex::ECMAScript | regex::icase`. -/
def i : flag_type := flag_type.or regex.ECMAScript regex.icase

/-- Matchers of the `browser` group, in source order. -/
def browserGroup : MatcherGroup := [
  Matcher.mk
    [regex.mk "(opera\\smini)\\/([\\w\\.-]+)" i, -- Opera Mini
     regex.mk "(opera\\s[mobiletab]+).+version\\/([\\w\\.-]+)" i, -- Opera Mobi/Tablet
     regex.mk "(opera).+version\\/([\\w\\.]+)" i, -- Opera > 9.80
     regex.mk "(opera)[\\/\\s]+([\\w\\.]+)" i] -- Opera < 9.80
    [Extractor.capture .browserName,
     Extractor.capture .browserVersion],
  Matcher.mk
    [regex.mk "\\s(opr)\\/([\\w\\.]+)" i] -- Opera Webkit
    [Extractor.literal .browserName "Opera",
     Extractor.capture .browserVersion],
  Matcher.mk
    [regex.mk "(kindle)\\/([\\w\\.]+)" i, -- Kindle
     regex.mk "(lunascape|maxthon|netfront|jasmine|blazer)[\\/\\s]?([\\w\\.]+)*" i, -- Lunascape/Maxthon/Netfront/Jasmine/Blazer
     regex.mk "(avant\\s|iemobile|slim|baidu)(?:browser)?[\\/\\s]?([\\w\\.]*)" i, -- Avant/IEMobile/SlimBrowser/Baidu
     regex.mk "(?:ms|\\()(ie)\\s([\\w\\.]+)" i, -- Internet Explorer
     regex.mk "(rekonq)\\/([\\w\\.]+)*" i, -- Rekonq
     regex.mk "(chromium|flock|rockmelt|midori|epiphany|silk|skyfire|ovibrowser|bolt|iron|vivaldi|iridium)\\/([\\w\\.-]+)" i] -- Chromium/Flock/RockMelt/Midori/Epiphany/Silk/Skyfire/Bolt/Iron/Iridium
    [Extractor.capture .browserName,
     Extractor.capture .browserVersion],
  Matcher.mk
    [regex.mk "(trident).+rv[:\\s]([\\w\\.]+).+like\\sgecko" i] -- IE11
    [Extractor.literal .browserName "IE",
     Extractor.capture .browserVersion],
  Matcher.mk
    [regex.mk "(edge)\\/((\\d+)?[\\w\\.]+)" i] -- Microsoft Edge
    [Extractor.capture .browserName,
     Extractor.capture .browserVersion],
  Matcher.mk
    [regex.mk "(yabrowser)\\/([\\w\\.]+)" i] -- Yandex
    [Extractor.literal .browserName "Yandex",
     Extractor.capture .browserVersion],
  Matcher.mk
    [regex.mk "(comodo_dragon)\\/([\\w\\.]+)" i] -- Comodo Dragon
    [Extractor.transform .browserName (.FnReplace '_' ' '),
     Extractor.capture .browserVersion],
  Matcher.mk
    [regex.mk "(chrome|omniweb|arora|[tizenoka]{5}\\s?browser)\\/v?([\\w\\.]+)" i, -- Chrome/OmniWeb/Arora/Tizen/Nokia
     regex.mk "(qqbrowser)[\\/\\s]?([\\w\\.]+)" i] -- QQBrowser
    [Extractor.capture .browserName,
     Extractor.capture .browserVersion],
  Matcher.mk
    [regex.mk "(uc\\s?browser)[\\/\\s]?([\\w\\.]+)" i, -- UCBrowser
     regex.mk "ucweb.+(ucbrowser)[\\/\\s]?([\\w\\.]+)" i,
     regex.mk "JUC.+(ucweb)[\\/\\s]?([\\w\\.]+)" i]
    [Extractor.literal .browserName "UCBrowser",
     Extractor.capture .browserVersion],
  Matcher.mk
    [regex.mk "(dolfin)\\/([\\w\\.]+)" i] -- Dolphin
    [Extractor.literal .browserName "Dolphin",
     Extractor.capture .browserVersion],
  Matcher.mk
    [regex.mk "((?:android.+)crmo|crios)\\/([\\w\\.]+)" i] -- Chrome for Android/iOS
    [Extractor.literal .browserName "Chrome",
     Extractor.capture .browserVersion],
  Matcher.mk
    [regex.mk "XiaoMi\\/MiuiBrowser\\/([\\w\\.]+)" i] -- MIUI Browser
    [Extractor.capture .browserVersion,
     Extractor.literal .browserName "MIUI Browser"],
  Matcher.mk
    [regex.mk "android.+version\\/([\\w\\.]+)\\s+(?:mobile\\s?safari|safari)" i] -- Android Browser
    [Extractor.capture .browserVersion,
     Extractor.literal .browserName "Android Browser"],
  Matcher.mk
    [regex.mk "FBAV\\/([\\w\\.]+);" i] -- Facebook App for iOS
    [Extractor.capture .browserVersion,
     Extractor.literal .browserName "Facebook"],
  Matcher.mk
    [regex.mk "version\\/([\\w\\.]+).+?mobile\\/\\w+\\s(safari)" i] -- Mobile Safari
    [Extractor.capture .browserVersion,
     Extractor.literal .browserName "Mobile Safari"],
  Matcher.mk
    [regex.mk "version\\/([\\w\\.]+).+?(mobile\\s?safari|safari)" i] -- Safari & Safari Mobile
    [Extractor.capture .browserVersion,
     Extractor.capture .browserName],
  Matcher.mk
    [regex.mk "webkit.+?(mobile\\s?safari|safari)(\\/[\\w\\.]+)" i] -- Safari < 3.0
    [Extractor.capture .browserName,
     Extractor.transform .browserVersion .FnFixSafariVersion],
  Matcher.mk
    [regex.mk "(konqueror)\\/([\\w\\.]+)" i, -- Konqueror
     regex.mk "(webkit|khtml)\\/([\\w\\.]+)" i]
    [Extractor.capture .browserName,
     Extractor.capture .browserVersion],
  Matcher.mk
    [regex.mk "(navigator|netscape)\\/([\\w\\.-]+)" i] -- Netscape
    [Extractor.literal .browserName "Netscape",
     Extractor.capture .browserVersion],
  Matcher.mk
    [regex.mk "fxios\\/([\\w\\.-]+)" i] -- Firefox for iOS
    [Extractor.capture .browserVersion,
     Extractor.literal .browserName "Firefox"],
  Matcher.mk
    [regex.mk "(swiftfox)" i, -- Swiftfox
     regex.mk "(icedragon|iceweasel|camino|chimera|fennec|maemo\\sbrowser|minimo|conkeror)[\\/\\s]?([\\w\\.\\+]+)" i, -- IceDragon/Iceweasel/Camino/Chimera/Fennec/Maemo/Minimo/Conkeror
     regex.mk "(firefox|seamonkey|k-meleon|icecat|iceape|firebird|phoenix)\\/([\\w\\.-]+)" i, -- Firefox/SeaMonkey/K-Meleon/IceCat/IceApe/Firebird/Phoenix
     regex.mk "(mozilla)\\/([\\w\\.]+).+rv\\:.+gecko\\/\\d+" i, -- Mozilla
     regex.mk "(polaris|lynx|dillo|icab|doris|amaya|w3m|netsurf)[\\/\\s]?([\\w\\.]+)" i, -- Polaris/Lynx/Dillo/iCab/Doris/Amaya/w3m/NetSurf
     regex.mk "(links)\\s\\(([\\w\\.]+)" i, -- Links
     regex.mk "(gobrowser)\\/?([\\w\\.]+)*" i, -- GoBrowser
     regex.mk "(ice\\s?browser)\\/v?([\\w\\._]+)" i, -- ICE Browser
     regex.mk "(mosaic)[\\/\\s]([\\w\\.]+)" i] -- Mosaic
    [Extractor.capture .browserName,
     Extractor.capture .browserVersion]]

/-- Matchers of the `cpu` group, in source order. -/
def cpuGroup : MatcherGroup := [
  Matcher.mk
    [regex.mk "(?:(amd|x(?:(?:86|64)[_-])?|wow|win)64)[;\\)]" i] -- AMD64
    [Extractor.literal .cpuArchitecture "amd64"],
  Matcher.mk
    [regex.mk "(ia32(?=;))" i] -- IA32 (quicktime)
    [Extractor.transform .browserVersion .FnToLower],
  Matcher.mk
    [regex.mk "((?:i[346]|x)86)[;\\)]" i] -- IA32
    [Extractor.literal .cpuArchitecture "ia32"],
  Matcher.mk
    [regex.mk "windows\\s(ce|mobile);\\sppc;" i]
    [Extractor.literal .cpuArchitecture "arm"],
  Matcher.mk
    [regex.mk "((?:ppc|powerpc)(?:64)?)(?:\\smac|;|\\))" i] -- PowerPC
    [Extractor.transform .cpuArchitecture .FnToLower],
  Matcher.mk
    [regex.mk "(sun4\\w)[;\\)]" i] -- SPARC
    [Extractor.literal .cpuArchitecture "sparc"],
  Matcher.mk
    [regex.mk "((?:avr32|ia64(?=;))|68k(?=\\))|arm(?:64|(?=v\\d+;))|(?=atmel\\s)avr|(?:irix|mips|sparc)(?:64)?(?=;)|pa-risc)" i]
    [Extractor.transform .cpuArchitecture .FnToLower]]

/-- Matchers of the `device` group, in source order. -/
def deviceGroup : MatcherGroup := [
  Matcher.mk
    [regex.mk "\\((ipad|playbook);[\\w\\s\\);-]+(rim|apple)" i] -- iPad/PlayBook
    [Extractor.capture .deviceModel,
     Extractor.capture .deviceVendor,
     Extractor.literal .deviceType TABLET],
  Matcher.mk
    [regex.mk "applecoremedia\\/[\\w\\.]+ \\((ipad)" regex.normal] -- iPad
    [Extractor.capture .deviceModel,
     Extractor.literal .deviceVendor "Apple",
     Extractor.literal .deviceType TABLET],
  Matcher.mk
    [regex.mk "(apple\\s{0,1}tv)" i] -- Apple TV
    [Extractor.literal .deviceModel "Apple TV",
     Extractor.literal .deviceVendor "Apple"],
  Matcher.mk
    [regex.mk "(archos)\\s(gamepad2?)" i, -- Archos
     regex.mk "(hp).+(touchpad)" i, -- HP TouchPad
     regex.mk "(kindle)\\/([\\w\\.]+)" i, -- Kindle
     regex.mk "\\s(nook)[\\w\\s]+build\\/(\\w+)" i, -- Nook
     regex.mk "(dell)\\s(strea[kpr\\s\\d]*[\\dko])" i] -- Dell Streak
    [Extractor.capture .deviceVendor,
     Extractor.capture .deviceModel,
     Extractor.literal .deviceType TABLET],
  Matcher.mk
    [regex.mk "(kf[A-z]+)\\sbuild\\/[\\w\\.]+.*silk\\/" i] -- Kindle Fire HD
    [Extractor.capture .deviceModel,
     Extractor.literal .deviceVendor "Amazon",
     Extractor.literal .deviceType TABLET],
  Matcher.mk
    [regex.mk "(sd|kf)[0349hijorstuw]+\\sbuild\\/[\\w\\.]+.*silk\\/" i] -- Fire Phone
    [Extractor.transform .deviceModel .FnFixAmazonDeviceModel,
     Extractor.literal .deviceVendor "Amazon",
     Extractor.literal .deviceType MOBILE],
  Matcher.mk
    [regex.mk "\\((ip[honed|\\s\\w*]+);.+(apple)" i] -- iPod/iPhone
    [Extractor.capture .deviceModel,
     Extractor.capture .deviceVendor,
     Extractor.literal .deviceType MOBILE],
  Matcher.mk
    [regex.mk "\\((ip[honed|\\s\\w*]+);" i] -- iPod/iPhone
    [Extractor.capture .deviceModel,
     Extractor.literal .deviceVendor "Apple",
     Extractor.literal .deviceType MOBILE],
  Matcher.mk
    [regex.mk "(blackberry)[\\s-]?(\\w+)" i, -- BlackBerry
     regex.mk "(blackberry|benq|palm(?=\\-)|sonyericsson|acer|asus|dell|huawei|meizu|motorola|polytron)[\\s_-]?([\\w-]+)*" i, -- BenQ/Palm/Sony-Ericsson/Acer/Asus/Dell/Huawei/Meizu/Motorola/Polytron
     regex.mk "(hp)\\s([\\w\\s]+\\w)" i, -- HP iPAQ
     regex.mk "(asus)-?(\\w+)" i] -- Asus
    [Extractor.capture .deviceVendor,
     Extractor.capture .deviceModel,
     Extractor.literal .deviceType MOBILE],
  Matcher.mk
    [regex.mk "\\(bb10;\\s(\\w+)" i] -- BlackBerry 10
    [Extractor.capture .deviceModel,
     Extractor.literal .deviceVendor "BlackBerry",
     Extractor.literal .deviceType MOBILE],
  Matcher.mk
    [regex.mk "android.+(transfo[prime\\s]{4,10}\\s\\w+|eeepc|slider\\s\\w+|nexus 7)" i] -- Asus Tablets
    [Extractor.capture .deviceModel,
     Extractor.literal .deviceVendor "Asus",
     Extractor.literal .deviceType TABLET],
  Matcher.mk
    [regex.mk "(sony)\\s(tablet\\s[ps])\\sbuild\\/" i, -- Sony
     regex.mk "(sony)?(?:sgp.+)\\sbuild\\/" i]
    [Extractor.literal .deviceVendor "Sony",
     Extractor.literal .deviceModel "Xperia Tablet",
     Extractor.literal .deviceType TABLET],
  Matcher.mk
    [regex.mk "(?:sony)?(?:(?:(?:c|d)\\d{4})|(?:so[-l].+))\\sbuild\\/" i]
    [Extractor.literal .deviceVendor "Sony",
     Extractor.literal .deviceModel "Xperia Phone",
     Extractor.literal .deviceType MOBILE],
  Matcher.mk
    [regex.mk "\\s(ouya)\\s" i, -- Ouya
     regex.mk "(nintendo)\\s([wids3u]+)" i] -- Nintendo
    [Extractor.capture .deviceVendor,
     Extractor.capture .deviceModel,
     Extractor.literal .deviceType CONSOLE],
  Matcher.mk
    [regex.mk "android.+;\\s(shield)\\sbuild" i] -- Nvidia
    [Extractor.capture .deviceModel,
     Extractor.literal .deviceVendor "Nvidia",
     Extractor.literal .deviceType CONSOLE],
  Matcher.mk
    [regex.mk "(playstation\\s[3portablevi]+)" i] -- Playstation
    [Extractor.capture .deviceModel,
     Extractor.literal .deviceVendor "Sony",
     Extractor.literal .deviceType CONSOLE],
  Matcher.mk
    [regex.mk "(sprint\\s(\\w+))" i] -- Sprint Phones
    [Extractor.transform .deviceVendor .FnFixSprintDeviceVendor,
     Extractor.transform .deviceModel .FnFixSprintDeviceModel,
     Extractor.literal .deviceType MOBILE],
  Matcher.mk
    [regex.mk "(lenovo)\\s?(S(?:5000|6000)+(?:[-][\\w+]))" i] -- Lenovo tablets
    [Extractor.capture .deviceVendor,
     Extractor.capture .deviceModel,
     Extractor.literal .deviceType TABLET],
  Matcher.mk
    [regex.mk "(htc)[;_\\s-]+([\\w\\s]+(?=\\))|\\w+)*" i, -- HTC
     regex.mk "(zte)-(\\w+)*" i, -- ZTE
     regex.mk "(alcatel|geeksphone|huawei|lenovo|nexian|panasonic|(?=;\\s)sony)[_\\s-]?([\\w-]+)*" i] -- Alcatel/GeeksPhone/Huawei/Lenovo/Nexian/Panasonic/Sony
    [Extractor.capture .deviceVendor,
     Extractor.transform .deviceModel (.FnReplace '_' ' '),
     Extractor.literal .deviceType MOBILE],
  Matcher.mk
    [regex.mk "(nexus\\s9)" i] -- HTC Nexus 9
    [Extractor.capture .deviceModel,
     Extractor.literal .deviceVendor "HTC",
     Extractor.literal .deviceType TABLET],
  Matcher.mk
    [regex.mk "[\\s\\(;](xbox(?:\\sone)?)[\\s\\);]" i] -- Microsoft Xbox
    [Extractor.capture .deviceModel,
     Extractor.literal .deviceVendor "Microsoft",
     Extractor.literal .deviceType CONSOLE],
  Matcher.mk
    [regex.mk "(kin\\.[onetw]{3})" i] -- Microsoft Kin
    [Extractor.transform .deviceModel (.FnReplace '.' ' '),
     Extractor.literal .deviceVendor "Microsoft",
     Extractor.literal .deviceType MOBILE],
  Matcher.mk
    [regex.mk "\\s(milestone|droid(?:[2-4x]|\\s(?:bionic|x2|pro|razr))?(:?\\s4g)?)[\\w\\s]+build\\/" i, -- Motorola
     regex.mk "mot[\\s-]?(\\w+)*" i,
     regex.mk "(XT\\d{3,4}) build\\/" i,
     regex.mk "(nexus\\s[6])" i]
    [Extractor.capture .deviceModel,
     Extractor.literal .deviceVendor "Motorola",
     Extractor.literal .deviceType MOBILE],
  Matcher.mk
    [regex.mk "android.+\\s(mz60\\d|xoom[\\s2]{0,2})\\sbuild\\/" i]
    [Extractor.capture .deviceModel,
     Extractor.literal .deviceVendor "Motorola",
     Extractor.literal .deviceType TABLET],
  Matcher.mk
    [regex.mk "android.+((sch-i[89]0\\d|shw-m380s|gt-p\\d{4}|gt-n8000|sgh-t8[56]9|nexus 10))" i, -- Samsung
     regex.mk "((SM-T\\w+))" i]
    [Extractor.literal .deviceVendor "Samsung",
     Extractor.capture .deviceModel,
     Extractor.literal .deviceType TABLET],
  Matcher.mk
    [regex.mk "((s[cgp]h-\\w+|gt-\\w+|galaxy\\snexus|sm-n900))" i, -- Samsung
     regex.mk "(sam[sung]*)[\\s-]*(\\w+-?[\\w-]*)*" i,
     regex.mk "sec-((sgh\\w+))" i]
    [Extractor.literal .deviceVendor "Samsung",
     Extractor.capture .deviceModel,
     Extractor.literal .deviceType MOBILE],
  Matcher.mk
    [regex.mk "(samsung);smarttv" i]
    [Extractor.capture .deviceModel,
     Extractor.capture .deviceVendor,
     Extractor.literal .deviceType SMARTTV],
  Matcher.mk
    [regex.mk "\\(dtv[\\);].+(aquos)" i] -- Sharp
    [Extractor.capture .deviceModel,
     Extractor.literal .deviceVendor "Sharp",
     Extractor.literal .deviceType SMARTTV],
  Matcher.mk
    [regex.mk "sie-(\\w+)*" i] -- Siemens
    [Extractor.capture .deviceModel,
     Extractor.literal .deviceVendor "Siemens",
     Extractor.literal .deviceType MOBILE],
  Matcher.mk
    [regex.mk "(maemo|nokia).*(n900|lumia\\s\\d+)" i, -- Nokia
     regex.mk "(nokia)[\\s_-]?([\\w-]+)*" i]
    [Extractor.literal .deviceVendor "Nokia",
     Extractor.capture .deviceModel,
     Extractor.literal .deviceType MOBILE],
  Matcher.mk
    [regex.mk "android\\s3\\.[\\s\\w;-]{10}(a\\d{3})" i] -- Acer
    [Extractor.capture .deviceModel,
     Extractor.literal .deviceVendor "Acer",
     Extractor.literal .deviceType TABLET],
  Matcher.mk
    [regex.mk "android\\s3\\.[\\s\\w;-]{10}(lg?)-([06cv9]{3,4})" i] -- LG Tablet
    [Extractor.literal .deviceVendor "LG",
     Extractor.capture .deviceModel,
     Extractor.literal .deviceType TABLET],
  Matcher.mk
    [regex.mk "(lg) netcast\\.tv" i] -- LG SmartTV
    [Extractor.capture .deviceVendor,
     Extractor.capture .deviceModel,
     Extractor.literal .deviceType SMARTTV],
  Matcher.mk
    [regex.mk "(nexus\\s[456])" i, -- LG
     regex.mk "lg[e;\\s\\/-]+(\\w+)*" i]
    [Extractor.capture .deviceModel,
     Extractor.literal .deviceVendor "LG",
     Extractor.literal .deviceType MOBILE],
  Matcher.mk
    [regex.mk "android.+(ideatab[a-z0-9\\-\\s]+)" i] -- Lenovo
    [Extractor.capture .deviceModel,
     Extractor.literal .deviceVendor "Lenovo",
     Extractor.literal .deviceType TABLET],
  Matcher.mk
    [regex.mk "linux;.+((jolla));" i] -- Jolla
    [Extractor.capture .deviceVendor,
     Extractor.capture .deviceModel,
     Extractor.literal .deviceType MOBILE],
  Matcher.mk
    [regex.mk "((pebble))app\\/[\\d\\.]+\\s" i] -- Pebble
    [Extractor.capture .deviceVendor,
     Extractor.capture .deviceModel,
     Extractor.literal .deviceType WEARABLE],
  Matcher.mk
    [regex.mk "android.+;\\s(glass)\\s\\d" i] -- Google Glass
    [Extractor.capture .deviceModel,
     Extractor.literal .deviceVendor "Google",
     Extractor.literal .deviceType WEARABLE],
  Matcher.mk
    [regex.mk "android.+(\\w+)\\s+build\\/hm\\1" i, -- Xiaomi Hongmi 'numeric' models
     regex.mk "android.+(hm[\\s\\-_]*note?[\\s_]*(?:\\d\\w)?)\\s+build" i, -- Xiaomi Hongmi
     regex.mk "android.+(mi[\\s\\-_]*(?:one|one[\\s_]plus)?[\\s_]*(?:\\d\\w)?)\\s+build" i] -- Xiaomi Mi
    [Extractor.transform .deviceModel (.FnReplace '_' ' '),
     Extractor.literal .deviceVendor "Xiaomi",
     Extractor.literal .deviceType MOBILE],
  Matcher.mk
    [regex.mk "(mobile|tablet);.+rv\\:.+gecko\\/" i] -- Unidentifiable
    [Extractor.transform .deviceType .FnToLower,
     Extractor.literal .deviceVendor "",
     Extractor.literal .deviceModel ""]]

/-- Matchers of the `engine` group, in source order. -/
def engineGroup : MatcherGroup := [
  Matcher.mk
    [regex.mk "windows.+\\sedge\\/([\\w\\.]+)" i] -- EdgeHTML
    [Extractor.capture .engineVersion,
     Extractor.literal .engineName "EdgeHTML"],
  Matcher.mk
    [regex.mk "(presto)\\/([\\w\\.]+)" i, -- Presto
     regex.mk "(webkit|trident|netfront|netsurf|amaya|lynx|w3m)\\/([\\w\\.]+)" i, -- WebKit/Trident/NetFront/NetSurf/Amaya/Lynx/w3m
     regex.mk "(khtml|tasman|links)[\\/\\s]\\(?([\\w\\.]+)" i, -- KHTML/Tasman/Links
     regex.mk "(icab)[\\/\\s]([23]\\.[\\d\\.]+)" i] -- iCab
    [Extractor.capture .engineName,
     Extractor.capture .engineVersion],
  Matcher.mk
    [regex.mk "rv\\:([\\w\\.]+).*(gecko)" i] -- Gecko
    [Extractor.capture .engineVersion,
     Extractor.capture .engineName]]

/-- Matchers of the `os` group, in source order. -/
def osGroup : MatcherGroup := [
  Matcher.mk
    [regex.mk "microsoft\\s(windows)\\s(vista|xp)" i] -- Windows (iTunes)
    [Extractor.capture .osName,
     Extractor.capture .osVersion],
  Matcher.mk
    [regex.mk "(windows)\\snt\\s6\\.2;\\s(arm)" i, -- Windows RT
     regex.mk "(windows\\sphone(?:\\sos)*|windows\\smobile|windows)[\\s\\/]?([ntce\\d\\.\\s]+\\w)" i]
    [Extractor.capture .osName,
     Extractor.transform .osVersion .FnFixWindowsVersion],
  Matcher.mk
    [regex.mk "(win(?=3|9|n)|win\\s9x\\s)([nt\\d\\.]+)" i]
    [Extractor.literal .osName "Windows",
     Extractor.transform .osVersion .FnFixWindowsVersion],
  Matcher.mk
    [regex.mk "\\((bb)(10);" i] -- BlackBerry 10
    [Extractor.literal .osName "BlackBerry",
     Extractor.capture .osVersion],
  Matcher.mk
    [regex.mk "(blackberry)\\w*\\/?([\\w\\.]+)*" i, -- Blackberry
     regex.mk "(tizen)[\\/\\s]([\\w\\.]+)" i, -- Tizen
     regex.mk "(android|webos|palm\\sos|qnx|bada|rim\\stablet\\sos|meego|contiki)[\\/\\s-]?([\\w\\.]+)*" i, -- Android/WebOS/Palm/QNX/Bada/RIM/MeeGo/Contiki
     regex.mk "linux;.+(sailfish);" i] -- Sailfish OS
    [Extractor.capture .osName,
     Extractor.capture .osVersion],
  Matcher.mk
    [regex.mk "(symbian\\s?os|symbos|s60(?=;))[\\/\\s-]?([\\w\\.]+)*" i] -- Symbian
    [Extractor.literal .osName "Symbian",
     Extractor.capture .osVersion],
  Matcher.mk
    [regex.mk "\\((series40);" i] -- Series 40
    [Extractor.capture .osName],
  Matcher.mk
    [regex.mk "mozilla.+\\(mobile;.+gecko.+firefox" i] -- Firefox OS
    [Extractor.literal .osName "Firefox OS",
     Extractor.capture .osVersion],
  Matcher.mk
    [regex.mk "(nintendo|playstation)\\s([wids3portablevu]+)" i, -- Nintendo/Playstation
     regex.mk "(mint)[\\/\\s\\(]?(\\w+)*" i, -- Mint
     regex.mk "(mageia|vectorlinux)[;\\s]" i, -- Mageia/VectorLinux
     regex.mk "(joli|[kxln]?ubuntu|debian|[open]*suse|gentoo|arch|slackware|fedora|mandriva|centos|pclinuxos|redhat|zenwalk|linpus)[\\/\\s-]?([\\w\\.-]+)*" i, -- Joli/Ubuntu/Debian/SUSE/Gentoo/Arch/Slackware/Fedora/Mandriva/CentOS/PCLinuxOS/RedHat/Zenwalk/Linpus
     regex.mk "(hurd|linux)\\s?([\\w\\.]+)*" i, -- Hurd/Linux
     regex.mk "(gnu)\\s?([\\w\\.]+)*" i] -- GNU
    [Extractor.capture .osName,
     Extractor.capture .osVersion],
  Matcher.mk
    [regex.mk "(cros)\\s[\\w]+\\s([\\w\\.]+\\w)" i] -- Chromium OS
    [Extractor.literal .osName "Chromium OS",
     Extractor.capture .osVersion],
  Matcher.mk
    [regex.mk "(sunos)\\s?([\\w\\.]+\\d)*" i] -- Solaris
    [Extractor.literal .osName "Solaris",
     Extractor.capture .osVersion],
  Matcher.mk
    [regex.mk "\\s([frentopc-]{0,4}bsd|dragonfly)\\s?([\\w\\.]+)*" i] -- FreeBSD/NetBSD/OpenBSD/PC-BSD/DragonFly
    [Extractor.capture .osName,
     Extractor.capture .osVersion],
  Matcher.mk
    [regex.mk "(ip[honead]+)(?:.*os\\s*([\\w]+)*\\slike\\smac|;\\sopera)" i] -- iOS
    [Extractor.literal .osName "iOS",
     Extractor.transform .osVersion (.FnReplace '_' '.')],
  Matcher.mk
    [regex.mk "(mac\\sos\\sx)\\s?([\\w\\s\\.]+\\w)*" i, -- Mac OS
     regex.mk "(macintosh|mac(?=_powerpc)\\s)" i]
    [Extractor.literal .osName "Mac OS",
     Extractor.transform .osVersion (.FnReplace '_' '.')],
  Matcher.mk
    [regex.mk "((?:open)?solaris)[\\/\\s-]?([\\w\\.]+)*" i, -- Solaris
     regex.mk "(haiku)\\s(\\w+)" i, -- Haiku
     regex.mk "(aix)\\s((\\d)(?=\\.|\\)|\\s)[\\w\\.]*)*" i, -- AIX
     regex.mk "(plan\\s9|minix|beos|os\\/2|amigaos|morphos|risc\\sos|openvms)" i, -- Plan9/Minix/BeOS/OS2/AmigaOS/MorphOS/RISCOS/OpenVMS
     regex.mk "(unix)\\s?([\\w\\.]+)*" i] -- UNIX
    [Extractor.capture .osName,
     Extractor.capture .osVersion]]


/-- The table `regexes` of `getMatcherGroups`: the five groups in source order. -/
def getMatcherGroups : List MatcherGroup :=
  [browserGroup, cpuGroup, deviceGroup, engineGroup, osGroup]

/-- The inner loop of `parse` over one group: stop at the first matcher that
returns true. -/
def runGroup (ua : String) : MatcherGroup → Result → Result
  | [], result => result
  | matcher :: rest, result =>
    match matcher.call ua result with
    | (true, result1) => result1
    | (false, result1) => runGroup ua rest result1

/-- `UaParser::parse`: every group is run in turn on the same result object. -/
def parse (ua : String) : Result :=
  getMatcherGroups.foldl (fun result matcherGroup => runGroup ua matcherGroup result) {}

/-- Whether some alternative of the matcher is found in `ua`. -/
def Matcher.matchesUa (m : Matcher) (ua : String) : Bool :=
  m.expressions_.any fun e => (regex_search ua e).isSome

/-- Whether some extractor of the matcher has `f` as its target. -/
def Matcher.writes (m : Matcher) (f : Field) : Bool :=
  m.extractors_.any fun ex => decide (ex.f_ = f)

/-- Whether some matcher of the group has an extractor with target `f`. -/
def groupWrites (g : MatcherGroup) (f : Field) : Bool :=
  g.any fun m => m.writes f

/-- The tokens the table uses for `deviceType`, and the empty default. -/
def deviceTypeTokens : List String := [CONSOLE, MOBILE, SMARTTV, TABLET, WEARABLE, ""]

/-- An extractor that leaves `deviceType` alone or assigns it a fixed token. -/
def Extractor.deviceTypeSafe (ex : Extractor) : Bool :=
  match ex.v_ with
  | some v => decide (ex.f_ ≠ Field.deviceType) || deviceTypeTokens.contains v
  | none => decide (ex.f_ ≠ Field.deviceType)

end UaParser

namespace RegexImpl

/-- Modelled from the spec: `mark_count()` of the regular-expression library, the
number of capturing groups of the expression; 0 stands for a pattern that does
not compile. -/
def regex.mark_count (e : regex) : Nat :=
  match compile e.pattern with
  | some p => p.ngroups
  | none => 0

/-- The state handed on lies ahead of the state on entry in the same text, at
the position that counts the characters between them, with as many group slots. -/
def Ahead (s s1 : MState) : Prop :=
  s1.caps.length = s.caps.length
    ∧ ∃ consumed, s.rest = consumed ++ s1.rest ∧ s1.pos = s.pos + consumed.length

end RegexImpl

namespace UaParser

open RegexImpl

/-- The literal values the cpu group assigns to `cpuArchitecture`. -/
def cpuArchitectureLiterals : List String := ["amd64", "ia32", "arm", "sparc"]

/-- An extractor that leaves `cpuArchitecture` alone, assigns it one of the
fixed literals, or assigns it a capture through `FnToLower`. -/
def Extractor.cpuArchitectureSafe (ex : Extractor) : Bool :=
  decide (ex.f_ ≠ Field.cpuArchitecture)
    || (match ex.v_ with
        | some v => cpuArchitectureLiterals.contains v
        | none => decide (ex.fn_ = some Formatter.FnToLower))

end UaParser

/-! ## Theorems -/

namespace UaParser

open RegexImpl

/-! ### The two search loops -/

theorem Matcher.extract_eq_foldl (ua : String) (ms : smatch) (exts : List Extractor) (idx : Nat)
    (r : Result) :
    Matcher.extract ua ms exts idx r
      = (exts.enumFrom idx).foldl (fun acc p => p.2.call ua ms (p.1 + 1) acc) r := by
  induction exts generalizing idx r with
  | nil => rfl
  | cons ex rest ih => simp [Matcher.extract, List.enumFrom, ih]

theorem Matcher.tryExpressions_none (exts : List Extractor) (ua : String) (r : Result)
    (es : List regex) (h : ∀ e ∈ es, regex_search ua e = none) :
    Matcher.tryExpressions exts ua r es = (false, r) := by
  induction es with
  | nil => rfl
  | cons e rest ih =>
    have he : regex_search ua e = none := h e (List.mem_cons_self _ _)
    simp only [Matcher.tryExpressions, he]
    exact ih fun e' he' => h e' (List.mem_cons_of_mem _ he')

theorem Matcher.tryExpressions_append (exts : List Extractor) (ua : String) (r : Result)
    (pre : List regex) (e : regex) (post : List regex) (ms : smatch)
    (hpre : ∀ e' ∈ pre, regex_search ua e' = none) (he : regex_search ua e = some ms) :
    Matcher.tryExpressions exts ua r (pre ++ e :: post)
      = (true, Matcher.extract ua ms exts 0 r) := by
  induction pre with
  | nil => simp [Matcher.tryExpressions, he]
  | cons e0 rest ih =>
    have h0 : regex_search ua e0 = none := hpre e0 (List.mem_cons_self _ _)
    simp only [List.cons_append, Matcher.tryExpressions, h0]
    exact ih fun e' he' => hpre e' (List.mem_cons_of_mem _ he')

/-- Splitting a list at its first element on which `f` answers. -/
theorem exists_first_some {α β : Type} (f : α → Option β) (l : List α)
    (h : ∃ a ∈ l, (f a).isSome = true) :
    ∃ pre a post b, l = pre ++ a :: post ∧ (∀ x ∈ pre, f x = none) ∧ f a = some b := by
  induction l with
  | nil => simp at h
  | cons x rest ih =>
    cases hx : f x with
    | some b => exact ⟨[], x, rest, b, rfl, by simp, hx⟩
    | none =>
      have h2 : ∃ a ∈ rest, (f a).isSome = true := by
        obtain ⟨a, ha, hs⟩ := h
        rcases List.mem_cons.mp ha with rfl | ha2
        · simp [hx] at hs
        · exact ⟨a, ha2, hs⟩
      obtain ⟨pre, a, post, b, hl, hpre, ha⟩ := ih h2
      refine ⟨x :: pre, a, post, b, by simp [hl], ?_, ha⟩
      intro y hy
      rcases List.mem_cons.mp hy with rfl | hy2
      · exact hx
      · exact hpre y hy2

theorem Matcher.call_fst_false_iff (m : Matcher) (ua : String) (r : Result) :
    (m.call ua r).1 = false ↔ ∀ e ∈ m.expressions_, regex_search ua e = none := by
  constructor
  · intro h e he
    cases hs : regex_search ua e with
    | none => rfl
    | some ms =>
      obtain ⟨pre, a, post, b, hl, hpre, ha⟩ :=
        exists_first_some (regex_search ua) m.expressions_ ⟨e, he, by simp [hs]⟩
      have := Matcher.tryExpressions_append m.extractors_ ua r pre a post b hpre ha
      rw [← hl] at this
      simp [Matcher.call, this] at h
  · intro h
    simp [Matcher.call, Matcher.tryExpressions_none m.extractors_ ua r m.expressions_ h]

theorem Matcher.call_of_not_matchesUa (m : Matcher) (ua : String) (r : Result)
    (h : m.matchesUa ua = false) : m.call ua r = (false, r) := by
  apply Matcher.tryExpressions_none
  intro e he
  simp only [Matcher.matchesUa, List.any_eq_false] at h
  have := h e he
  cases hs : regex_search ua e with
  | none => rfl
  | some ms => simp [hs] at this

theorem Matcher.call_fst_of_matchesUa (m : Matcher) (ua : String) (r : Result)
    (h : m.matchesUa ua = true) : (m.call ua r).1 = true := by
  cases hc : (m.call ua r).1 with
  | true => rfl
  | false =>
    have hn := (Matcher.call_fst_false_iff m ua r).mp hc
    simp only [Matcher.matchesUa, List.any_eq_true] at h
    obtain ⟨e, he, hs⟩ := h
    simp [hn e he] at hs

theorem runGroup_eq_find (ua : String) (g : MatcherGroup) (r : Result) :
    runGroup ua g r
      = match g.find? (fun m => m.matchesUa ua) with
        | some m => (m.call ua r).2
        | none => r := by
  induction g generalizing r with
  | nil => rfl
  | cons m rest ih =>
    cases hm : m.matchesUa ua with
    | true =>
      have h1 := Matcher.call_fst_of_matchesUa m ua r hm
      simp only [runGroup, List.find?, hm]
      cases hc : m.call ua r with
      | mk b r1 =>
        rw [hc] at h1
        simp only at h1
        subst h1
        rfl
    | false =>
      have h1 := Matcher.call_of_not_matchesUa m ua r hm
      simp only [runGroup, List.find?, hm, h1]
      exact ih r

/-! ### Claims on the search loops -/

/-- C1: running a category group on `(ua, r)` gives the result of its earliest
matcher that matches `ua`, applied to `r` alone, and gives `r` itself when no
matcher of the group matches. -/
theorem C1_category_first_match_wins (ua : String) (g : MatcherGroup) (r : Result) :
    runGroup ua g r
      = match g.find? (fun m => m.matchesUa ua) with
        | some m => (m.call ua r).2
        | none => r :=
  runGroup_eq_find ua g r

/-- C2: when some alternative of a matcher is found in `ua`, the matcher returns
true and its result is `r` after one pass over the extractors in list order, the
extractor at list index `k` being called with group `k + 1` of the match of the
first alternative that is found. -/
theorem C2_first_alternative_wins (m : Matcher) (ua : String) (r : Result)
    (h : ∃ e ∈ m.expressions_, (regex_search ua e).isSome = true) :
    ∃ pre e post ms, m.expressions_ = pre ++ e :: post
      ∧ (∀ e' ∈ pre, regex_search ua e' = none)
      ∧ regex_search ua e = some ms
      ∧ m.call ua r
          = (true, m.extractors_.enum.foldl (fun acc p => p.2.call ua ms (p.1 + 1) acc) r) := by
  obtain ⟨pre, e, post, ms, hl, hpre, he⟩ := exists_first_some (regex_search ua) m.expressions_ h
  refine ⟨pre, e, post, ms, hl, hpre, he, ?_⟩
  have := Matcher.tryExpressions_append m.extractors_ ua r pre e post ms hpre he
  rw [← hl, Matcher.extract_eq_foldl] at this
  exact this

/-- C3: a matcher returns false exactly when none of its alternatives is found
in `ua`, and then the result object is left as it was. -/
theorem C3_no_alternative_no_change (m : Matcher) (ua : String) (r : Result) :
    ((m.call ua r).1 = false ↔ ∀ e ∈ m.expressions_, regex_search ua e = none)
      ∧ ((m.call ua r).1 = false → (m.call ua r).2 = r) := by
  refine ⟨Matcher.call_fst_false_iff m ua r, fun h => ?_⟩
  have hn := (Matcher.call_fst_false_iff m ua r).mp h
  simp [Matcher.call, Matcher.tryExpressions_none m.extractors_ ua r m.expressions_ hn]

/-- C4: `parse` starts from the all-empty result and runs the five groups of
the table once each, in the order browser, cpu, device, engine, os, each on the
result the previous one left. -/
theorem C4_parse_runs_five_groups_in_order (ua : String) :
    parse ua
        = runGroup ua osGroup (runGroup ua engineGroup (runGroup ua deviceGroup
            (runGroup ua cpuGroup (runGroup ua browserGroup
              ⟨"", "", "", "", "", "", "", "", "", "", ""⟩))))
      ∧ getMatcherGroups = [browserGroup, cpuGroup, deviceGroup, engineGroup, osGroup]
      ∧ getMatcherGroups.length = 5 :=
  ⟨rfl, rfl, rfl⟩

end UaParser

namespace RegexImpl

/-! ### Frame property of the matcher: groups outside a tree keep their text -/

theorem one_some (p : Nat → Bool) (k : Cont) (s t : MState) (h : one p k s = some t) :
    ∃ x xs, s.rest = x :: xs ∧ p x = true ∧ k ⟨s.pos + 1, xs, s.caps⟩ = some t := by
  unfold one at h
  cases hr : s.rest with
  | nil => simp [hr] at h
  | cons x xs =>
    simp only [hr] at h
    by_cases hp : p x = true
    · exact ⟨x, xs, rfl, hp, by simpa [hp] using h⟩
    · simp [hp] at h

theorem matchText_caps (icase : Bool) (txt : List Nat) (s t : MState)
    (h : matchText icase txt s = some t) : t.caps = s.caps := by
  induction txt generalizing s with
  | nil =>
    simp only [matchText, Option.some.injEq] at h
    rw [← h]
  | cons c cs ih =>
    unfold matchText at h
    cases hr : s.rest with
    | nil => simp [hr] at h
    | cons x xs =>
      simp only [hr] at h
      by_cases hc : Nat.beq (tr icase x) (tr icase c) = true
      · simp only [hc, if_true] at h
        exact ih ⟨s.pos + 1, xs, s.caps⟩ h
      · simp [hc] at h

theorem getD_set_ne {α : Type} (l : List α) (i j : Nat) (v d : α) (h : i ≠ j) :
    (l.set i v).getD j d = l.getD j d := by
  simp [List.getD_eq_getElem?_getD, List.getElem?_set_ne h]

theorem repLoop_frame (idx : Nat) (body : Cont → MState → Option MState) (hb : Frames idx body)
    (min : Nat) (max : Option Nat) (greedy : Bool) (k : Cont) (bound cnt : Nat) (s t : MState)
    (h : repLoop body min max greedy k bound cnt s = some t) :
    ∃ s1, s1.caps.getD idx none = s.caps.getD idx none ∧ k s1 = some t := by
  induction bound generalizing cnt s with
  | zero =>
    simp only [repLoop] at h
    by_cases hm : Nat.ble min cnt = true
    · exact ⟨s, rfl, by simpa [hm] using h⟩
    · simp [hm] at h
  | succ n ih =>
    have stop : (if Nat.ble min cnt = true then k s else none) = some t →
        ∃ s1, s1.caps.getD idx none = s.caps.getD idx none ∧ k s1 = some t := by
      intro h1
      by_cases hm : Nat.ble min cnt = true
      · exact ⟨s, rfl, by simpa [hm] using h1⟩
      · simp [hm] at h1
    have more : ∀ allowed : Bool,
        (if allowed = true then
            body (fun s1 => if Nat.beq s1.pos s.pos = true then none
                            else repLoop body min max greedy k n (cnt + 1) s1) s
          else none) = some t →
        ∃ s1, s1.caps.getD idx none = s.caps.getD idx none ∧ k s1 = some t := by
      intro allowed h1
      cases allowed with
      | false => simp at h1
      | true =>
        simp only [if_true] at h1
        obtain ⟨s1, hc1, hk1⟩ := hb _ _ _ h1
        by_cases hp : Nat.beq s1.pos s.pos = true
        · simp [hp] at hk1
        · simp only [hp] at hk1
          obtain ⟨s2, hc2, hk2⟩ := ih _ _ hk1
          exact ⟨s2, hc2.trans hc1, hk2⟩
    simp only [repLoop] at h
    cases greedy with
    | true =>
      simp only [if_true] at h
      split at h
      · rename_i t1 heq
        simp only [Option.some.injEq] at h
        subst h
        exact more _ heq
      · exact stop h
    | false =>
      simp only [Bool.false_eq_true, if_false] at h
      split at h
      · rename_i t1 heq
        simp only [Option.some.injEq] at h
        subst h
        exact stop heq
      · exact more _ h

theorem matchNode_frame (icase : Bool) (idx : Nat) (node : Node)
    (hg : node.hasGroup idx = false) : Frames idx (matchNode icase node) := by
  induction node with
  | chr c =>
    intro k s t h
    simp only [matchNode] at h
    obtain ⟨x, xs, _, _, hk⟩ := one_some _ _ _ _ h
    exact ⟨⟨s.pos + 1, xs, s.caps⟩, rfl, hk⟩
  | any =>
    intro k s t h
    simp only [matchNode] at h
    obtain ⟨x, xs, _, _, hk⟩ := one_some _ _ _ _ h
    exact ⟨⟨s.pos + 1, xs, s.caps⟩, rfl, hk⟩
  | cls c =>
    intro k s t h
    simp only [matchNode] at h
    obtain ⟨x, xs, _, _, hk⟩ := one_some _ _ _ _ h
    exact ⟨⟨s.pos + 1, xs, s.caps⟩, rfl, hk⟩
  | set items =>
    intro k s t h
    simp only [matchNode] at h
    obtain ⟨x, xs, _, _, hk⟩ := one_some _ _ _ _ h
    exact ⟨⟨s.pos + 1, xs, s.caps⟩, rfl, hk⟩
  | empty =>
    intro k s t h
    simp only [matchNode] at h
    exact ⟨s, rfl, h⟩
  | seq a b iha ihb =>
    simp only [Node.hasGroup, Bool.or_eq_false_iff] at hg
    intro k s t h
    simp only [matchNode] at h
    obtain ⟨s1, hc1, hk1⟩ := iha hg.1 _ _ _ h
    obtain ⟨s2, hc2, hk2⟩ := ihb hg.2 _ _ _ hk1
    exact ⟨s2, hc2.trans hc1, hk2⟩
  | alt a b iha ihb =>
    simp only [Node.hasGroup, Bool.or_eq_false_iff] at hg
    intro k s t h
    simp only [matchNode] at h
    split at h
    · rename_i t1 heq
      simp only [Option.some.injEq] at h
      subst h
      exact iha hg.1 _ _ _ heq
    · exact ihb hg.2 _ _ _ h
  | group j r ih =>
    simp only [Node.hasGroup, Bool.or_eq_false_iff] at hg
    intro k s t h
    simp only [matchNode] at h
    obtain ⟨s1, hc1, hk1⟩ := ih hg.2 _ _ _ h
    refine ⟨_, ?_, hk1⟩
    have hne : j ≠ idx := by
      intro hji
      have := hg.1
      simp [hji] at this
    simp only [getD_set_ne _ _ _ _ _ hne]
    exact hc1
  | ncgroup r ih =>
    simp only [Node.hasGroup] at hg
    intro k s t h
    simp only [matchNode] at h
    exact ih hg _ _ _ h
  | look r ih =>
    simp only [Node.hasGroup] at hg
    intro k s t h
    simp only [matchNode] at h
    split at h
    · rename_i t1 heq
      obtain ⟨s1, hc1, hk1⟩ := ih hg _ _ _ heq
      simp only [Option.some.injEq] at hk1
      subst hk1
      exact ⟨⟨s.pos, s.rest, s1.caps⟩, hc1, h⟩
    · simp at h
  | backref j =>
    intro k s t h
    simp only [matchNode] at h
    split at h
    · simp at h
    · split at h
      · rename_i s1 heq
        exact ⟨s1, by rw [matchText_caps _ _ _ _ heq], h⟩
      · simp at h
  | rep r min max greedy ih =>
    simp only [Node.hasGroup] at hg
    intro k s t h
    simp only [matchNode] at h
    exact repLoop_frame idx _ (fun k1 s1 t1 h1 => ih hg k1 s1 t1 h1) min max greedy k _ _ s t h


/-! ### The pattern of the last device rule -/

theorem matchNode_chr (icase : Bool) (c : Nat) (k : Cont) (s t : MState)
    (h : matchNode icase (.chr c) k s = some t) :
    ∃ x xs, s.rest = x :: xs ∧ tr icase x = tr icase c ∧ k ⟨s.pos + 1, xs, s.caps⟩ = some t := by
  simp only [matchNode] at h
  obtain ⟨x, xs, hr, hp, hk⟩ := one_some _ _ _ _ h
  exact ⟨x, xs, hr, Nat.eq_of_beq_eq_true hp, hk⟩

/-- Six literal characters in a row consume six characters that fold to them. -/
theorem matchNode_word6 (c1 c2 c3 c4 c5 c6 : Nat) (k : Cont) (s t : MState)
    (h : matchNode true (.seq (.chr c1) (.seq (.chr c2) (.seq (.chr c3) (.seq (.chr c4)
          (.seq (.chr c5) (.chr c6)))))) k s = some t) :
    ∃ x1 x2 x3 x4 x5 x6 xs, s.rest = x1 :: x2 :: x3 :: x4 :: x5 :: x6 :: xs
      ∧ [x1, x2, x3, x4, x5, x6].map fold = [c1, c2, c3, c4, c5, c6].map fold
      ∧ k ⟨s.pos + 1 + 1 + 1 + 1 + 1 + 1, xs, s.caps⟩ = some t := by
  simp only [matchNode.eq_6] at h
  obtain ⟨x1, r1, h1, e1, h⟩ := matchNode_chr _ _ _ _ _ h
  obtain ⟨x2, r2, h2, e2, h⟩ := matchNode_chr _ _ _ _ _ h
  obtain ⟨x3, r3, h3, e3, h⟩ := matchNode_chr _ _ _ _ _ h
  obtain ⟨x4, r4, h4, e4, h⟩ := matchNode_chr _ _ _ _ _ h
  obtain ⟨x5, r5, h5, e5, h⟩ := matchNode_chr _ _ _ _ _ h
  obtain ⟨x6, r6, h6, e6, h⟩ := matchNode_chr _ _ _ _ _ h
  simp only at h2 h3 h4 h5 h6 h
  simp only [tr, if_true] at e1 e2 e3 e4 e5 e6
  refine ⟨x1, x2, x3, x4, x5, x6, r6, ?_, ?_, h⟩
  · rw [h1, h2, h3, h4, h5, h6]
  · simp [e1, e2, e3, e4, e5, e6]


/-- The tree of `(mobile|tablet);.+rv\:.+gecko\/` after its first group. -/
theorem compile_unidentifiable :
    compile "(mobile|tablet);.+rv\\:.+gecko\\/"
      = some ⟨.seq
          (.group 1 (.alt
            (.seq (.chr 109) (.seq (.chr 111) (.seq (.chr 98) (.seq (.chr 105)
              (.seq (.chr 108) (.chr 101))))))
            (.seq (.chr 116) (.seq (.chr 97) (.seq (.chr 98) (.seq (.chr 108)
              (.seq (.chr 101) (.chr 116))))))))
          (.seq (.chr 59) (.seq (.rep .any 1 none true) (.seq (.chr 114) (.seq (.chr 118)
            (.seq (.chr 58) (.seq (.rep .any 1 none true) (.seq (.chr 103) (.seq (.chr 101)
              (.seq (.chr 99) (.seq (.chr 107) (.seq (.chr 111) (.chr 47)))))))))))), 1⟩ := by
  decide!

/-- A match of a six-letter word in group 1, followed by a tree without group
1, ends with group 1 holding six characters that fold to the word. -/
theorem group1_word6 (c1 c2 c3 c4 c5 c6 : Nat) (tail : Node) (ht : tail.hasGroup 1 = false)
    (s t : MState) (c0 : Option (List Nat))
    (h : matchNode true (.seq (.chr c1) (.seq (.chr c2) (.seq (.chr c3) (.seq (.chr c4)
          (.seq (.chr c5) (.chr c6))))))
        (fun s1 => (fun s2 => matchNode true tail some s2)
          ⟨s1.pos, s1.rest, s1.caps.set 1 (some (s.rest.take (s1.pos - s.pos)))⟩) s = some t)
    (hs : s.caps = [c0, none]) :
    ∃ txt, t.caps.getD 1 none = some txt
      ∧ txt.map fold = [c1, c2, c3, c4, c5, c6].map fold := by
  obtain ⟨x1, x2, x3, x4, x5, x6, xs, hr, hf, hk⟩ := matchNode_word6 _ _ _ _ _ _ _ _ _ h
  simp only at hk
  obtain ⟨s1, hc1, hk1⟩ := matchNode_frame true 1 tail ht _ _ _ hk
  simp only [Option.some.injEq] at hk1
  subst hk1
  refine ⟨[x1, x2, x3, x4, x5, x6], ?_, hf⟩
  rw [hc1, hs, hr]
  have : s.pos + 1 + 1 + 1 + 1 + 1 + 1 - s.pos = 6 := by omega
  simp [this]

theorem searchFrom_unidentifiable (tail : Node) (ht : tail.hasGroup 1 = false)
    (pos : Nat) (cs : List Nat) (caps : List (Option (List Nat)))
    (h : searchFrom true
        ⟨.seq
          (.group 1 (.alt
            (.seq (.chr 109) (.seq (.chr 111) (.seq (.chr 98) (.seq (.chr 105)
              (.seq (.chr 108) (.chr 101))))))
            (.seq (.chr 116) (.seq (.chr 97) (.seq (.chr 98) (.seq (.chr 108)
              (.seq (.chr 101) (.chr 116))))))))
          tail, 1⟩ pos cs = some caps) :
    ∃ txt, caps.getD 1 none = some txt
      ∧ (txt.map fold = [109, 111, 98, 105, 108, 101]
          ∨ txt.map fold = [116, 97, 98, 108, 101, 116]) := by
  have key : ∀ (s t : MState), s.caps = [none, none] →
      matchNode true (.seq
          (.group 1 (.alt
            (.seq (.chr 109) (.seq (.chr 111) (.seq (.chr 98) (.seq (.chr 105)
              (.seq (.chr 108) (.chr 101))))))
            (.seq (.chr 116) (.seq (.chr 97) (.seq (.chr 98) (.seq (.chr 108)
              (.seq (.chr 101) (.chr 116))))))))
          tail) some s = some t →
      ∃ txt, t.caps.getD 1 none = some txt
        ∧ (txt.map fold = [109, 111, 98, 105, 108, 101]
            ∨ txt.map fold = [116, 97, 98, 108, 101, 116]) := by
    intro s t hs hm
    simp only [matchNode.eq_6, matchNode.eq_8, matchNode.eq_7] at hm
    split at hm
    · rename_i t1 heq
      simp only [Option.some.injEq] at hm
      subst hm
      obtain ⟨txt, h1, h2⟩ := group1_word6 _ _ _ _ _ _ tail ht s t1 none heq hs
      exact ⟨txt, h1, Or.inl (by simpa [fold, isUpper] using h2)⟩
    · obtain ⟨txt, h1, h2⟩ := group1_word6 _ _ _ _ _ _ tail ht s t none hm hs
      exact ⟨txt, h1, Or.inr (by simpa [fold, isUpper] using h2)⟩
  induction cs generalizing pos with
  | nil =>
    simp only [searchFrom] at h
    split at h
    · rename_i t heq
      simp only [Option.some.injEq] at h
      subst h
      obtain ⟨txt, h1, h2⟩ := key _ t rfl heq
      exact ⟨txt, by rw [getD_set_ne _ _ _ _ _ (by decide)]; exact h1, h2⟩
    · simp at h
  | cons c rest ih =>
    simp only [searchFrom] at h
    split at h
    · rename_i t heq
      simp only [Option.some.injEq] at h
      subst h
      obtain ⟨txt, h1, h2⟩ := key _ t rfl heq
      exact ⟨txt, by rw [getD_set_ne _ _ _ _ _ (by decide)]; exact h1, h2⟩
    · exact ih _ h

end RegexImpl

namespace UaParser

open RegexImpl

theorem toNat_ofNat_valid (x : Nat) (hv : x.isValidChar) : (Char.ofNat x).toNat = x := by
  simp [Char.ofNat, hv, Char.ofNatAux, Char.toNat, UInt32.toNat]

theorem ofNat_invalid (x : Nat) (hv : ¬ x.isValidChar) : Char.ofNat x = Char.ofNat 0 := by
  simp only [Char.ofNat, hv, dif_neg, not_false_eq_true]
  rfl

theorem tolower_ofNat (x : Nat) : tolower (Char.ofNat x) = Char.ofNat (fold x) := by
  unfold tolower fold isUpper
  by_cases hv : x.isValidChar
  · rw [toNat_ofNat_valid x hv]
    by_cases h : 65 ≤ x ∧ x ≤ 90
    · simp [h.1, h.2]
    · have : (Nat.ble 65 x && Nat.ble x 90) = false := by
        rw [Bool.and_eq_false_iff]
        by_cases h1 : 65 ≤ x
        · right
          rw [Bool.eq_false_iff]
          intro h2
          exact h ⟨h1, Nat.le_of_ble_eq_true h2⟩
        · left
          rw [Bool.eq_false_iff]
          intro h2
          exact h1 (Nat.le_of_ble_eq_true h2)
      simp [h, this]
  · have hbig : ¬ (x ≤ 90) := by
      intro hle
      apply hv
      left
      omega
    have : (Nat.ble 65 x && Nat.ble x 90) = false := by
      rw [Bool.and_eq_false_iff]
      right
      rw [Bool.eq_false_iff]
      intro h2
      exact hbig (Nat.le_of_ble_eq_true h2)
    rw [this, ofNat_invalid x hv]
    simp only [Bool.false_eq_true, if_false]
    rw [ofNat_invalid x hv]
    decide

theorem FnToLower_toStr (cs : List Nat) : FnToLower (toStr cs) = toStr (cs.map fold) := by
  simp only [FnToLower, toStr, List.map_map]
  congr 1
  apply List.map_congr_left
  intro x _
  exact tolower_ofNat x


/-! ### Which fields a group can touch -/

theorem Result.get_set_ne (r : Result) (f g : Field) (v : String) (h : f ≠ g) :
    (r.set f v).get g = r.get g := by
  cases f <;> cases g <;> first | rfl | exact absurd rfl h

theorem Result.get_set_self (r : Result) (f : Field) (v : String) : (r.set f v).get f = v := by
  cases f <;> rfl

theorem Extractor.call_get_ne (ex : Extractor) (ua : String) (ms : smatch) (group : Nat)
    (r : Result) (f : Field) (h : ex.f_ ≠ f) : (ex.call ua ms group r).get f = r.get f := by
  unfold Extractor.call
  split
  · exact Result.get_set_ne _ _ _ _ h
  · split
    · exact Result.get_set_ne _ _ _ _ h
    · rfl

/-- A property kept by every extractor of a list is kept by the extraction loop. -/
theorem Matcher.extract_inv (P : Result → Prop) (ua : String) (ms : smatch)
    (exts : List Extractor) (idx : Nat) (r : Result)
    (h : ∀ ex ∈ exts, ∀ group r1, P r1 → P (ex.call ua ms group r1)) (hr : P r) :
    P (Matcher.extract ua ms exts idx r) := by
  induction exts generalizing idx r with
  | nil => exact hr
  | cons ex rest ih =>
    simp only [Matcher.extract]
    apply ih
    · exact fun ex1 h1 => h ex1 (List.mem_cons_of_mem _ h1)
    · exact h ex (List.mem_cons_self _ _) _ _ hr

theorem Matcher.tryExpressions_inv (P : Result → Prop) (exts : List Extractor) (ua : String)
    (es : List regex) (r : Result)
    (h : ∀ e ∈ es, ∀ ms, regex_search ua e = some ms → P (Matcher.extract ua ms exts 0 r))
    (hr : P r) : P (Matcher.tryExpressions exts ua r es).2 := by
  induction es with
  | nil => exact hr
  | cons e rest ih =>
    simp only [Matcher.tryExpressions]
    cases hs : regex_search ua e with
    | none => exact ih fun e1 h1 => h e1 (List.mem_cons_of_mem _ h1)
    | some ms => exact h e (List.mem_cons_self _ _) ms hs

theorem runGroup_inv (P : Result → Prop) (ua : String) (g : MatcherGroup) (r : Result)
    (h : ∀ m ∈ g, ∀ r1, P r1 → P (m.call ua r1).2) (hr : P r) : P (runGroup ua g r) := by
  induction g generalizing r with
  | nil => exact hr
  | cons m rest ih =>
    simp only [runGroup]
    have hm := h m (List.mem_cons_self _ _) r hr
    cases hc : m.call ua r with
    | mk b r1 =>
      rw [hc] at hm
      cases b with
      | true => exact hm
      | false => exact ih r1 (fun m1 h1 => h m1 (List.mem_cons_of_mem _ h1)) hm

theorem Matcher.call_get_of_not_writes (m : Matcher) (ua : String) (r : Result) (f : Field)
    (h : m.writes f = false) : ((m.call ua r).2).get f = r.get f := by
  apply Matcher.tryExpressions_inv (fun r1 => r1.get f = r.get f)
  · intro e _ ms _
    apply Matcher.extract_inv (fun r1 => r1.get f = r.get f)
    · intro ex hex group r1 h1
      have hne : ex.f_ ≠ f := by
        simp only [Matcher.writes, List.any_eq_false] at h
        simpa using h ex hex
      rw [Extractor.call_get_ne ex ua ms group r1 f hne]
      exact h1
    · rfl
  · rfl

theorem runGroup_get_of_not_writes (ua : String) (g : MatcherGroup) (r : Result) (f : Field)
    (h : groupWrites g f = false) : (runGroup ua g r).get f = r.get f := by
  apply runGroup_inv (fun r1 => r1.get f = r.get f)
  · intro m hm r1 h1
    have hw : m.writes f = false := by
      simp only [groupWrites, List.any_eq_false] at h
      simpa using h m hm
    rw [Matcher.call_get_of_not_writes m ua r1 f hw]
    exact h1
  · rfl

theorem runGroup_of_no_match (ua : String) (g : MatcherGroup) (r : Result)
    (h : ∀ m ∈ g, ∀ e ∈ m.expressions_, regex_search ua e = none) : runGroup ua g r = r := by
  induction g generalizing r with
  | nil => rfl
  | cons m rest ih =>
    have hm : m.call ua r = (false, r) :=
      Matcher.tryExpressions_none m.extractors_ ua r m.expressions_ (h m (List.mem_cons_self _ _))
    simp only [runGroup, hm]
    exact ih r fun m1 h1 => h m1 (List.mem_cons_of_mem _ h1)

theorem parse_eq (ua : String) :
    parse ua = runGroup ua osGroup (runGroup ua engineGroup (runGroup ua deviceGroup
      (runGroup ua cpuGroup (runGroup ua browserGroup {})))) :=
  rfl

/-- A field that only the device group may write, after `parse`. -/
theorem parse_get_device_only (ua : String) (f : Field)
    (hb : groupWrites browserGroup f = false) (hc : groupWrites cpuGroup f = false)
    (he : groupWrites engineGroup f = false) (ho : groupWrites osGroup f = false) :
    (parse ua).get f
      = (runGroup ua deviceGroup (runGroup ua cpuGroup (runGroup ua browserGroup {}))).get f
      ∧ (runGroup ua cpuGroup (runGroup ua browserGroup {})).get f = "" := by
  constructor
  · rw [parse_eq, runGroup_get_of_not_writes ua osGroup _ f ho,
      runGroup_get_of_not_writes ua engineGroup _ f he]
  · rw [runGroup_get_of_not_writes ua cpuGroup _ f hc,
      runGroup_get_of_not_writes ua browserGroup _ f hb]
    cases f <;> rfl

set_option maxRecDepth 1000000

/-- C2 (instance): on the Opera 10.10 user agent some alternative of the first
browser matcher is found, so the matcher returns true with the extractors run
once on the first match; the name and the version come from the third
alternative, the first one found. -/
theorem C2_witness_opera_third_alternative :
    (∃ e ∈ (Matcher.mk
          [regex.mk "(opera\\smini)\\/([\\w\\.-]+)" i,
           regex.mk "(opera\\s[mobiletab]+).+version\\/([\\w\\.-]+)" i,
           regex.mk "(opera).+version\\/([\\w\\.]+)" i,
           regex.mk "(opera)[\\/\\s]+([\\w\\.]+)" i]
          [Extractor.capture .browserName,
           Extractor.capture .browserVersion]).expressions_,
        (regex_search "Opera/9.80 (Windows NT 6.1; U; en) Presto/2.2.15 Version/10.10"
          e).isSome = true)
    ∧ (∃ pre e post ms,
        (Matcher.mk
          [regex.mk "(opera\\smini)\\/([\\w\\.-]+)" i,
           regex.mk "(opera\\s[mobiletab]+).+version\\/([\\w\\.-]+)" i,
           regex.mk "(opera).+version\\/([\\w\\.]+)" i,
           regex.mk "(opera)[\\/\\s]+([\\w\\.]+)" i]
          [Extractor.capture .browserName,
           Extractor.capture .browserVersion]).expressions_ = pre ++ e :: post
      ∧ (∀ e1 ∈ pre,
          regex_search "Opera/9.80 (Windows NT 6.1; U; en) Presto/2.2.15 Version/10.10" e1
            = none)
      ∧ regex_search "Opera/9.80 (Windows NT 6.1; U; en) Presto/2.2.15 Version/10.10" e
          = some ms
      ∧ (Matcher.mk
          [regex.mk "(opera\\smini)\\/([\\w\\.-]+)" i,
           regex.mk "(opera\\s[mobiletab]+).+version\\/([\\w\\.-]+)" i,
           regex.mk "(opera).+version\\/([\\w\\.]+)" i,
           regex.mk "(opera)[\\/\\s]+([\\w\\.]+)" i]
          [Extractor.capture .browserName,
           Extractor.capture .browserVersion]).call
            "Opera/9.80 (Windows NT 6.1; U; en) Presto/2.2.15 Version/10.10" {}
          = (true, [Extractor.capture .browserName, Extractor.capture .browserVersion].enum.foldl
              (fun acc p => p.2.call
                "Opera/9.80 (Windows NT 6.1; U; en) Presto/2.2.15 Version/10.10" ms (p.1 + 1) acc)
              {}))
    ∧ (Matcher.mk
          [regex.mk "(opera\\smini)\\/([\\w\\.-]+)" i,
           regex.mk "(opera\\s[mobiletab]+).+version\\/([\\w\\.-]+)" i,
           regex.mk "(opera).+version\\/([\\w\\.]+)" i,
           regex.mk "(opera)[\\/\\s]+([\\w\\.]+)" i]
          [Extractor.capture .browserName,
           Extractor.capture .browserVersion]).call
            "Opera/9.80 (Windows NT 6.1; U; en) Presto/2.2.15 Version/10.10" {}
        = (true, { browserName := "Opera", browserVersion := "10.10" }) :=
  ⟨by decide!, C2_first_alternative_wins _ _ _ (by decide!), by decide!⟩

/-- C5 (failing input): on a QuickTime user agent the cpu group, started from
the empty result, leaves `cpuArchitecture` empty and writes "ia32" into
`browserVersion`, a field of the browser category: the one extractor of its
second matcher has `browserVersion` as its target. Every other extractor of
the table has a field of its own group's category as its target. -/
theorem C5_cpu_group_writes_browserVersion :
    (runGroup "QuickTime/7.5.6 (qtver=7.5.6;cpu=IA32;os=Mac 10.5.8)" cpuGroup {}).browserVersion
        = "ia32"
      ∧ (runGroup "QuickTime/7.5.6 (qtver=7.5.6;cpu=IA32;os=Mac 10.5.8)" cpuGroup
          {}).cpuArchitecture = ""
      ∧ cpuGroup.get? 1
          = some (Matcher.mk [regex.mk "(ia32(?=;))" i]
              [Extractor.transform .browserVersion .FnToLower])
      ∧ (∀ m ∈ cpuGroup, ∀ ex ∈ m.extractors_, ex.f_ = Field.cpuArchitecture
          ∨ m = Matcher.mk [regex.mk "(ia32(?=;))" i]
              [Extractor.transform .browserVersion .FnToLower])
      ∧ (∀ m ∈ browserGroup, ∀ ex ∈ m.extractors_,
          ex.f_ = Field.browserName ∨ ex.f_ = Field.browserVersion)
      ∧ (∀ m ∈ deviceGroup, ∀ ex ∈ m.extractors_,
          ex.f_ = Field.deviceType ∨ ex.f_ = Field.deviceModel ∨ ex.f_ = Field.deviceVendor)
      ∧ (∀ m ∈ engineGroup, ∀ ex ∈ m.extractors_,
          ex.f_ = Field.engineName ∨ ex.f_ = Field.engineVersion)
      ∧ (∀ m ∈ osGroup, ∀ ex ∈ m.extractors_,
          ex.f_ = Field.osName ∨ ex.f_ = Field.osVersion) := by
  decide!

/-- C6 (failing input): no alternative of any browser matcher is found in the
QuickTime user agent, and still `parse` returns `browserVersion = "ia32"`,
written by the cpu group, while `cpuArchitecture` stays empty. -/
theorem C6_unmatched_browser_category_not_empty :
    (∀ m ∈ browserGroup, ∀ e ∈ m.expressions_,
        regex_search "QuickTime/7.5.6 (qtver=7.5.6;cpu=IA32;os=Mac 10.5.8)" e = none)
      ∧ (parse "QuickTime/7.5.6 (qtver=7.5.6;cpu=IA32;os=Mac 10.5.8)").browserVersion = "ia32"
      ∧ (parse "QuickTime/7.5.6 (qtver=7.5.6;cpu=IA32;os=Mac 10.5.8)").browserName = ""
      ∧ (parse "QuickTime/7.5.6 (qtver=7.5.6;cpu=IA32;os=Mac 10.5.8)").cpuArchitecture = "" := by
  decide!

/-- C7: when no alternative of any device matcher is found in `ua`, `parse`
returns empty `deviceType`, `deviceModel` and `deviceVendor`, whatever the other
four groups did. -/
theorem C7_no_device_rule_leaves_device_fields_empty (ua : String)
    (h : ∀ m ∈ deviceGroup, ∀ e ∈ m.expressions_, regex_search ua e = none) :
    (parse ua).deviceType = "" ∧ (parse ua).deviceModel = "" ∧ (parse ua).deviceVendor = "" := by
  have key : ∀ f : Field, groupWrites browserGroup f = false → groupWrites cpuGroup f = false →
      groupWrites engineGroup f = false → groupWrites osGroup f = false →
      (parse ua).get f = "" := by
    intro f hb hc he ho
    obtain ⟨h1, h2⟩ := parse_get_device_only ua f hb hc he ho
    rw [h1, runGroup_of_no_match ua deviceGroup _ h]
    exact h2
  exact ⟨key .deviceType (by decide!) (by decide!) (by decide!) (by decide!),
    key .deviceModel (by decide!) (by decide!) (by decide!) (by decide!),
    key .deviceVendor (by decide!) (by decide!) (by decide!) (by decide!)⟩

/-- C7 (instance): the Opera 10.10 user agent matches no device rule; its device
fields are empty while browser, engine and os are filled. -/
theorem C7_witness_opera_no_device :
    (∀ m ∈ deviceGroup, ∀ e ∈ m.expressions_,
        regex_search "Opera/9.80 (Windows NT 6.1; U; en) Presto/2.2.15 Version/10.10" e = none)
      ∧ ((parse "Opera/9.80 (Windows NT 6.1; U; en) Presto/2.2.15 Version/10.10").deviceType = ""
        ∧ (parse "Opera/9.80 (Windows NT 6.1; U; en) Presto/2.2.15 Version/10.10").deviceModel
            = ""
        ∧ (parse "Opera/9.80 (Windows NT 6.1; U; en) Presto/2.2.15 Version/10.10").deviceVendor
            = "")
      ∧ (parse "Opera/9.80 (Windows NT 6.1; U; en) Presto/2.2.15 Version/10.10").browserName
          = "Opera"
      ∧ (parse "Opera/9.80 (Windows NT 6.1; U; en) Presto/2.2.15 Version/10.10").engineName
          = "Presto"
      ∧ (parse "Opera/9.80 (Windows NT 6.1; U; en) Presto/2.2.15 Version/10.10").osName
          = "Windows" :=
  ⟨by decide!,
    C7_no_device_rule_leaves_device_fields_empty
      "Opera/9.80 (Windows NT 6.1; U; en) Presto/2.2.15 Version/10.10" (by decide!),
    by decide!⟩

/-- C8: `parse` of the empty string returns the result with all eleven fields
empty; every pattern of the table compiles and none is found in the empty
string. -/
theorem C8_parse_empty_input :
    parse "" = ⟨"", "", "", "", "", "", "", "", "", "", ""⟩
      ∧ ∀ g ∈ getMatcherGroups, ∀ m ∈ g, ∀ e ∈ m.expressions_,
          (compile e.pattern).isSome = true ∧ regex_search "" e = none := by
  decide!

/-- C10: `parse` never fills `browserUnit`: no extractor of the table has it as
its target. -/
theorem C10_browserUnit_always_empty (ua : String) :
    (parse ua).browserUnit = ""
      ∧ ∀ g ∈ getMatcherGroups, ∀ m ∈ g, ∀ ex ∈ m.extractors_, ex.f_ ≠ Field.browserUnit := by
  constructor
  · obtain ⟨h1, h2⟩ := parse_get_device_only ua .browserUnit (by decide!) (by decide!)
      (by decide!) (by decide!)
    have h3 := runGroup_get_of_not_writes ua deviceGroup
      (runGroup ua cpuGroup (runGroup ua browserGroup {})) .browserUnit (by decide!)
    exact h1.trans (h3.trans h2)
  · decide!


/-! ### The values of `deviceType` -/

theorem getD_map_toStr (caps : List (Option (List Nat))) (n : Nat) :
    (caps.map (Option.map toStr)).getD n none = Option.map toStr (caps.getD n none) := by
  simp only [List.getD_eq_getElem?_getD, List.getElem?_map]
  cases caps[n]? <;> rfl

/-- Group 1 of a match of the last device pattern is "mobile" or "tablet" up to
letter case. -/
theorem regex_search_unidentifiable (ua : String) (ms : smatch)
    (h : regex_search ua (regex.mk "(mobile|tablet);.+rv\\:.+gecko\\/" i) = some ms) :
    FnToLower (sub_match_str (ms.get 1)) = "mobile"
      ∨ FnToLower (sub_match_str (ms.get 1)) = "tablet" := by
  unfold regex_search at h
  simp only [compile_unidentifiable] at h
  have hi : i.icase = true := rfl
  rw [hi] at h
  split at h
  · simp at h
  · rename_i caps heq
    simp only [Option.some.injEq] at h
    subst h
    obtain ⟨txt, h1, h2⟩ := searchFrom_unidentifiable _ (by decide) _ _ _ heq
    have hget : sub_match_str ((smatch.mk (caps.map (Option.map toStr))).get 1) = toStr txt := by
      simp only [smatch.get, getD_map_toStr, h1]
      rfl
    rw [hget, FnToLower_toStr]
    rcases h2 with h2 | h2
    · left
      rw [h2]
      decide
    · right
      rw [h2]
      decide

theorem Extractor.call_deviceTypeSafe (ex : Extractor) (ua : String) (ms : smatch)
    (group : Nat) (r : Result) (hs : ex.deviceTypeSafe = true)
    (hr : r.deviceType ∈ deviceTypeTokens) :
    (ex.call ua ms group r).deviceType ∈ deviceTypeTokens := by
  unfold Extractor.deviceTypeSafe at hs
  by_cases hf : ex.f_ = Field.deviceType
  · cases hv : ex.v_ with
    | none => simp [hv, hf] at hs
    | some v =>
      simp only [hv, hf, ne_eq, not_true_eq_false, decide_False, Bool.false_or] at hs
      have hv2 : v ∈ deviceTypeTokens := by simpa using hs
      have : (ex.call ua ms group r).deviceType = v := by
        simp only [Extractor.call, hv, hf]
        rfl
      rw [this]
      exact hv2
  · have := Extractor.call_get_ne ex ua ms group r .deviceType hf
    have h2 : (ex.call ua ms group r).deviceType = r.deviceType := this
    rw [h2]
    exact hr

/-- The last matcher of the device group, the only one that assigns a captured
text to `deviceType`. -/
theorem unidentifiable_call_deviceType (ua : String) (r : Result)
    (hr : r.deviceType ∈ deviceTypeTokens) :
    ((Matcher.mk [regex.mk "(mobile|tablet);.+rv\\:.+gecko\\/" i]
        [Extractor.transform .deviceType .FnToLower,
         Extractor.literal .deviceVendor "",
         Extractor.literal .deviceModel ""]).call ua r).2.deviceType ∈ deviceTypeTokens := by
  apply Matcher.tryExpressions_inv (fun r1 => r1.deviceType ∈ deviceTypeTokens)
  · intro e he ms hs
    simp only [List.mem_singleton] at he
    subst he
    have hcase := regex_search_unidentifiable ua ms hs
    have hval : (Matcher.extract ua ms
        [Extractor.transform .deviceType .FnToLower,
         Extractor.literal .deviceVendor "",
         Extractor.literal .deviceModel ""] 0 r).deviceType
        = if ms.size ≥ 1 then FnToLower (sub_match_str (ms.get 1)) else r.deviceType := by
      simp only [Matcher.extract, Extractor.call, Extractor.transform, Extractor.literal]
      split <;> rfl
    show (Matcher.extract ua ms _ 0 r).deviceType ∈ deviceTypeTokens
    rw [hval]
    split
    · rcases hcase with h1 | h1 <;> rw [h1] <;> decide
    · exact hr
  · exact hr

theorem deviceGroup_cases :
    ∀ m ∈ deviceGroup, (m.extractors_.all fun ex => ex.deviceTypeSafe) = true
      ∨ m = Matcher.mk [regex.mk "(mobile|tablet);.+rv\\:.+gecko\\/" i]
          [Extractor.transform .deviceType .FnToLower,
           Extractor.literal .deviceVendor "",
           Extractor.literal .deviceModel ""] := by
  decide!

/-- C9: the `deviceType` that `parse` returns is one of "console", "mobile",
"smarttv", "tablet", "wearable" or the empty string. -/
theorem C9_deviceType_is_a_fixed_token (ua : String) :
    (parse ua).deviceType ∈ ["console", "mobile", "smarttv", "tablet", "wearable", ""] := by
  obtain ⟨h1, h2⟩ := parse_get_device_only ua .deviceType (by decide!) (by decide!)
    (by decide!) (by decide!)
  have h3 : (parse ua).deviceType
      = (runGroup ua deviceGroup (runGroup ua cpuGroup (runGroup ua browserGroup {}))).deviceType :=
    h1
  rw [h3]
  apply runGroup_inv (fun r1 => r1.deviceType ∈ deviceTypeTokens)
  · intro m hm r1 hr1
    rcases deviceGroup_cases m hm with hsafe | hlast
    · apply Matcher.tryExpressions_inv (fun r2 => r2.deviceType ∈ deviceTypeTokens)
      · intro e _ ms _
        apply Matcher.extract_inv (fun r2 => r2.deviceType ∈ deviceTypeTokens)
        · intro ex hex group r2 hr2
          exact Extractor.call_deviceTypeSafe ex ua ms group r2
            (List.all_eq_true.mp hsafe ex hex) hr2
        · exact hr1
      · exact hr1
    · rw [hlast]
      exact unidentifiable_call_deviceType ua r1 hr1
  · have h4 : (runGroup ua cpuGroup (runGroup ua browserGroup {})).deviceType = "" := h2
    rw [h4]
    decide

end UaParser

namespace UaParser

open RegexImpl

/-! ### The extractor -/

theorem smatch.size_of_get_some (ms : smatch) (group : Nat) (s : String)
    (h : ms.get group = some s) : group < ms.size := by
  unfold smatch.get at h
  unfold smatch.size
  by_contra hlt
  rw [List.getD_eq_default _ _ (Nat.le_of_not_lt hlt)] at h
  exact Option.noConfusion h

theorem Formatter.call_empty (fn : Formatter) : fn.call "" = "" := by
  cases fn <;> rfl

/-- What a capture-bound extractor does when its guard passes. -/
theorem Extractor.call_capture_of_le (ex : Extractor) (ua : String) (ms : smatch) (group : Nat)
    (r : Result) (hv : ex.v_ = none) (hg : group ≤ ms.size) :
    ex.call ua ms group r
      = r.set ex.f_ (match ex.fn_ with
          | some fn => fn.call (sub_match_str (ms.get group))
          | none => sub_match_str (ms.get group)) := by
  unfold Extractor.call
  simp only [hv]
  rw [if_pos (show ms.size ≥ group from hg)]

theorem Extractor.call_capture_of_gt (ex : Extractor) (ua : String) (ms : smatch) (group : Nat)
    (r : Result) (hv : ex.v_ = none) (hg : ms.size < group) : ex.call ua ms group r = r := by
  unfold Extractor.call
  simp only [hv]
  rw [if_neg (show ¬ ms.size ≥ group from Nat.not_le_of_lt hg)]

/-- C11 (as amended): a capture-bound extractor whose group exists in the match
but took no part in it overwrites its target field with the empty string,
whatever the field held, and keeps every other field; it leaves the result
unchanged only when its group number exceeds `matches.size()`. -/
theorem C11_unmatched_group_assigns_empty (ex : Extractor) (ua : String) (ms : smatch)
    (group : Nat) (r : Result) (hv : ex.v_ = none) (hg : ms.get group = none) :
    (group < ms.size →
        (ex.call ua ms group r).get ex.f_ = ""
          ∧ ∀ g, g ≠ ex.f_ → (ex.call ua ms group r).get g = r.get g)
      ∧ (ms.size < group → ex.call ua ms group r = r) := by
  constructor
  · intro hlt
    rw [Extractor.call_capture_of_le ex ua ms group r hv (Nat.le_of_lt hlt), hg]
    constructor
    · rw [Result.get_set_self]
      cases ex.fn_ with
      | none => rfl
      | some fn => exact Formatter.call_empty fn
    · intro g hne
      exact Result.get_set_ne _ _ _ _ (Ne.symm hne)
  · exact Extractor.call_capture_of_gt ex ua ms group r hv

/-- C12: an extractor holding a fixed value assigns it to its target field,
whatever the match, and keeps every other field. -/
theorem C12_literal_assigns_value (f : Field) (v : String) (fn : Option Formatter)
    (ua : String) (ms : smatch) (group : Nat) (r : Result) :
    ((Extractor.literal f v).call ua ms group r).get f = v
      ∧ (∀ g, g ≠ f → ((Extractor.literal f v).call ua ms group r).get g = r.get g)
      ∧ (Extractor.mk f (some v) fn).call ua ms group r = r.set f v := by
  refine ⟨Result.get_set_self r f v, ?_, rfl⟩
  intro g hne
  exact Result.get_set_ne r f g v (Ne.symm hne)

/-- C13: a capture-bound extractor whose group took part in the match with
text `s` assigns `s` itself (no formatter) or the formatter applied to `s` to
its target field, and keeps every other field. -/
theorem C13_participating_group_is_assigned (f : Field) (fn : Formatter) (ua : String)
    (ms : smatch) (group : Nat) (r : Result) (s : String) (h : ms.get group = some s) :
    ((Extractor.capture f).call ua ms group r).get f = s
      ∧ (∀ g, g ≠ f → ((Extractor.capture f).call ua ms group r).get g = r.get g)
      ∧ ((Extractor.transform f fn).call ua ms group r).get f = fn.call s
      ∧ (∀ g, g ≠ f → ((Extractor.transform f fn).call ua ms group r).get g = r.get g) := by
  have hle : group ≤ ms.size := Nat.le_of_lt (smatch.size_of_get_some ms group s h)
  have h1 := Extractor.call_capture_of_le (Extractor.capture f) ua ms group r rfl hle
  have h2 := Extractor.call_capture_of_le (Extractor.transform f fn) ua ms group r rfl hle
  rw [h] at h1 h2
  rw [h1, h2]
  refine ⟨Result.get_set_self _ _ _, ?_, Result.get_set_self _ _ _, ?_⟩
  · intro g hne
    exact Result.get_set_ne _ _ _ _ (Ne.symm hne)
  · intro g hne
    exact Result.get_set_ne _ _ _ _ (Ne.symm hne)

set_option maxRecDepth 1000000

/-- C11 (counterexample): in the Maxthon user agent group 2 of the Maxthon
pattern takes no part in the match, and the version extractor bound to it turns
a `browserVersion` of "7.0" into the empty string; likewise group 2 of the
Mac OS pattern and the `osVersion` extractor with its formatter. -/
theorem C11_counterexample_unmatched_group_overwrites :
    regex_search "Mozilla/4.0 (compatible; MSIE 7.0; Windows NT 5.1; Maxthon; .NET CLR 1.1.4322)"
        (regex.mk "(lunascape|maxthon|netfront|jasmine|blazer)[\\/\\s]?([\\w\\.]+)*" i)
      = some ⟨[some "Maxthon", some "Maxthon", none]⟩
    ∧ (smatch.mk [some "Maxthon", some "Maxthon", none]).get 2 = none
    ∧ ((Extractor.capture .browserVersion).call
          "Mozilla/4.0 (compatible; MSIE 7.0; Windows NT 5.1; Maxthon; .NET CLR 1.1.4322)"
          ⟨[some "Maxthon", some "Maxthon", none]⟩ 2 { browserVersion := "7.0" }).browserVersion
        = ""
    ∧ regex_search
        "Mozilla/5.0 (Macintosh; U; PPC Mac OS X; de-de) AppleWebKit/125.2 (KHTML, like Gecko) Safari/125.7"
        (regex.mk "(mac\\sos\\sx)\\s?([\\w\\s\\.]+\\w)*" i)
      = some ⟨[some "Mac OS X", some "Mac OS X", none]⟩
    ∧ ((Extractor.transform .osVersion (.FnReplace '_' '.')).call
          "Mozilla/5.0 (Macintosh; U; PPC Mac OS X; de-de) AppleWebKit/125.2 (KHTML, like Gecko) Safari/125.7"
          ⟨[some "Mac OS X", some "Mac OS X", none]⟩ 2 { osVersion := "10.4" }).osVersion
        = "" := by
  decide!

/-- C11 (instance of the amended statement): the Maxthon match above, with
group 2 inside the match and unmatched, and with group 4 past its end. -/
theorem C11_witness_maxthon_version :
    ((Extractor.capture .browserVersion).v_ = none
      ∧ (smatch.mk [some "Maxthon", some "Maxthon", none]).get 2 = none
      ∧ 2 < (smatch.mk [some "Maxthon", some "Maxthon", none]).size)
    ∧ ((Extractor.capture .browserVersion).call "Mozilla/4.0 (compatible; MSIE 7.0; Windows NT 5.1; Maxthon; .NET CLR 1.1.4322)"
          ⟨[some "Maxthon", some "Maxthon", none]⟩ 2 { browserVersion := "7.0" }).get
        .browserVersion = ""
    ∧ (Extractor.capture .browserVersion).call "Mozilla/4.0 (compatible; MSIE 7.0; Windows NT 5.1; Maxthon; .NET CLR 1.1.4322)"
          ⟨[some "Maxthon", some "Maxthon", none]⟩ 4 { browserVersion := "7.0" }
        = { browserVersion := "7.0" } :=
  ⟨by decide,
    ((C11_unmatched_group_assigns_empty (Extractor.capture .browserVersion) "Mozilla/4.0 (compatible; MSIE 7.0; Windows NT 5.1; Maxthon; .NET CLR 1.1.4322)"
      ⟨[some "Maxthon", some "Maxthon", none]⟩ 2 { browserVersion := "7.0" } rfl rfl).1
        (by decide)).1,
    (C11_unmatched_group_assigns_empty (Extractor.capture .browserVersion) "Mozilla/4.0 (compatible; MSIE 7.0; Windows NT 5.1; Maxthon; .NET CLR 1.1.4322)"
      ⟨[some "Maxthon", some "Maxthon", none]⟩ 4 { browserVersion := "7.0" } rfl rfl).2
        (by decide)⟩

/-- C13 (instance): group 2 of the Windows match of the Opera 10.10 user agent
holds "NT 6.1"; the plain extractor stores it as it is, the one with
`FnFixWindowsVersion` stores "7". -/
theorem C13_witness_windows_token :
    (smatch.mk [some "Windows NT 6.1", some "Windows", some "NT 6.1"]).get 2 = some "NT 6.1"
    ∧ ((Extractor.capture .osVersion).call "Opera/9.80 (Windows NT 6.1; U; en) Presto/2.2.15 Version/10.10"
          ⟨[some "Windows NT 6.1", some "Windows", some "NT 6.1"]⟩ 2 {}).get .osVersion = "NT 6.1"
    ∧ ((Extractor.transform .osVersion .FnFixWindowsVersion).call "Opera/9.80 (Windows NT 6.1; U; en) Presto/2.2.15 Version/10.10"
          ⟨[some "Windows NT 6.1", some "Windows", some "NT 6.1"]⟩ 2 {}).get .osVersion
        = Formatter.call .FnFixWindowsVersion "NT 6.1"
    ∧ Formatter.call .FnFixWindowsVersion "NT 6.1" = "7" :=
  have h := C13_participating_group_is_assigned .osVersion .FnFixWindowsVersion
    "Opera/9.80 (Windows NT 6.1; U; en) Presto/2.2.15 Version/10.10"
    ⟨[some "Windows NT 6.1", some "Windows", some "NT 6.1"]⟩ 2 {} "NT 6.1" rfl
  ⟨rfl, h.1, h.2.2.1, by decide⟩

end UaParser

namespace UaParser

open RegexImpl

/-! ### The formatters -/

/-- C14: `FnReplace old_ new_` keeps the length of the string, puts `new_` at
every position that held `old_` and keeps every other character; when the two
characters differ the output holds no `old_`. -/
theorem C14_FnReplace_replaces_every_occurrence (old_ new_ : Char) (s : String) :
    (FnReplace old_ new_ s).length = s.length
      ∧ (∀ n : Nat, (FnReplace old_ new_ s).data[n]?
          = (s.data[n]?).map (fun c => if c = old_ then new_ else c))
      ∧ (old_ ≠ new_ → old_ ∉ (FnReplace old_ new_ s).data) := by
  refine ⟨?_, ?_, ?_⟩
  · show (s.data.map fun c => if c = old_ then new_ else c).length = s.data.length
    exact List.length_map _ _
  · intro n
    show (s.data.map fun c => if c = old_ then new_ else c)[n]? = _
    exact List.getElem?_map _ _ _
  · intro hne hmem
    simp only [FnReplace, List.mem_map] at hmem
    obtain ⟨c, _, hc⟩ := hmem
    by_cases h : c = old_
    · rw [if_pos h] at hc
      exact hne hc.symm
    · rw [if_neg h] at hc
      exact h hc

theorem lookupOr_of_mem (mapping : List (String × String)) (k v : String)
    (h : mapping.lookup k = some v) : lookupOr mapping k = v := by
  simp [lookupOr, h]

theorem lookupOr_of_not_key (mapping : List (String × String)) (s : String)
    (h : ∀ p ∈ mapping, p.1 ≠ s) : lookupOr mapping s = s := by
  have hnone : mapping.lookup s = none := by
    induction mapping with
    | nil => rfl
    | cons p rest ih =>
      obtain ⟨k, v⟩ := p
      have hk : k ≠ s := h (k, v) (List.mem_cons_self _ _)
      have hbeq : (s == k) = false := by
        simpa using fun heq : s = k => hk heq.symm
      simp only [List.lookup, hbeq]
      exact ih fun q hq => h q (List.mem_cons_of_mem _ hq)
  simp [lookupOr, hnone]

/-- C15: each of the five table formatters returns the mapped value on every
key of its table and returns every other string unchanged; the comparison is on
the whole string and sensitive to letter case. -/
theorem C15_table_lookup_exact_match_or_identity :
    ((∀ p ∈ FnFixSafariVersion.mapping, FnFixSafariVersion p.1 = p.2)
      ∧ ∀ s, (∀ p ∈ FnFixSafariVersion.mapping, p.1 ≠ s) → FnFixSafariVersion s = s)
    ∧ ((∀ p ∈ FnFixAmazonDeviceModel.mapping, FnFixAmazonDeviceModel p.1 = p.2)
      ∧ ∀ s, (∀ p ∈ FnFixAmazonDeviceModel.mapping, p.1 ≠ s) → FnFixAmazonDeviceModel s = s)
    ∧ ((∀ p ∈ FnFixWindowsVersion.mapping, FnFixWindowsVersion p.1 = p.2)
      ∧ ∀ s, (∀ p ∈ FnFixWindowsVersion.mapping, p.1 ≠ s) → FnFixWindowsVersion s = s)
    ∧ ((∀ p ∈ FnFixSprintDeviceModel.mapping, FnFixSprintDeviceModel p.1 = p.2)
      ∧ ∀ s, (∀ p ∈ FnFixSprintDeviceModel.mapping, p.1 ≠ s) → FnFixSprintDeviceModel s = s)
    ∧ ((∀ p ∈ FnFixSprintDeviceVendor.mapping, FnFixSprintDeviceVendor p.1 = p.2)
      ∧ ∀ s, (∀ p ∈ FnFixSprintDeviceVendor.mapping, p.1 ≠ s) → FnFixSprintDeviceVendor s = s)
    ∧ FnFixWindowsVersion "NT 6.1" = "7"
    ∧ FnFixWindowsVersion "NT 10.0" = "10"
    ∧ FnFixWindowsVersion "ARM" = "RT"
    ∧ FnFixWindowsVersion "nt 6.1" = "nt 6.1"
    ∧ FnFixWindowsVersion "NT 6.10" = "NT 6.10" := by
  refine ⟨⟨by decide, fun s h => lookupOr_of_not_key _ s h⟩,
    ⟨by decide, fun s h => lookupOr_of_not_key _ s h⟩,
    ⟨by decide, fun s h => lookupOr_of_not_key _ s h⟩,
    ⟨by decide, fun s h => lookupOr_of_not_key _ s h⟩,
    ⟨by decide, fun s h => lookupOr_of_not_key _ s h⟩,
    by decide, by decide, by decide, by decide, by decide⟩

theorem tolower_not_upper (c : Char) (hc : c.toNat < 128) :
    ¬ (65 ≤ (tolower c).toNat ∧ (tolower c).toNat ≤ 90) := by
  unfold tolower
  by_cases h : 65 ≤ c.toNat ∧ c.toNat ≤ 90
  · rw [if_pos h]
    have hv : (c.toNat + 32).isValidChar := by
      left
      omega
    rw [toNat_ofNat_valid _ hv]
    omega
  · rw [if_neg h]
    exact h

theorem tolower_toNat_of_upper (c : Char) (h : 65 ≤ c.toNat ∧ c.toNat ≤ 90) :
    (tolower c).toNat = c.toNat + 32 := by
  unfold tolower
  rw [if_pos h]
  exact toNat_ofNat_valid _ (Or.inl (by omega))

theorem tolower_of_not_upper (c : Char) (h : ¬ (65 ≤ c.toNat ∧ c.toNat ≤ 90)) :
    tolower c = c := by
  unfold tolower
  rw [if_neg h]

theorem tolower_idem (c : Char) (hc : c.toNat < 128) : tolower (tolower c) = tolower c :=
  tolower_of_not_upper _ (tolower_not_upper c hc)

/-- C16: on an ASCII string `FnToLower` keeps the length, moves every letter
`A`..`Z` to the letter 32 codes above it (`a`..`z`) and keeps every other
character; its output holds no letter `A`..`Z`, and applying it twice is the
same as applying it once. -/
theorem C16_FnToLower_ascii_lowercase (s : String) (h : ∀ c ∈ s.data, c.toNat < 128) :
    (FnToLower s).length = s.length
      ∧ (∀ (n : Nat) (c : Char), s.data[n]? = some c →
          ∃ d, (FnToLower s).data[n]? = some d
            ∧ (65 ≤ c.toNat ∧ c.toNat ≤ 90 → d.toNat = c.toNat + 32 ∧ 97 ≤ d.toNat ∧ d.toNat ≤ 122)
            ∧ (¬ (65 ≤ c.toNat ∧ c.toNat ≤ 90) → d = c))
      ∧ (∀ d ∈ (FnToLower s).data, ¬ (65 ≤ d.toNat ∧ d.toNat ≤ 90))
      ∧ FnToLower (FnToLower s) = FnToLower s := by
  refine ⟨?_, ?_, ?_, ?_⟩
  · show (s.data.map tolower).length = s.data.length
    exact List.length_map _ _
  · intro n c hn
    refine ⟨tolower c, ?_, ?_, ?_⟩
    · show (s.data.map tolower)[n]? = some (tolower c)
      rw [List.getElem?_map, hn]
      rfl
    · intro hu
      have := tolower_toNat_of_upper c hu
      omega
    · exact tolower_of_not_upper c
  · intro d hd
    simp only [FnToLower, List.mem_map] at hd
    obtain ⟨c, hc, rfl⟩ := hd
    exact tolower_not_upper c (h c hc)
  · simp only [FnToLower, List.map_map]
    congr 1
    apply List.map_congr_left
    intro c hc
    exact tolower_idem c (h c hc)

/-- C16 (instance): the ASCII string "Mobile IA32" becomes "mobile ia32". -/
theorem C16_witness_mobile_ia32 :
    (∀ c ∈ "Mobile IA32".data, c.toNat < 128)
      ∧ FnToLower "Mobile IA32" = "mobile ia32"
      ∧ (FnToLower "Mobile IA32").length = "Mobile IA32".length
      ∧ FnToLower (FnToLower "Mobile IA32") = FnToLower "Mobile IA32" :=
  have h := C16_FnToLower_ascii_lowercase "Mobile IA32" (by decide)
  ⟨by decide, by decide, h.1, h.2.2.2⟩

end UaParser

namespace RegexImpl

/-! ### A group of literal characters -/

/-- A run of literal characters consumes as many characters, equal to them up
to the translation in force. -/
theorem matchNode_lits (icase : Bool) (cs : List Nat) (k : Cont) (s t : MState)
    (h : matchNode icase (mkSeq (cs.map .chr)) k s = some t) :
    ∃ xs rest1, s.rest = xs ++ rest1 ∧ xs.map (tr icase) = cs.map (tr icase)
      ∧ k ⟨s.pos + cs.length, rest1, s.caps⟩ = some t := by
  induction cs generalizing s with
  | nil =>
    simp only [List.map_nil, mkSeq, matchNode] at h
    exact ⟨[], s.rest, rfl, rfl, h⟩
  | cons c rest ih =>
    cases rest with
    | nil =>
      simp only [List.map_cons, List.map_nil, mkSeq] at h
      obtain ⟨x, xs, hr, hx, hk⟩ := matchNode_chr _ _ _ _ _ h
      exact ⟨[x], xs, by simp [hr], by simp [hx], hk⟩
    | cons c1 rest1 =>
      simp only [List.map_cons, mkSeq, matchNode.eq_6] at h
      obtain ⟨x, xs, hr, hx, hk⟩ := matchNode_chr _ _ _ _ _ h
      obtain ⟨ys, rest2, hr2, hy, hk2⟩ := ih _ (by simpa [mkSeq] using hk)
      refine ⟨x :: ys, rest2, ?_, ?_, ?_⟩
      · simp only at hr2
        simp [hr, hr2]
      · simp only [List.map_cons, hx, hy]
      · simp only [List.length_cons] at hk2 ⊢
        have hpos : s.pos + 1 + (rest1.length + 1) = s.pos + (rest1.length + 1 + 1) := by omega
        rw [← hpos]
        exact hk2

/-- A capturing group around a run of literal characters stores the characters
it consumed. -/
theorem matchNode_group_lits (icase : Bool) (idx : Nat) (cs : List Nat) (k : Cont)
    (s t : MState) (h : matchNode icase (.group idx (mkSeq (cs.map .chr))) k s = some t) :
    ∃ xs rest1, s.rest = xs ++ rest1 ∧ xs.map (tr icase) = cs.map (tr icase)
      ∧ k ⟨s.pos + cs.length, rest1, s.caps.set idx (some xs)⟩ = some t := by
  simp only [matchNode.eq_8] at h
  obtain ⟨xs, rest1, hr, hx, hk⟩ := matchNode_lits _ _ _ _ _ h
  refine ⟨xs, rest1, hr, hx, ?_⟩
  simp only at hk
  have hlen : xs.length = cs.length := by
    have := congrArg List.length hx
    simpa using this
  have htake : List.take (s.pos + cs.length - s.pos) s.rest = xs := by
    rw [Nat.add_sub_cancel_left, hr, ← hlen]
    exact List.take_left' rfl
  rw [htake] at hk
  exact hk

/-- In a pattern that starts with group 1 around literal characters and goes on
without group 1, every match found by the search leaves in group 1 a text equal
to those characters up to the translation in force. -/
theorem searchFrom_group1_lits (icase : Bool) (cs : List Nat) (tail : Node)
    (ht : tail.hasGroup 1 = false) (n pos : Nat) (input : List Nat)
    (caps : List (Option (List Nat)))
    (h : searchFrom icase ⟨.seq (.group 1 (mkSeq (cs.map .chr))) tail, n + 1⟩ pos input
      = some caps) :
    ∃ txt, caps.getD 1 none = some txt ∧ txt.map (tr icase) = cs.map (tr icase) := by
  have key : ∀ (s t : MState), s.caps = List.replicate (n + 1 + 1) none →
      matchNode icase (.seq (.group 1 (mkSeq (cs.map .chr))) tail) some s = some t →
      ∃ txt, t.caps.getD 1 none = some txt ∧ txt.map (tr icase) = cs.map (tr icase) := by
    intro s t hs hm
    simp only [matchNode.eq_6] at hm
    obtain ⟨xs, rest1, _, hx, hk⟩ := matchNode_group_lits _ _ _ _ _ _ hm
    obtain ⟨s1, hc1, hk1⟩ := matchNode_frame icase 1 tail ht _ _ _ hk
    simp only [Option.some.injEq] at hk1
    subst hk1
    refine ⟨xs, ?_, hx⟩
    rw [hc1, hs]
    simp [List.replicate_succ]
  induction input generalizing pos with
  | nil =>
    simp only [searchFrom] at h
    split at h
    · rename_i t heq
      simp only [Option.some.injEq] at h
      subst h
      obtain ⟨txt, h1, h2⟩ := key _ t rfl heq
      exact ⟨txt, by rw [getD_set_ne _ _ _ _ _ (by decide)]; exact h1, h2⟩
    · simp at h
  | cons c rest ih =>
    simp only [searchFrom] at h
    split at h
    · rename_i t heq
      simp only [Option.some.injEq] at h
      subst h
      obtain ⟨txt, h1, h2⟩ := key _ t rfl heq
      exact ⟨txt, by rw [getD_set_ne _ _ _ _ _ (by decide)]; exact h1, h2⟩
    · exact ih _ h

end RegexImpl

namespace RegexImpl

/-! ### Matches that must succeed -/

theorem matchNode_chr_fwd (icase : Bool) (c : Nat) (k : Cont) (s : MState) (x : Nat)
    (xs : List Nat) (hr : s.rest = x :: xs) (hx : tr icase x = tr icase c) :
    matchNode icase (.chr c) k s = k ⟨s.pos + 1, xs, s.caps⟩ := by
  simp only [matchNode, one, hr, hx, Nat.beq_refl, if_true]

theorem matchNode_lits_fwd (icase : Bool) (cs : List Nat) (k : Cont) (s : MState)
    (xs rest1 : List Nat) (hr : s.rest = xs ++ rest1)
    (hx : xs.map (tr icase) = cs.map (tr icase)) :
    matchNode icase (mkSeq (cs.map .chr)) k s = k ⟨s.pos + cs.length, rest1, s.caps⟩ := by
  induction cs generalizing s xs with
  | nil =>
    have hxs : xs = [] := by simpa using hx
    subst hxs
    simp only [List.map_nil, mkSeq, matchNode, List.length_nil, Nat.add_zero]
    cases s
    simp only [List.nil_append] at hr
    subst hr
    rfl
  | cons c rest ih =>
    cases xs with
    | nil => simp at hx
    | cons x xs1 =>
      simp only [List.map_cons, List.cons.injEq] at hx
      cases rest with
      | nil =>
        have hxs : xs1 = [] := by simpa using hx.2
        subst hxs
        simp only [List.map_cons, List.map_nil, mkSeq]
        exact matchNode_chr_fwd icase c k s x rest1 (by simpa using hr) hx.1
      | cons c1 rest2 =>
        simp only [List.map_cons, mkSeq, matchNode.eq_6]
        rw [matchNode_chr_fwd icase c _ s x (xs1 ++ rest1) (by simpa using hr) hx.1]
        have := ih ⟨s.pos + 1, xs1 ++ rest1, s.caps⟩ xs1 rfl (by simpa using hx.2)
        simp only [List.map_cons, mkSeq] at this
        rw [this]
        simp only [List.length_cons]
        have hpos : s.pos + 1 + (rest2.length + 1) = s.pos + (rest2.length + 1 + 1) := by omega
        rw [hpos]

theorem matchNode_group_lits_fwd (icase : Bool) (idx : Nat) (cs : List Nat) (k : Cont)
    (s : MState) (xs rest1 : List Nat) (hr : s.rest = xs ++ rest1)
    (hx : xs.map (tr icase) = cs.map (tr icase)) :
    matchNode icase (.group idx (mkSeq (cs.map .chr))) k s
      = k ⟨s.pos + cs.length, rest1, s.caps.set idx (some xs)⟩ := by
  simp only [matchNode.eq_8]
  rw [matchNode_lits_fwd icase cs _ s xs rest1 hr hx]
  have hlen : xs.length = cs.length := by
    have := congrArg List.length hx
    simpa using this
  have htake : List.take (s.pos + cs.length - s.pos) s.rest = xs := by
    rw [Nat.add_sub_cancel_left, hr, ← hlen]
    exact List.take_left' rfl
  simp only [htake]

theorem matchNode_set_fwd (icase : Bool) (items : List SetItem) (k : Cont) (s : MState)
    (x : Nat) (xs : List Nat) (hr : s.rest = x :: xs)
    (hp : items.any (SetItem.test icase x) = true) :
    matchNode icase (.set items) k s = k ⟨s.pos + 1, xs, s.caps⟩ := by
  simp only [matchNode, one, hr, hp, if_true]

/-- A greedy repetition that has reached its minimum ends in its continuation
at the latest, so it succeeds when the continuation always does. -/
theorem repLoop_greedy_some (body : Cont → MState → Option MState) (min : Nat)
    (max : Option Nat) (k : Cont) (hk : ∀ s, ∃ t, k s = some t) (bound cnt : Nat) (s : MState)
    (hmin : min ≤ cnt) : ∃ t, repLoop body min max true k bound cnt s = some t := by
  have hble : Nat.ble min cnt = true := Nat.ble_eq_true_of_le hmin
  cases bound with
  | zero =>
    simp only [repLoop, hble, if_true]
    exact hk s
  | succ n =>
    simp only [repLoop, if_true, hble]
    split
    · exact ⟨_, rfl⟩
    · exact hk s

/-- A greedy `+` over a bracket expression succeeds when the next character is
in the bracket expression and the continuation always succeeds. -/
theorem repLoop_set_plus_some (icase : Bool) (items : List SetItem) (k : Cont)
    (hk : ∀ s, ∃ t, k s = some t) (bound : Nat) (s : MState) (x : Nat) (xs : List Nat)
    (hr : s.rest = x :: xs) (hp : items.any (SetItem.test icase x) = true) :
    ∃ t, repLoop (fun k1 s1 => matchNode icase (.set items) k1 s1) 1 none true k (bound + 1) 0 s
      = some t := by
  obtain ⟨t, ht⟩ := repLoop_greedy_some (fun k1 s1 => matchNode icase (.set items) k1 s1) 1 none
    k hk bound (0 + 1) ⟨s.pos + 1, xs, s.caps⟩ (Nat.le_refl 1)
  have hne : Nat.beq (s.pos + 1) s.pos = false := by
    cases hb : Nat.beq (s.pos + 1) s.pos with
    | false => rfl
    | true => exact absurd (Nat.eq_of_beq_eq_true hb) (by omega)
  refine ⟨t, ?_⟩
  simp only [repLoop, if_true]
  rw [matchNode_set_fwd icase items _ s x xs hr hp]
  simp only [hne, Bool.false_eq_true, if_false, ht]

/-- The search succeeds when the pattern matches at the start of some suffix of
the input. -/
theorem searchFrom_some_of_suffix (icase : Bool) (p : Prog) (pre rest : List Nat)
    (h : ∀ pos, ∃ t, matchNode icase p.node some
      ⟨pos, rest, List.replicate (p.ngroups + 1) none⟩ = some t) (pos : Nat) :
    ∃ caps, searchFrom icase p pos (pre ++ rest) = some caps := by
  induction pre generalizing pos with
  | nil =>
    obtain ⟨t, ht⟩ := h pos
    cases rest with
    | nil =>
      simp only [List.append_nil, searchFrom, ht]
      exact ⟨_, rfl⟩
    | cons c cs =>
      simp only [List.nil_append, searchFrom, ht]
      exact ⟨_, rfl⟩
  | cons c cs ih =>
    simp only [List.cons_append, searchFrom]
    split
    · exact ⟨_, rfl⟩
    · exact ih (pos + 1)

/-- A pattern of the shape `(literal)/[set]+` is found in every input that
holds the literal up to the translation in force, then `/`, then a character of
the set. -/
theorem searchFrom_lits_slash_set (icase : Bool) (cs : List Nat) (items : List SetItem)
    (pre tok post : List Nat) (x : Nat) (pos : Nat)
    (htok : tok.map (tr icase) = cs.map (tr icase))
    (hx : items.any (SetItem.test icase x) = true) :
    ∃ caps, searchFrom icase
      ⟨.seq (.group 1 (mkSeq (cs.map .chr)))
        (.seq (.chr 47) (.group 2 (.rep (.set items) 1 none true))), 1 + 1⟩
      pos (pre ++ (tok ++ 47 :: x :: post)) = some caps := by
  apply searchFrom_some_of_suffix
  intro pos1
  simp only [matchNode.eq_6]
  rw [matchNode_group_lits_fwd icase 1 cs _ _ tok (47 :: x :: post) rfl htok]
  simp only []
  rw [matchNode_chr_fwd icase 47 _ _ 47 (x :: post) rfl rfl]
  simp only [matchNode.eq_8, matchNode.eq_12]
  exact repLoop_set_plus_some icase items _ (fun s => ⟨_, rfl⟩) _ _ x post rfl hx

end RegexImpl

namespace UaParser

open RegexImpl

/-! ### Letter case of characters and of their codes -/

theorem fold_valid (c : Char) : (fold c.toNat).isValidChar := by
  unfold fold
  by_cases h : isUpper c.toNat = true
  · rw [if_pos h]
    simp only [isUpper, Bool.and_eq_true] at h
    have := Nat.le_of_ble_eq_true h.2
    exact Or.inl (by omega)
  · rw [if_neg h]
    exact c.valid

theorem tolower_eq_ofNat_fold (c : Char) : tolower c = Char.ofNat (fold c.toNat) := by
  have := tolower_ofNat c.toNat
  rwa [Char.ofNat_toNat] at this

theorem toNat_tolower (c : Char) : (tolower c).toNat = fold c.toNat := by
  rw [tolower_eq_ofNat_fold, toNat_ofNat_valid _ (fold_valid c)]

theorem fold_eq_of_lt (x y : Nat) (h : fold x = y) (hy : y < 97) : x = y := by
  unfold fold at h
  by_cases hu : isUpper x = true
  · rw [if_pos hu] at h
    simp only [isUpper, Bool.and_eq_true] at hu
    have := Nat.le_of_ble_eq_true hu.1
    omega
  · rw [if_neg hu] at h
    exact h

theorem map_toNat_map_tolower (l : List Char) :
    (l.map tolower).map Char.toNat = (l.map Char.toNat).map fold := by
  simp only [List.map_map]
  apply List.map_congr_left
  intro c _
  exact toNat_tolower c

theorem tolower_replace_underscore (c : Char) :
    tolower (if c = '_' then ' ' else c) = if tolower c = '_' then ' ' else tolower c := by
  by_cases h : c = '_'
  · subst h
    decide
  · rw [if_neg h]
    have hne : tolower c ≠ '_' := by
      intro heq
      have h0 := toNat_tolower c
      rw [heq] at h0
      have h1 : fold c.toNat = 95 := h0.symm
      have h2 : c.toNat = 95 := fold_eq_of_lt _ _ h1 (by decide)
      have h3 : Char.ofNat c.toNat = Char.ofNat 95 := congrArg Char.ofNat h2
      rw [Char.ofNat_toNat] at h3
      exact h h3
    rw [if_neg hne]

theorem FnToLower_FnReplace_underscore (s : String) :
    FnToLower (FnReplace '_' ' ' s) = FnReplace '_' ' ' (FnToLower s) := by
  simp only [FnToLower, FnReplace, List.map_map]
  congr 1
  apply List.map_congr_left
  intro c _
  exact tolower_replace_underscore c

end UaParser

namespace UaParser

open RegexImpl

/-! ### Scenarios on concrete user agents -/

theorem runGroup_append_of_no_match (ua : String) (pre g : MatcherGroup) (r : Result)
    (h : ∀ m ∈ pre, ∀ e ∈ m.expressions_, regex_search ua e = none) :
    runGroup ua (pre ++ g) r = runGroup ua g r := by
  induction pre with
  | nil => rfl
  | cons m rest ih =>
    have hm : m.call ua r = (false, r) :=
      Matcher.tryExpressions_none m.extractors_ ua r m.expressions_ (h m (List.mem_cons_self _ _))
    simp only [List.cons_append, runGroup, hm]
    exact ih fun m1 h1 => h m1 (List.mem_cons_of_mem _ h1)

/-- A match of a pattern that starts with group 1 around literal characters and
goes on without group 1: sub-match 1 is those characters up to letter case. -/
theorem regex_search_group1_lits (ua : String) (e : regex) (cs : List Nat) (tail : Node)
    (n : Nat) (ht : tail.hasGroup 1 = false)
    (hc : compile e.pattern = some ⟨.seq (.group 1 (mkSeq (cs.map .chr))) tail, n + 1⟩)
    (ms : smatch) (h : regex_search ua e = some ms) :
    ∃ txt, ms.get 1 = some (toStr txt)
      ∧ txt.map (tr e.flags.icase) = cs.map (tr e.flags.icase) := by
  unfold regex_search at h
  simp only [hc] at h
  split at h
  · simp at h
  · rename_i caps heq
    simp only [Option.some.injEq] at h
    subst h
    obtain ⟨txt, h1, h2⟩ := searchFrom_group1_lits _ _ _ ht _ _ _ _ heq
    refine ⟨txt, ?_, h2⟩
    simp only [smatch.get, getD_map_toStr, h1]
    rfl

set_option maxRecDepth 1000000

theorem compile_comodo :
    compile "(comodo_dragon)\\/([\\w\\.]+)"
      = some ⟨.seq
          (.group 1 (mkSeq ([99, 111, 109, 111, 100, 111, 95, 100, 114, 97, 103, 111, 110].map
            .chr)))
          (.seq (.chr 47) (.group 2 (.rep (.set [.cls .word, .single 46]) 1 none true))), 1 + 1⟩ := by
  decide!

/-- Sub-match 1 of a match of the Comodo Dragon pattern is "comodo_dragon" up
to letter case. -/
theorem regex_search_comodo (ua : String) (ms : smatch)
    (h : regex_search ua (regex.mk "(comodo_dragon)\\/([\\w\\.]+)" i) = some ms) :
    ∃ s, ms.get 1 = some s ∧ FnToLower s = "comodo_dragon" := by
  obtain ⟨txt, h1, h2⟩ := regex_search_group1_lits ua _ _ _ _ (by decide) compile_comodo ms h
  refine ⟨toStr txt, h1, ?_⟩
  have hi : (regex.mk "(comodo_dragon)\\/([\\w\\.]+)" i).flags.icase = true := rfl
  rw [hi] at h2
  have h3 : txt.map fold = [99, 111, 109, 111, 100, 111, 95, 100, 114, 97, 103, 111, 110] := by
    have : ∀ l : List Nat, l.map (tr true) = l.map fold := fun l => rfl
    rw [this, this] at h2
    rw [h2]
    decide
  rw [FnToLower_toStr, h3]
  decide

/-- The Comodo Dragon pattern is found in every input that contains
"comodo_dragon/32.1.1.0" in some letter case. -/
theorem regex_search_comodo_found (ua : String) (pre sub post : List Char)
    (hua : ua.data = pre ++ sub ++ post)
    (hsub : sub.map tolower = "comodo_dragon/32.1.1.0".data) :
    ∃ ms, regex_search ua (regex.mk "(comodo_dragon)\\/([\\w\\.]+)" i) = some ms := by
  have hcodes : (sub.map Char.toNat).map fold
      = [99, 111, 109, 111, 100, 111, 95, 100, 114, 97, 103, 111, 110, 47, 51, 50, 46, 49, 46,
          49, 46, 48] := by
    rw [← map_toNat_map_tolower, hsub]
    decide
  have htok : ((sub.map Char.toNat).take 13).map (tr true)
      = [99, 111, 109, 111, 100, 111, 95, 100, 114, 97, 103, 111, 110].map (tr true) := by
    have : ∀ l : List Nat, l.map (tr true) = l.map fold := fun l => rfl
    rw [this, this, List.map_take, hcodes]
    decide
  have hrst : ((sub.map Char.toNat).drop 13).map fold = [47, 51, 50, 46, 49, 46, 49, 46, 48] := by
    rw [List.map_drop, hcodes]
    rfl
  have hsplit : sub.map Char.toNat
      = (sub.map Char.toNat).take 13 ++ (sub.map Char.toNat).drop 13 :=
    (List.take_append_drop 13 _).symm
  generalize (sub.map Char.toNat).take 13 = tok at htok hsplit
  generalize (sub.map Char.toNat).drop 13 = rst at hrst hsplit
  cases rst with
  | nil => simp at hrst
  | cons x0 rst1 =>
    cases rst1 with
    | nil => simp at hrst
    | cons x1 post0 =>
      simp only [List.map_cons, List.cons.injEq] at hrst
      have h0 : x0 = 47 := fold_eq_of_lt _ _ hrst.1 (by decide)
      have h1 : x1 = 51 := fold_eq_of_lt _ _ hrst.2.1 (by decide)
      subst h0 h1
      have hinput : ua.data.map Char.toNat
          = pre.map Char.toNat ++ (tok ++ 47 :: 51 :: (post0 ++ post.map Char.toNat)) := by
        rw [hua, List.map_append, List.map_append, hsplit]
        simp
      obtain ⟨caps, hcaps⟩ := searchFrom_lits_slash_set true
        [99, 111, 109, 111, 100, 111, 95, 100, 114, 97, 103, 111, 110] [.cls .word, .single 46]
        (pre.map Char.toNat) tok (post0 ++ post.map Char.toNat) 51 0 htok (by decide)
      refine ⟨⟨caps.map (Option.map toStr)⟩, ?_⟩
      unfold regex_search
      simp only [compile_comodo]
      have hi : (regex.mk "(comodo_dragon)\\/([\\w\\.]+)" i).flags.icase = true := rfl
      rw [hi, hinput, hcaps]

theorem browserGroup_split :
    browserGroup = browserGroup.take 6
      ++ Matcher.mk [regex.mk "(comodo_dragon)\\/([\\w\\.]+)" i]
          [Extractor.transform .browserName (.FnReplace '_' ' '),
           Extractor.capture .browserVersion]
        :: browserGroup.drop 7 := by
  decide!

/-- The browser name after `parse` when the Comodo Dragon matcher is the first
browser matcher with an alternative found in `ua`. -/
theorem parse_browserName_comodo (ua : String) (ms : smatch)
    (hprior : ∀ m ∈ browserGroup.take 6, ∀ e ∈ m.expressions_, regex_search ua e = none)
    (hm : regex_search ua (regex.mk "(comodo_dragon)\\/([\\w\\.]+)" i) = some ms) :
    (parse ua).browserName = FnReplace '_' ' ' (sub_match_str (ms.get 1)) := by
  have hp : (parse ua).get .browserName = (runGroup ua browserGroup {}).get .browserName := by
    rw [parse_eq, runGroup_get_of_not_writes ua osGroup _ _ (by decide!),
      runGroup_get_of_not_writes ua engineGroup _ _ (by decide!),
      runGroup_get_of_not_writes ua deviceGroup _ _ (by decide!),
      runGroup_get_of_not_writes ua cpuGroup _ _ (by decide!)]
  have hp2 : (parse ua).browserName = (runGroup ua browserGroup {}).browserName := hp
  rw [hp2, browserGroup_split, runGroup_append_of_no_match ua _ _ _ hprior]
  obtain ⟨s, hs, _⟩ := regex_search_comodo ua ms hm
  have hsize : 1 ≤ ms.size := Nat.le_of_lt (smatch.size_of_get_some ms 1 s hs)
  simp only [runGroup, Matcher.call, Matcher.tryExpressions, hm, Matcher.extract]
  have h1 := Extractor.call_capture_of_le
    (Extractor.transform .browserName (.FnReplace '_' ' ')) ua ms (0 + 1) {} rfl hsize
  rw [h1]
  exact Extractor.call_get_ne (Extractor.capture .browserVersion) ua ms (0 + 1 + 1) _
    .browserName (by decide)

/-- C17 (failing input): the second device rule is built from its pattern alone,
so it is case-sensitive, while every other expression of the table carries the
flag `i`. It is not found in the user agent of AppleCoreMedia on an iPad, where
the same pattern with `i` is found with group 1 "iPad"; `parse` then falls
through to the iPod/iPhone rule and returns `deviceType = "mobile"`. -/
theorem C17_applecoremedia_pattern_lacks_icase :
    (∀ g ∈ getMatcherGroups, ∀ m ∈ g, ∀ e ∈ m.expressions_,
        e.flags.icase = true ∨ e = regex.mk "applecoremedia\\/[\\w\\.]+ \\((ipad)" regex.normal)
      ∧ deviceGroup.get? 1
          = some (Matcher.mk [regex.mk "applecoremedia\\/[\\w\\.]+ \\((ipad)" regex.normal]
              [Extractor.capture .deviceModel,
               Extractor.literal .deviceVendor "Apple",
               Extractor.literal .deviceType TABLET])
      ∧ (regex.mk "applecoremedia\\/[\\w\\.]+ \\((ipad)" regex.normal).flags.icase = false
      ∧ regex_search "AppleCoreMedia/1.0.0.12B466 (iPad; U; CPU OS 8_1_3 like Mac OS X; en_us)"
          (regex.mk "applecoremedia\\/[\\w\\.]+ \\((ipad)" regex.normal) = none
      ∧ regex_search "AppleCoreMedia/1.0.0.12B466 (iPad; U; CPU OS 8_1_3 like Mac OS X; en_us)"
          (regex.mk "applecoremedia\\/[\\w\\.]+ \\((ipad)" i)
        = some ⟨[some "AppleCoreMedia/1.0.0.12B466 (iPad", some "iPad"]⟩
      ∧ (parse "AppleCoreMedia/1.0.0.12B466 (iPad; U; CPU OS 8_1_3 like Mac OS X; en_us)").deviceType
        = "mobile"
      ∧ (parse "AppleCoreMedia/1.0.0.12B466 (iPad; U; CPU OS 8_1_3 like Mac OS X; en_us)").deviceModel
        = "iPad" := by
  decide!

/-- C18: on the Opera 10.10 user agent `parse` returns `browserName = "Opera"`
and `browserVersion = "10.10"`: the first two alternatives of the Presto matcher
are not found and the third takes the version after `Version/`. -/
theorem C18_scenario_A_opera_version :
    (parse "Opera/9.80 (Windows NT 6.1; U; en) Presto/2.2.15 Version/10.10").browserName = "Opera"
      ∧ (parse "Opera/9.80 (Windows NT 6.1; U; en) Presto/2.2.15 Version/10.10").browserVersion
        = "10.10"
      ∧ regex_search "Opera/9.80 (Windows NT 6.1; U; en) Presto/2.2.15 Version/10.10"
          (regex.mk "(opera\\smini)\\/([\\w\\.-]+)" i) = none
      ∧ regex_search "Opera/9.80 (Windows NT 6.1; U; en) Presto/2.2.15 Version/10.10"
          (regex.mk "(opera\\s[mobiletab]+).+version\\/([\\w\\.-]+)" i) = none
      ∧ regex_search "Opera/9.80 (Windows NT 6.1; U; en) Presto/2.2.15 Version/10.10"
          (regex.mk "(opera).+version\\/([\\w\\.]+)" i)
        = some ⟨[some "Opera/9.80 (Windows NT 6.1; U; en) Presto/2.2.15 Version/10.10",
            some "Opera", some "10.10"]⟩ := by
  decide!

/-- C19: on the Opera 10.10 user agent, which contains "Windows NT 6.1", `parse`
returns `osName = "Windows"` and `osVersion = "7"`: the Windows pattern
captures "NT 6.1", which `FnFixWindowsVersion` maps to "7". -/
theorem C19_scenario_D_windows_7 :
    (parse "Opera/9.80 (Windows NT 6.1; U; en) Presto/2.2.15 Version/10.10").osName = "Windows"
      ∧ (parse "Opera/9.80 (Windows NT 6.1; U; en) Presto/2.2.15 Version/10.10").osVersion = "7"
      ∧ regex_search "Opera/9.80 (Windows NT 6.1; U; en) Presto/2.2.15 Version/10.10"
          (regex.mk
            "(windows\\sphone(?:\\sos)*|windows\\smobile|windows)[\\s\\/]?([ntce\\d\\.\\s]+\\w)" i)
        = some ⟨[some "Windows NT 6.1", some "Windows", some "NT 6.1"]⟩
      ∧ FnFixWindowsVersion "NT 6.1" = "7" := by
  decide!

/-- C20 (counterexample): an input that contains "comodo_dragon/32.1.1.0" as
spelled gets `browserName = "comodo dragon"`, in the letter case of the input;
and the Opera 10.10 user agent followed by "Comodo_Dragon/32.1.1.0" gets
"Opera", because the Presto matcher comes first. -/
theorem C20_counterexample_lowercase_token :
    (parse ("Mozilla/5.0 (Windows NT 6.2) AppleWebKit/537.36 (KHTML, like Gecko) Chrome/32.0.1700.107 Safari/537.36 "
        ++ "comodo_dragon/32.1.1.0")).browserName = "comodo dragon"
      ∧ (parse ("Opera/9.80 (Windows NT 6.1; U; en) Presto/2.2.15 Version/10.10 "
        ++ "Comodo_Dragon/32.1.1.0")).browserName = "Opera" := by
  decide!

/-- C20 (as amended): for every input that contains "comodo_dragon/32.1.1.0"
in some letter case and in which none of the six browser matchers before the
Comodo Dragon matcher is found, the Comodo Dragon pattern is found and `parse`
returns as `browserName` the text of group 1 with every underscore replaced by
a space. That text is "comodo_dragon" in the letter case of the input, so the
name is "comodo dragon" up to letter case, and it is "Comodo Dragon" when the
input spells the token "Comodo_Dragon". -/
theorem C20_comodo_name_is_captured_token (ua : String) (pre sub post : List Char)
    (hua : ua.data = pre ++ sub ++ post)
    (hsub : sub.map tolower = "comodo_dragon/32.1.1.0".data)
    (hprior : ∀ m ∈ browserGroup.take 6, ∀ e ∈ m.expressions_, regex_search ua e = none) :
    FnToLower (parse ua).browserName = "comodo dragon"
      ∧ ∃ ms, regex_search ua (regex.mk "(comodo_dragon)\\/([\\w\\.]+)" i) = some ms
        ∧ (parse ua).browserName = FnReplace '_' ' ' (sub_match_str (ms.get 1))
        ∧ FnToLower (sub_match_str (ms.get 1)) = "comodo_dragon"
        ∧ (sub_match_str (ms.get 1) = "Comodo_Dragon"
            → (parse ua).browserName = "Comodo Dragon") := by
  obtain ⟨ms, hm⟩ := regex_search_comodo_found ua pre sub post hua hsub
  have h1 := parse_browserName_comodo ua ms hprior hm
  obtain ⟨s, hs, hlow⟩ := regex_search_comodo ua ms hm
  have h2 : FnToLower (sub_match_str (ms.get 1)) = "comodo_dragon" := by
    rw [hs]
    exact hlow
  refine ⟨?_, ms, hm, h1, h2, ?_⟩
  · rw [h1, FnToLower_FnReplace_underscore, h2]
    decide
  · intro hsp
    rw [h1, hsp]
    decide

/-- C20 (instance): the user agent of Comodo Dragon 32.1.1.0 contains the token
spelled "Comodo_Dragon/32.1.1.0" and no earlier browser matcher is found in it;
its browser name is "Comodo Dragon". -/
theorem C20_witness_comodo_dragon_32 :
    (("Mozilla/5.0 (Windows NT 6.2) AppleWebKit/537.36 (KHTML, like Gecko) Chrome/32.0.1700.107 Safari/537.36 Comodo_Dragon/32.1.1.0").data
        = "Mozilla/5.0 (Windows NT 6.2) AppleWebKit/537.36 (KHTML, like Gecko) Chrome/32.0.1700.107 Safari/537.36 ".data
          ++ "Comodo_Dragon/32.1.1.0".data ++ []
      ∧ "Comodo_Dragon/32.1.1.0".data.map tolower = "comodo_dragon/32.1.1.0".data
      ∧ ∀ m ∈ browserGroup.take 6, ∀ e ∈ m.expressions_,
        regex_search
          "Mozilla/5.0 (Windows NT 6.2) AppleWebKit/537.36 (KHTML, like Gecko) Chrome/32.0.1700.107 Safari/537.36 Comodo_Dragon/32.1.1.0"
          e = none)
    ∧ FnToLower (parse
        "Mozilla/5.0 (Windows NT 6.2) AppleWebKit/537.36 (KHTML, like Gecko) Chrome/32.0.1700.107 Safari/537.36 Comodo_Dragon/32.1.1.0").browserName
      = "comodo dragon"
    ∧ (parse
        "Mozilla/5.0 (Windows NT 6.2) AppleWebKit/537.36 (KHTML, like Gecko) Chrome/32.0.1700.107 Safari/537.36 Comodo_Dragon/32.1.1.0").browserName
      = "Comodo Dragon" :=
  ⟨by decide!,
    (C20_comodo_name_is_captured_token
      "Mozilla/5.0 (Windows NT 6.2) AppleWebKit/537.36 (KHTML, like Gecko) Chrome/32.0.1700.107 Safari/537.36 Comodo_Dragon/32.1.1.0"
      "Mozilla/5.0 (Windows NT 6.2) AppleWebKit/537.36 (KHTML, like Gecko) Chrome/32.0.1700.107 Safari/537.36 ".data
      "Comodo_Dragon/32.1.1.0".data [] (by decide!) (by decide!) (by decide!)).1,
    by decide!⟩

end UaParser

namespace RegexImpl

/-! ### Every matching step moves ahead in the same text and keeps the group slots -/

theorem ahead_refl (s : MState) : Ahead s s :=
  ⟨rfl, [], rfl, rfl⟩

theorem ahead_trans {s s1 s2 : MState} (h1 : Ahead s s1) (h2 : Ahead s1 s2) : Ahead s s2 := by
  obtain ⟨hl1, c1, hr1, hp1⟩ := h1
  obtain ⟨hl2, c2, hr2, hp2⟩ := h2
  refine ⟨hl2.trans hl1, c1 ++ c2, ?_, ?_⟩
  · rw [hr1, hr2, List.append_assoc]
  · rw [hp2, hp1, List.length_append, Nat.add_assoc]

theorem ahead_step (s : MState) (x : Nat) (xs : List Nat) (hr : s.rest = x :: xs) :
    Ahead s ⟨s.pos + 1, xs, s.caps⟩ :=
  ⟨rfl, [x], by rw [hr]; rfl, rfl⟩

theorem matchText_ahead (icase : Bool) (txt : List Nat) (s t : MState)
    (h : matchText icase txt s = some t) : Ahead s t := by
  induction txt generalizing s with
  | nil =>
    simp only [matchText, Option.some.injEq] at h
    rw [← h]
    exact ahead_refl s
  | cons c cs ih =>
    unfold matchText at h
    cases hr : s.rest with
    | nil => simp [hr] at h
    | cons x xs =>
      simp only [hr] at h
      by_cases hc : Nat.beq (tr icase x) (tr icase c) = true
      · simp only [hc, if_true] at h
        exact ahead_trans (ahead_step s x xs hr) (ih ⟨s.pos + 1, xs, s.caps⟩ h)
      · simp [hc] at h

theorem repLoop_ahead (body : Cont → MState → Option MState)
    (hb : ∀ (k : Cont) (s t : MState), body k s = some t → ∃ s1, Ahead s s1 ∧ k s1 = some t)
    (min : Nat) (max : Option Nat) (greedy : Bool) (k : Cont) (bound cnt : Nat) (s t : MState)
    (h : repLoop body min max greedy k bound cnt s = some t) :
    ∃ s1, Ahead s s1 ∧ k s1 = some t := by
  induction bound generalizing cnt s with
  | zero =>
    simp only [repLoop] at h
    by_cases hm : Nat.ble min cnt = true
    · exact ⟨s, ahead_refl s, by simpa [hm] using h⟩
    · simp [hm] at h
  | succ n ih =>
    have stop : (if Nat.ble min cnt = true then k s else none) = some t →
        ∃ s1, Ahead s s1 ∧ k s1 = some t := by
      intro h1
      by_cases hm : Nat.ble min cnt = true
      · exact ⟨s, ahead_refl s, by simpa [hm] using h1⟩
      · simp [hm] at h1
    have more : ∀ allowed : Bool,
        (if allowed = true then
            body (fun s1 => if Nat.beq s1.pos s.pos = true then none
                            else repLoop body min max greedy k n (cnt + 1) s1) s
          else none) = some t →
        ∃ s1, Ahead s s1 ∧ k s1 = some t := by
      intro allowed h1
      cases allowed with
      | false => simp at h1
      | true =>
        simp only [if_true] at h1
        obtain ⟨s1, hc1, hk1⟩ := hb _ _ _ h1
        by_cases hp : Nat.beq s1.pos s.pos = true
        · simp [hp] at hk1
        · simp only [hp] at hk1
          obtain ⟨s2, hc2, hk2⟩ := ih _ _ hk1
          exact ⟨s2, ahead_trans hc1 hc2, hk2⟩
    simp only [repLoop] at h
    cases greedy with
    | true =>
      simp only [if_true] at h
      split at h
      · rename_i t1 heq
        simp only [Option.some.injEq] at h
        subst h
        exact more _ heq
      · exact stop h
    | false =>
      simp only [Bool.false_eq_true, if_false] at h
      split at h
      · rename_i t1 heq
        simp only [Option.some.injEq] at h
        subst h
        exact stop heq
      · exact more _ h

theorem matchNode_ahead (icase : Bool) (node : Node) (k : Cont) (s t : MState)
    (h : matchNode icase node k s = some t) : ∃ s1, Ahead s s1 ∧ k s1 = some t := by
  induction node generalizing k s t with
  | chr c =>
    simp only [matchNode] at h
    obtain ⟨x, xs, hr, _, hk⟩ := one_some _ _ _ _ h
    exact ⟨⟨s.pos + 1, xs, s.caps⟩, ahead_step s x xs hr, hk⟩
  | any =>
    simp only [matchNode] at h
    obtain ⟨x, xs, hr, _, hk⟩ := one_some _ _ _ _ h
    exact ⟨⟨s.pos + 1, xs, s.caps⟩, ahead_step s x xs hr, hk⟩
  | cls c =>
    simp only [matchNode] at h
    obtain ⟨x, xs, hr, _, hk⟩ := one_some _ _ _ _ h
    exact ⟨⟨s.pos + 1, xs, s.caps⟩, ahead_step s x xs hr, hk⟩
  | set items =>
    simp only [matchNode] at h
    obtain ⟨x, xs, hr, _, hk⟩ := one_some _ _ _ _ h
    exact ⟨⟨s.pos + 1, xs, s.caps⟩, ahead_step s x xs hr, hk⟩
  | empty =>
    simp only [matchNode] at h
    exact ⟨s, ahead_refl s, h⟩
  | seq a b iha ihb =>
    simp only [matchNode] at h
    obtain ⟨s1, hc1, hk1⟩ := iha _ _ _ h
    obtain ⟨s2, hc2, hk2⟩ := ihb _ _ _ hk1
    exact ⟨s2, ahead_trans hc1 hc2, hk2⟩
  | alt a b iha ihb =>
    simp only [matchNode] at h
    split at h
    · rename_i t1 heq
      simp only [Option.some.injEq] at h
      subst h
      exact iha _ _ _ heq
    · exact ihb _ _ _ h
  | group j r ih =>
    simp only [matchNode] at h
    obtain ⟨s1, hc1, hk1⟩ := ih _ _ _ h
    refine ⟨_, ?_, hk1⟩
    obtain ⟨hl, c, hr, hp⟩ := hc1
    exact ⟨by simp only [List.length_set]; exact hl, c, hr, hp⟩
  | ncgroup r ih =>
    simp only [matchNode] at h
    exact ih _ _ _ h
  | look r ih =>
    simp only [matchNode] at h
    split at h
    · rename_i t1 heq
      obtain ⟨s1, hc1, hk1⟩ := ih _ _ _ heq
      simp only [Option.some.injEq] at hk1
      subst hk1
      exact ⟨⟨s.pos, s.rest, s1.caps⟩, ⟨hc1.1, [], rfl, rfl⟩, h⟩
    · simp at h
  | backref j =>
    simp only [matchNode] at h
    split at h
    · simp at h
    · split at h
      · rename_i s1 heq
        exact ⟨s1, matchText_ahead _ _ _ _ heq, h⟩
      · simp at h
  | rep r min max greedy ih =>
    simp only [matchNode] at h
    exact repLoop_ahead _ (fun k1 s1 t1 h1 => ih k1 s1 t1 h1) min max greedy k _ _ s t h

/-- A successful search returns one slot for the whole match and one per group. -/
theorem searchFrom_length (icase : Bool) (p : Prog) (pos : Nat) (cs : List Nat)
    (caps : List (Option (List Nat))) (h : searchFrom icase p pos cs = some caps) :
    caps.length = p.ngroups + 1 := by
  induction cs generalizing pos with
  | nil =>
    simp only [searchFrom] at h
    split at h
    · rename_i t heq
      obtain ⟨s1, ha, hk⟩ := matchNode_ahead _ _ _ _ _ heq
      simp only [Option.some.injEq] at hk h
      subst hk
      rw [← h, List.length_set, ha.1]
      simp
    · simp at h
  | cons c cs ih =>
    simp only [searchFrom] at h
    split at h
    · rename_i t heq
      obtain ⟨s1, ha, hk⟩ := matchNode_ahead _ _ _ _ _ heq
      simp only [Option.some.injEq] at hk h
      subst hk
      rw [← h, List.length_set, ha.1]
      simp
    · exact ih _ h

/-- The result of a successful search has `mark_count() + 1` sub-matches. -/
theorem regex_search_size (ua : String) (e : regex) (ms : smatch)
    (h : regex_search ua e = some ms) : ms.size = e.mark_count + 1 := by
  unfold regex_search at h
  unfold regex.mark_count
  cases hc : compile e.pattern with
  | none => simp [hc] at h
  | some p =>
    simp only [hc] at h
    cases hs : searchFrom e.flags.icase p 0 (ua.data.map Char.toNat) with
    | none => simp [hs] at h
    | some caps =>
      simp only [hs, Option.some.injEq] at h
      rw [← h]
      simp only [smatch.size, List.length_map]
      exact searchFrom_length _ _ _ _ _ hs

end RegexImpl

namespace RegexImpl

/-! ### Repetitions that must succeed -/

theorem matchNode_cls_fwd (icase : Bool) (c : CharClass) (k : Cont) (s : MState) (x : Nat)
    (xs : List Nat) (hr : s.rest = x :: xs) (hx : c.test x = true) :
    matchNode icase (.cls c) k s = k ⟨s.pos + 1, xs, s.caps⟩ := by
  simp only [matchNode, one, hr, hx, if_true]

/-- A pattern of the shape `\s(literal)/[set]+` is found in every input that
holds a whitespace character, the literal up to the translation in force, then
`/`, then a character of the set. -/
theorem searchFrom_space_lits_slash_set (icase : Bool) (cs : List Nat) (items : List SetItem)
    (pre tok post : List Nat) (ws x : Nat) (pos : Nat) (hws : isSpace ws = true)
    (htok : tok.map (tr icase) = cs.map (tr icase))
    (hx : items.any (SetItem.test icase x) = true) :
    ∃ caps, searchFrom icase
      ⟨.seq (.cls .space) (.seq (.group 1 (mkSeq (cs.map .chr)))
        (.seq (.chr 47) (.group 2 (.rep (.set items) 1 none true)))), 1 + 1⟩
      pos (pre ++ ws :: (tok ++ 47 :: x :: post)) = some caps := by
  apply searchFrom_some_of_suffix
  intro pos1
  simp only [matchNode.eq_6]
  rw [matchNode_cls_fwd icase .space _ _ ws (tok ++ 47 :: x :: post) rfl hws]
  rw [matchNode_group_lits_fwd icase 1 cs _ _ tok (47 :: x :: post) rfl htok]
  simp only []
  rw [matchNode_chr_fwd icase 47 _ _ 47 (x :: post) rfl rfl]
  simp only [matchNode.eq_8, matchNode.eq_12]
  exact repLoop_set_plus_some icase items _ (fun s => ⟨_, rfl⟩) _ _ x post rfl hx

end RegexImpl

namespace RegexImpl

/-! ### The iOS pattern is found -/

theorem repLoop_stop_isSome (body : Cont → MState → Option MState) (min : Nat)
    (max : Option Nat) (greedy : Bool) (k : Cont) (bound cnt : Nat) (s : MState)
    (hmin : min ≤ cnt) (hk : (k s).isSome = true) :
    (repLoop body min max greedy k bound cnt s).isSome = true := by
  have hble : Nat.ble min cnt = true := Nat.ble_eq_true_of_le hmin
  cases bound with
  | zero =>
    simp only [repLoop, hble, if_true]
    exact hk
  | succ n =>
    cases greedy with
    | true =>
      simp only [repLoop, if_true, hble]
      split
      · rfl
      · exact hk
    | false =>
      simp only [repLoop, Bool.false_eq_true, if_false, hble, if_true]
      split
      · rfl
      · rename_i hnone
        rw [hnone] at hk
        exact absurd hk (by simp)

theorem repLoop_step_isSome (body : Cont → MState → Option MState) (min : Nat)
    (greedy : Bool) (k : Cont) (bound cnt : Nat) (s : MState)
    (h : (body (fun s1 => if Nat.beq s1.pos s.pos = true then none
        else repLoop body min none greedy k bound (cnt + 1) s1) s).isSome = true) :
    (repLoop body min none greedy k (bound + 1) cnt s).isSome = true := by
  cases greedy with
  | true =>
    simp only [repLoop, if_true]
    split
    · rfl
    · rename_i hnone
      rw [hnone] at h
      exact absurd h (by simp)
  | false =>
    simp only [repLoop, Bool.false_eq_true, if_false, if_true]
    split
    · rfl
    · exact h

theorem beq_add_pos (p n : Nat) (hn : 0 < n) : Nat.beq (p + n) p = false := by
  cases hb : Nat.beq (p + n) p with
  | false => rfl
  | true => exact absurd (Nat.eq_of_beq_eq_true hb) (by omega)

/-- A repetition of a one-character step succeeds when the text ahead starts
with a run of characters that pass the test, long enough for the minimum, after
which the continuation succeeds. -/
theorem repLoop_one_run_isSome (p : Nat → Bool) (min : Nat) (greedy : Bool) (k : Cont)
    (run rest1 : List Nat) (bound cnt : Nat) (s : MState)
    (hr : s.rest = run ++ rest1) (hall : ∀ c ∈ run, p c = true) (hb : run.length ≤ bound)
    (hmin : min ≤ cnt + run.length)
    (hk : (k ⟨s.pos + run.length, rest1, s.caps⟩).isSome = true) :
    (repLoop (fun k1 s1 => one p k1 s1) min none greedy k bound cnt s).isSome = true := by
  induction run generalizing bound cnt s with
  | nil =>
    apply repLoop_stop_isSome _ _ _ _ _ _ _ _ (by simpa using hmin)
    cases s
    simp only [List.nil_append] at hr
    subst hr
    exact hk
  | cons x run1 ih =>
    cases bound with
    | zero => simp at hb
    | succ n =>
      apply repLoop_step_isSome
      have hpx : p x = true := hall x (List.mem_cons_self _ _)
      simp only [one, hr, List.cons_append, hpx, if_true, beq_add_pos s.pos 1 (by decide),
        Bool.false_eq_true, if_false]
      apply ih n (cnt + 1) ⟨s.pos + 1, run1 ++ rest1, s.caps⟩ rfl
        (fun c hc => hall c (List.mem_cons_of_mem _ hc))
      · simpa using hb
      · simp only [List.length_cons] at hmin
        omega
      · have hpos : s.pos + 1 + run1.length = s.pos + (x :: run1).length := by
          simp only [List.length_cons]
          omega
        simp only [hpos]
        exact hk

theorem matchNode_rep_run_isSome (icase : Bool) (r : Node) (p : Nat → Bool)
    (hbody : ∀ (k : Cont) (s : MState), matchNode icase r k s = one p k s)
    (min : Nat) (greedy : Bool) (k : Cont) (s : MState) (run rest1 : List Nat)
    (hr : s.rest = run ++ rest1) (hall : ∀ c ∈ run, p c = true) (hmin : min ≤ run.length)
    (hk : (k ⟨s.pos + run.length, rest1, s.caps⟩).isSome = true) :
    (matchNode icase (.rep r min none greedy) k s).isSome = true := by
  simp only [matchNode.eq_12]
  have hb : (fun (k1 : Cont) (s1 : MState) => matchNode icase r k1 s1)
      = fun k1 s1 => one p k1 s1 := by
    funext k1 s1
    exact hbody k1 s1
  rw [hb]
  apply repLoop_one_run_isSome p min greedy k run rest1 _ 0 s hr hall
  · rw [hr, List.length_append]
    omega
  · omega
  · exact hk

theorem matchNode_rep_step_isSome (icase : Bool) (r : Node) (min : Nat) (greedy : Bool)
    (k : Cont) (s : MState)
    (h : (matchNode icase r (fun s1 => if Nat.beq s1.pos s.pos = true then none
        else repLoop (fun k1 s2 => matchNode icase r k1 s2) min none greedy k s.rest.length
          (0 + 1) s1) s).isSome = true) :
    (matchNode icase (.rep r min none greedy) k s).isSome = true := by
  simp only [matchNode.eq_12]
  exact repLoop_step_isSome _ min greedy k _ 0 s h

theorem matchNode_alt_left_isSome (icase : Bool) (a b : Node) (k : Cont) (s : MState)
    (h : (matchNode icase a k s).isSome = true) :
    (matchNode icase (.alt a b) k s).isSome = true := by
  simp only [matchNode.eq_7]
  split
  · rfl
  · rename_i hnone
    rw [hnone] at h
    exact absurd h (by simp)

end RegexImpl

namespace RegexImpl

/-- A starred group around a `+` over a one-character step succeeds when the
text ahead starts with a non-empty run of characters that pass the test, after
which the continuation succeeds whatever the groups hold. -/
theorem matchNode_star_group_plus_isSome (icase : Bool) (idx : Nat) (r : Node) (p : Nat → Bool)
    (hbody : ∀ (k : Cont) (s : MState), matchNode icase r k s = one p k s)
    (k : Cont) (s : MState) (run rest1 : List Nat)
    (hr : s.rest = run ++ rest1) (hall : ∀ c ∈ run, p c = true) (hlen : 1 ≤ run.length)
    (hk : ∀ caps1, (k ⟨s.pos + run.length, rest1, caps1⟩).isSome = true) :
    (matchNode icase (.rep (.group idx (.rep r 1 none true)) 0 none true) k s).isSome = true := by
  apply matchNode_rep_step_isSome
  rw [matchNode.eq_8]
  apply matchNode_rep_run_isSome icase r p hbody 1 true _ s run rest1 hr hall hlen
  simp only [beq_add_pos s.pos run.length hlen, Bool.false_eq_true, if_false]
  apply repLoop_stop_isSome _ _ _ _ _ _ _ _ (Nat.zero_le _)
  exact hk _

/-- The end of the iOS pattern, `\slike\smac`, matches " like Mac". -/
theorem matchNode_like_mac_isSome (pos : Nat) (post : List Nat)
    (caps : List (Option (List Nat))) :
    (matchNode true
      (.seq (.cls .space) (.seq (.chr 108) (.seq (.chr 105) (.seq (.chr 107)
        (.seq (.chr 101) (.seq (.cls .space) (.seq (.chr 109)
          (.seq (.chr 97) (.chr 99)))))))))
      some
      ⟨pos, 32 :: 108 :: 105 :: 107 :: 101 :: 32 :: 77 :: 97 :: 99 :: post, caps⟩).isSome
      = true := by
  simp only [matchNode.eq_6]
  rw [matchNode_cls_fwd true .space _ _ 32 _ rfl (by decide)]
  rw [matchNode_chr_fwd true 108 _ _ 108 _ rfl rfl]
  rw [matchNode_chr_fwd true 105 _ _ 105 _ rfl rfl]
  rw [matchNode_chr_fwd true 107 _ _ 107 _ rfl rfl]
  rw [matchNode_chr_fwd true 101 _ _ 101 _ rfl rfl]
  rw [matchNode_cls_fwd true .space _ _ 32 _ rfl (by decide)]
  rw [matchNode_chr_fwd true 109 _ _ 77 _ rfl (by decide)]
  rw [matchNode_chr_fwd true 97 _ _ 97 _ rfl rfl]
  rw [matchNode_chr_fwd true 99 _ _ 99 _ rfl rfl]
  rfl

/-- The first alternative after group 1 of the iOS pattern,
`.*os\s*([\w]+)*\slike\smac`, matches " OS 9_1 like Mac". -/
theorem matchNode_os_version_isSome (pos : Nat) (post : List Nat)
    (caps : List (Option (List Nat))) :
    (matchNode true
      (.seq (.rep .any 0 none true)
        (.seq (.chr 111) (.seq (.chr 115)
          (.seq (.rep (.cls .space) 0 none true)
            (.seq (.rep (.group 2 (.rep (.set [.cls .word]) 1 none true)) 0 none true)
              (.seq (.cls .space) (.seq (.chr 108) (.seq (.chr 105) (.seq (.chr 107)
                (.seq (.chr 101) (.seq (.cls .space) (.seq (.chr 109)
                  (.seq (.chr 97) (.chr 99))))))))))))))
      some
      ⟨pos, 32 :: 79 :: 83 :: 32 :: 57 :: 95 :: 49 :: 32 :: 108 :: 105 :: 107 :: 101 :: 32 :: 77
        :: 97 :: 99 :: post, caps⟩).isSome = true := by
  rw [matchNode.eq_6]
  apply matchNode_rep_run_isSome true .any (fun _ => true) (fun _ _ => rfl) 0 true _ _ [32]
    (79 :: 83 :: 32 :: 57 :: 95 :: 49 :: 32 :: 108 :: 105 :: 107 :: 101 :: 32 :: 77 :: 97
      :: 99 :: post) rfl (by decide) (by decide)
  rw [matchNode.eq_6, matchNode_chr_fwd true 111 _ _ 79 _ rfl (by decide)]
  rw [matchNode.eq_6, matchNode_chr_fwd true 115 _ _ 83 _ rfl (by decide)]
  rw [matchNode.eq_6]
  apply matchNode_rep_run_isSome true (.cls .space) CharClass.space.test (fun _ _ => rfl) 0 true
    _ _ [32]
    (57 :: 95 :: 49 :: 32 :: 108 :: 105 :: 107 :: 101 :: 32 :: 77 :: 97 :: 99 :: post) rfl
    (by decide) (by decide)
  rw [matchNode.eq_6]
  apply matchNode_star_group_plus_isSome true 2 (.set [.cls .word])
    (fun x => [SetItem.cls .word].any (SetItem.test true x)) (fun _ _ => rfl) _ _
    [57, 95, 49]
    (32 :: 108 :: 105 :: 107 :: 101 :: 32 :: 77 :: 97 :: 99 :: post) rfl (by decide) (by decide)
  intro caps1
  exact matchNode_like_mac_isSome _ post caps1

/-- The iOS pattern matches at the start of every text that begins with
"iPhone OS 9_1 like Mac". -/
theorem matchNode_ios_isSome (pos : Nat) (post : List Nat) (caps : List (Option (List Nat))) :
    (matchNode true
      (.seq
        (.group 1 (.seq (.chr 105) (.seq (.chr 112)
          (.rep (.set [.single 104, .single 111, .single 110, .single 101, .single 97,
            .single 100]) 1 none true))))
        (.ncgroup (.alt
          (.seq (.rep .any 0 none true)
            (.seq (.chr 111) (.seq (.chr 115)
              (.seq (.rep (.cls .space) 0 none true)
                (.seq (.rep (.group 2 (.rep (.set [.cls .word]) 1 none true)) 0 none true)
                  (.seq (.cls .space) (.seq (.chr 108) (.seq (.chr 105) (.seq (.chr 107)
                    (.seq (.chr 101) (.seq (.cls .space) (.seq (.chr 109)
                      (.seq (.chr 97) (.chr 99))))))))))))))
          (.seq (.chr 59) (.seq (.cls .space) (.seq (.chr 111) (.seq (.chr 112)
            (.seq (.chr 101) (.seq (.chr 114) (.chr 97))))))))))
      some
      ⟨pos, 105 :: 80 :: 104 :: 111 :: 110 :: 101 :: 32 :: 79 :: 83 :: 32 :: 57 :: 95 :: 49 :: 32
        :: 108 :: 105 :: 107 :: 101 :: 32 :: 77 :: 97 :: 99 :: post, caps⟩).isSome = true := by
  rw [matchNode.eq_6, matchNode.eq_8, matchNode.eq_6]
  rw [matchNode_chr_fwd true 105 _ _ 105 _ rfl rfl]
  rw [matchNode.eq_6, matchNode_chr_fwd true 112 _ _ 80 _ rfl (by decide)]
  apply matchNode_rep_run_isSome true
    (.set [.single 104, .single 111, .single 110, .single 101, .single 97, .single 100])
    (fun x => [SetItem.single 104, .single 111, .single 110, .single 101, .single 97,
      .single 100].any (SetItem.test true x)) (fun _ _ => rfl) 1 true _ _
    [104, 111, 110, 101]
    (32 :: 79 :: 83 :: 32 :: 57 :: 95 :: 49 :: 32 :: 108 :: 105 :: 107 :: 101 :: 32 :: 77 :: 97
      :: 99 :: post) rfl (by decide) (by decide)
  rw [matchNode.eq_9]
  apply matchNode_alt_left_isSome
  exact matchNode_os_version_isSome _ post _

end RegexImpl

namespace UaParser

open RegexImpl

/-! ### The iOS rule -/

set_option maxRecDepth 1000000

theorem compile_ios :
    compile "(ip[honead]+)(?:.*os\\s*([\\w]+)*\\slike\\smac|;\\sopera)"
      = some ⟨.seq
        (.group 1 (.seq (.chr 105) (.seq (.chr 112)
          (.rep (.set [.single 104, .single 111, .single 110, .single 101, .single 97,
            .single 100]) 1 none true))))
        (.ncgroup (.alt
          (.seq (.rep .any 0 none true)
            (.seq (.chr 111) (.seq (.chr 115)
              (.seq (.rep (.cls .space) 0 none true)
                (.seq (.rep (.group 2 (.rep (.set [.cls .word]) 1 none true)) 0 none true)
                  (.seq (.cls .space) (.seq (.chr 108) (.seq (.chr 105) (.seq (.chr 107)
                    (.seq (.chr 101) (.seq (.cls .space) (.seq (.chr 109)
                      (.seq (.chr 97) (.chr 99))))))))))))))
          (.seq (.chr 59) (.seq (.cls .space) (.seq (.chr 111) (.seq (.chr 112)
            (.seq (.chr 101) (.seq (.chr 114) (.chr 97))))))))), 2⟩ := by
  decide!

/-- The iOS pattern is found in every input that contains
"iPhone OS 9_1 like Mac". -/
theorem regex_search_ios_found (ua : String) (pre post : List Char)
    (hua : ua.data = pre ++ ("iPhone OS 9_1 like Mac".data ++ post)) :
    ∃ ms, regex_search ua
      (regex.mk "(ip[honead]+)(?:.*os\\s*([\\w]+)*\\slike\\smac|;\\sopera)" i) = some ms := by
  have hinput : ua.data.map Char.toNat
      = pre.map Char.toNat ++ (105 :: 80 :: 104 :: 111 :: 110 :: 101 :: 32 :: 79 :: 83 :: 32
          :: 57 :: 95 :: 49 :: 32 :: 108 :: 105 :: 107 :: 101 :: 32 :: 77 :: 97 :: 99
          :: post.map Char.toNat) := by
    rw [hua]
    simp only [List.map_append]
    rfl
  obtain ⟨caps, hcaps⟩ := searchFrom_some_of_suffix true
    ⟨.seq
        (.group 1 (.seq (.chr 105) (.seq (.chr 112)
          (.rep (.set [.single 104, .single 111, .single 110, .single 101, .single 97,
            .single 100]) 1 none true))))
        (.ncgroup (.alt
          (.seq (.rep .any 0 none true)
            (.seq (.chr 111) (.seq (.chr 115)
              (.seq (.rep (.cls .space) 0 none true)
                (.seq (.rep (.group 2 (.rep (.set [.cls .word]) 1 none true)) 0 none true)
                  (.seq (.cls .space) (.seq (.chr 108) (.seq (.chr 105) (.seq (.chr 107)
                    (.seq (.chr 101) (.seq (.cls .space) (.seq (.chr 109)
                      (.seq (.chr 97) (.chr 99))))))))))))))
          (.seq (.chr 59) (.seq (.cls .space) (.seq (.chr 111) (.seq (.chr 112)
            (.seq (.chr 101) (.seq (.chr 114) (.chr 97))))))))), 2⟩
    (pre.map Char.toNat)
    (105 :: 80 :: 104 :: 111 :: 110 :: 101 :: 32 :: 79 :: 83 :: 32
      :: 57 :: 95 :: 49 :: 32 :: 108 :: 105 :: 107 :: 101 :: 32 :: 77 :: 97 :: 99
      :: post.map Char.toNat)
    (fun pos => Option.isSome_iff_exists.mp (matchNode_ios_isSome pos _ _)) 0
  refine ⟨⟨caps.map (Option.map toStr)⟩, ?_⟩
  unfold regex_search
  simp only [compile_ios]
  have hi : (regex.mk "(ip[honead]+)(?:.*os\\s*([\\w]+)*\\slike\\smac|;\\sopera)" i).flags.icase
      = true := rfl
  rw [hi, hinput, hcaps]

theorem osGroup_split_ios :
    osGroup = osGroup.take 12
      ++ Matcher.mk [regex.mk "(ip[honead]+)(?:.*os\\s*([\\w]+)*\\slike\\smac|;\\sopera)" i]
          [Extractor.literal .osName "iOS",
           Extractor.transform .osVersion (.FnReplace '_' '.')]
        :: osGroup.drop 13 := by
  decide!

/-- The result of the os group when the iOS matcher is the first os matcher
with an alternative found in `ua`. -/
theorem runGroup_osGroup_ios (ua : String) (ms : smatch) (r : Result)
    (hprior : ∀ m ∈ osGroup.take 12, ∀ e ∈ m.expressions_, regex_search ua e = none)
    (hm : regex_search ua
      (regex.mk "(ip[honead]+)(?:.*os\\s*([\\w]+)*\\slike\\smac|;\\sopera)" i) = some ms) :
    runGroup ua osGroup r
      = (r.set .osName "iOS").set .osVersion (FnReplace '_' '.' (sub_match_str (ms.get 2))) := by
  rw [osGroup_split_ios, runGroup_append_of_no_match ua _ _ _ hprior]
  have hsize : ms.size = 2 + 1 := by
    have := regex_search_size ua _ ms hm
    rw [this]
    decide!
  simp only [runGroup, Matcher.call, Matcher.tryExpressions, hm, Matcher.extract]
  rw [Extractor.call_capture_of_le (Extractor.transform .osVersion (.FnReplace '_' '.'))
      ua ms (0 + 1 + 1) _ rfl (by omega)]
  rfl

/-- C21 (counterexample): an input that contains "iPhone OS 9_1 like Mac" after
"Windows NT 6.1" gets `osName = "Windows"` and `osVersion = "7"`, because the
Windows matcher comes before the iOS matcher; and in an input where a later
"OS 10_2 like Mac" follows, the greedy `.*` of the iOS pattern runs to the last
"OS" and the version is "10.2". -/
theorem C21_counterexample_windows_first :
    (parse "Mozilla/5.0 (Windows NT 6.1) iPhone OS 9_1 like Mac").osName = "Windows"
      ∧ (parse "Mozilla/5.0 (Windows NT 6.1) iPhone OS 9_1 like Mac").osVersion = "7"
      ∧ (parse "iPhone OS 9_1 like Mac OS 10_2 like Mac").osName = "iOS"
      ∧ (parse "iPhone OS 9_1 like Mac OS 10_2 like Mac").osVersion = "10.2" := by
  decide!

/-- The os fields after `parse` when the iOS matcher is the first os matcher
with an alternative found in `ua`. -/
theorem parse_os_of_ios_match (ua : String) (ms : smatch)
    (hprior : ∀ m ∈ osGroup.take 12, ∀ e ∈ m.expressions_, regex_search ua e = none)
    (hm : regex_search ua
      (regex.mk "(ip[honead]+)(?:.*os\\s*([\\w]+)*\\slike\\smac|;\\sopera)" i) = some ms) :
    (parse ua).osName = "iOS"
      ∧ (parse ua).osVersion = FnReplace '_' '.' (sub_match_str (ms.get 2)) := by
  have hrun := runGroup_osGroup_ios ua ms
    (runGroup ua engineGroup (runGroup ua deviceGroup (runGroup ua cpuGroup
      (runGroup ua browserGroup {})))) hprior hm
  constructor
  · rw [parse_eq, hrun]
    rfl
  · rw [parse_eq, hrun]
    rfl

end UaParser

namespace UaParser

open RegexImpl

/-! ### The Opera Webkit rule -/

/-- A field keeps its value through a group in which every matcher that can
write it has no alternative found in `ua`. -/
theorem runGroup_get_of_writers_not_found (ua : String) (g : MatcherGroup) (r : Result)
    (f : Field)
    (h : ∀ m ∈ g, m.writes f = false ∨ ∀ e ∈ m.expressions_, regex_search ua e = none) :
    (runGroup ua g r).get f = r.get f := by
  apply runGroup_inv (fun r1 => r1.get f = r.get f)
  · intro m hm r1 hr1
    rcases h m hm with hw | hn
    · rw [Matcher.call_get_of_not_writes m ua r1 f hw]
      exact hr1
    · have hc : m.call ua r1 = (false, r1) :=
        Matcher.tryExpressions_none m.extractors_ ua r1 m.expressions_ hn
      rw [hc]
      exact hr1
  · rfl

set_option maxRecDepth 1000000

/-- Only the browser group writes `browserName`. -/
theorem parse_browserName_eq (ua : String) :
    (parse ua).browserName = (runGroup ua browserGroup {}).browserName := by
  have hp : (parse ua).get .browserName = (runGroup ua browserGroup {}).get .browserName := by
    rw [parse_eq, runGroup_get_of_not_writes ua osGroup _ _ (by decide!),
      runGroup_get_of_not_writes ua engineGroup _ _ (by decide!),
      runGroup_get_of_not_writes ua deviceGroup _ _ (by decide!),
      runGroup_get_of_not_writes ua cpuGroup _ _ (by decide!)]
  exact hp

/-- After the browser group only the cpu rule `(ia32(?=;))` writes
`browserVersion`. -/
theorem parse_browserVersion_eq (ua : String)
    (hia : regex_search ua (regex.mk "(ia32(?=;))" i) = none) :
    (parse ua).browserVersion = (runGroup ua browserGroup {}).browserVersion := by
  have hcpu : ∀ m ∈ cpuGroup, m.writes .browserVersion = false
      ∨ ∀ e ∈ m.expressions_, regex_search ua e = none := by
    have htable : ∀ m ∈ cpuGroup, m.writes .browserVersion = false
        ∨ m.expressions_ = [regex.mk "(ia32(?=;))" i] := by decide!
    intro m hmem
    rcases htable m hmem with h1 | h1
    · exact Or.inl h1
    · refine Or.inr ?_
      intro e he
      rw [h1] at he
      rw [List.mem_singleton.mp he]
      exact hia
  have hp : (parse ua).get .browserVersion
      = (runGroup ua browserGroup {}).get .browserVersion := by
    rw [parse_eq, runGroup_get_of_not_writes ua osGroup _ _ (by decide!),
      runGroup_get_of_not_writes ua engineGroup _ _ (by decide!),
      runGroup_get_of_not_writes ua deviceGroup _ _ (by decide!),
      runGroup_get_of_writers_not_found ua cpuGroup _ _ hcpu]
  exact hp

theorem compile_opr :
    compile "\\s(opr)\\/([\\w\\.]+)"
      = some ⟨.seq (.cls .space) (.seq (.group 1 (mkSeq ([111, 112, 114].map .chr)))
          (.seq (.chr 47) (.group 2 (.rep (.set [.cls .word, .single 46]) 1 none true)))),
          1 + 1⟩ := by
  decide!

/-- The Opera Webkit pattern is found in every input that holds a whitespace
character followed by "OPR/20.0.1396.73164". -/
theorem regex_search_opr_found (ua : String) (pre post : List Char) (ws : Char)
    (hua : ua.data = pre ++ ws :: ("OPR/20.0.1396.73164".data ++ post))
    (hws : isSpace ws.toNat = true) :
    ∃ ms, regex_search ua (regex.mk "\\s(opr)\\/([\\w\\.]+)" i) = some ms := by
  have hinput : ua.data.map Char.toNat
      = pre.map Char.toNat ++ ws.toNat :: ([79, 80, 82] ++ 47 :: 50 ::
          ([48, 46, 48, 46, 49, 51, 57, 54, 46, 55, 51, 49, 54, 52] ++ post.map Char.toNat)) := by
    rw [hua]
    simp only [List.map_append, List.map_cons]
    rfl
  obtain ⟨caps, hcaps⟩ := searchFrom_space_lits_slash_set true [111, 112, 114]
    [.cls .word, .single 46] (pre.map Char.toNat) [79, 80, 82]
    ([48, 46, 48, 46, 49, 51, 57, 54, 46, 55, 51, 49, 54, 52] ++ post.map Char.toNat)
    ws.toNat 50 0 hws (by decide) (by decide)
  refine ⟨⟨caps.map (Option.map toStr)⟩, ?_⟩
  unfold regex_search
  simp only [compile_opr]
  have hi : (regex.mk "\\s(opr)\\/([\\w\\.]+)" i).flags.icase = true := rfl
  rw [hi, hinput, hcaps]

theorem browserGroup_split_opr :
    browserGroup = browserGroup.take 1
      ++ Matcher.mk [regex.mk "\\s(opr)\\/([\\w\\.]+)" i]
          [Extractor.literal .browserName "Opera",
           Extractor.capture .browserVersion]
        :: browserGroup.drop 2 := by
  decide!

/-- The result of the browser group when the Opera Webkit matcher is the first
browser matcher with an alternative found in `ua`. -/
theorem runGroup_browserGroup_opr (ua : String) (ms : smatch) (r : Result)
    (hprior : ∀ m ∈ browserGroup.take 1, ∀ e ∈ m.expressions_, regex_search ua e = none)
    (hm : regex_search ua (regex.mk "\\s(opr)\\/([\\w\\.]+)" i) = some ms) :
    runGroup ua browserGroup r
      = (r.set .browserName "Opera").set .browserVersion (sub_match_str (ms.get 2)) := by
  rw [browserGroup_split_opr, runGroup_append_of_no_match ua _ _ _ hprior]
  have hsize : ms.size = 2 + 1 := by
    have := regex_search_size ua _ ms hm
    rw [this]
    decide!
  simp only [runGroup, Matcher.call, Matcher.tryExpressions, hm, Matcher.extract]
  rw [Extractor.call_capture_of_le (Extractor.capture .browserVersion)
      ua ms (0 + 1 + 1) _ rfl (by omega)]
  rfl

/-- C22 (counterexample): the bare token "OPR/20.0.1396.73164" has no
whitespace character before "OPR", the Opera Webkit pattern is not found and
`parse` returns an empty browser name; in the Opera 10.10 user agent followed
by " OPR/20.0.1396.73164" the Presto matcher comes first and the version is
"10.10"; when the token goes on with ".5" the version is "20.0.1396.73164.5",
and when " opr/1.0" comes before the token the version is "1.0". -/
theorem C22_counterexample_bare_token :
    (parse "OPR/20.0.1396.73164").browserName = ""
      ∧ (parse "OPR/20.0.1396.73164").browserVersion = ""
      ∧ regex_search "OPR/20.0.1396.73164" (regex.mk "\\s(opr)\\/([\\w\\.]+)" i) = none
      ∧ (parse ("Opera/9.80 (Windows NT 6.1; U; en) Presto/2.2.15 Version/10.10"
          ++ " OPR/20.0.1396.73164")).browserVersion = "10.10"
      ∧ (parse "x OPR/20.0.1396.73164.5").browserVersion = "20.0.1396.73164.5"
      ∧ (parse " opr/1.0 OPR/20.0.1396.73164").browserVersion = "1.0" := by
  have hb1 : runGroup "OPR/20.0.1396.73164" browserGroup {} = {} := by decide!
  have hb2 : runGroup ("Opera/9.80 (Windows NT 6.1; U; en) Presto/2.2.15 Version/10.10"
      ++ " OPR/20.0.1396.73164") browserGroup {}
      = { browserName := "Opera", browserVersion := "10.10" } := by decide!
  have hb3 : runGroup "x OPR/20.0.1396.73164.5" browserGroup {}
      = { browserName := "Opera", browserVersion := "20.0.1396.73164.5" } := by decide!
  have hb4 : runGroup " opr/1.0 OPR/20.0.1396.73164" browserGroup {}
      = { browserName := "Opera", browserVersion := "1.0" } := by decide!
  have n1 := parse_browserName_eq "OPR/20.0.1396.73164"
  have v1 := parse_browserVersion_eq "OPR/20.0.1396.73164" (by decide!)
  have v2 := parse_browserVersion_eq ("Opera/9.80 (Windows NT 6.1; U; en) Presto/2.2.15 Version/10.10"
      ++ " OPR/20.0.1396.73164") (by decide!)
  have v3 := parse_browserVersion_eq "x OPR/20.0.1396.73164.5" (by decide!)
  have v4 := parse_browserVersion_eq " opr/1.0 OPR/20.0.1396.73164" (by decide!)
  rw [hb1] at n1 v1
  rw [hb2] at v2
  rw [hb3] at v3
  rw [hb4] at v4
  exact ⟨n1, v1, by decide!, v2, v3, v4⟩

/-- The browser fields after `parse` when the Opera Webkit matcher is the first
browser matcher with an alternative found in `ua`. -/
theorem parse_browser_of_opr_match (ua : String) (ms : smatch)
    (hprior : ∀ m ∈ browserGroup.take 1, ∀ e ∈ m.expressions_, regex_search ua e = none)
    (hm : regex_search ua (regex.mk "\\s(opr)\\/([\\w\\.]+)" i) = some ms) :
    (parse ua).browserName = "Opera"
      ∧ (regex_search ua (regex.mk "(ia32(?=;))" i) = none →
          (parse ua).browserVersion = sub_match_str (ms.get 2)) := by
  have hrun := runGroup_browserGroup_opr ua ms {} hprior hm
  constructor
  · rw [parse_browserName_eq, hrun]
    rfl
  · intro hia
    rw [parse_browserVersion_eq ua hia, hrun]
    rfl

end UaParser

namespace UaParser

open RegexImpl

/-! ### Rule order, idempotent tables, lower-case architecture -/

theorem lookup_some_mem (mapping : List (String × String)) (k v : String)
    (h : mapping.lookup k = some v) : ∃ p ∈ mapping, p.2 = v := by
  induction mapping with
  | nil => simp [List.lookup] at h
  | cons p rest ih =>
    obtain ⟨a, b⟩ := p
    simp only [List.lookup] at h
    split at h
    · simp only [Option.some.injEq] at h
      exact ⟨(a, b), List.mem_cons_self _ _, h⟩
    · obtain ⟨q, hq, hv⟩ := ih h
      exact ⟨q, List.mem_cons_of_mem _ hq, hv⟩

/-- A lookup table none of whose values is one of its keys gives an idempotent
formatter. -/
theorem lookupOr_idem (mapping : List (String × String))
    (h : ∀ p ∈ mapping, ∀ q ∈ mapping, q.1 ≠ p.2) (s : String) :
    lookupOr mapping (lookupOr mapping s) = lookupOr mapping s := by
  cases hl : mapping.lookup s with
  | none =>
    have : lookupOr mapping s = s := by simp [lookupOr, hl]
    rw [this, this]
  | some v =>
    have hv : lookupOr mapping s = v := by simp [lookupOr, hl]
    rw [hv]
    obtain ⟨p, hp, hpv⟩ := lookup_some_mem mapping s v hl
    apply lookupOr_of_not_key
    intro q hq
    rw [← hpv]
    exact h p hp q hq

/-- C26: each of the five table formatters is idempotent, and in each table no
mapped value is a key. -/
theorem C26_table_lookup_idempotent (s : String) :
    (FnFixSafariVersion (FnFixSafariVersion s) = FnFixSafariVersion s
      ∧ FnFixAmazonDeviceModel (FnFixAmazonDeviceModel s) = FnFixAmazonDeviceModel s
      ∧ FnFixWindowsVersion (FnFixWindowsVersion s) = FnFixWindowsVersion s
      ∧ FnFixSprintDeviceModel (FnFixSprintDeviceModel s) = FnFixSprintDeviceModel s
      ∧ FnFixSprintDeviceVendor (FnFixSprintDeviceVendor s) = FnFixSprintDeviceVendor s)
    ∧ (∀ p ∈ FnFixSafariVersion.mapping, ∀ q ∈ FnFixSafariVersion.mapping, q.1 ≠ p.2)
    ∧ (∀ p ∈ FnFixAmazonDeviceModel.mapping, ∀ q ∈ FnFixAmazonDeviceModel.mapping, q.1 ≠ p.2)
    ∧ (∀ p ∈ FnFixWindowsVersion.mapping, ∀ q ∈ FnFixWindowsVersion.mapping, q.1 ≠ p.2)
    ∧ (∀ p ∈ FnFixSprintDeviceModel.mapping, ∀ q ∈ FnFixSprintDeviceModel.mapping, q.1 ≠ p.2)
    ∧ (∀ p ∈ FnFixSprintDeviceVendor.mapping, ∀ q ∈ FnFixSprintDeviceVendor.mapping,
        q.1 ≠ p.2) := by
  have h1 : ∀ p ∈ FnFixSafariVersion.mapping, ∀ q ∈ FnFixSafariVersion.mapping, q.1 ≠ p.2 := by
    decide
  have h2 : ∀ p ∈ FnFixAmazonDeviceModel.mapping, ∀ q ∈ FnFixAmazonDeviceModel.mapping,
      q.1 ≠ p.2 := by decide
  have h3 : ∀ p ∈ FnFixWindowsVersion.mapping, ∀ q ∈ FnFixWindowsVersion.mapping, q.1 ≠ p.2 := by
    decide
  have h4 : ∀ p ∈ FnFixSprintDeviceModel.mapping, ∀ q ∈ FnFixSprintDeviceModel.mapping,
      q.1 ≠ p.2 := by decide
  have h5 : ∀ p ∈ FnFixSprintDeviceVendor.mapping, ∀ q ∈ FnFixSprintDeviceVendor.mapping,
      q.1 ≠ p.2 := by decide
  exact ⟨⟨lookupOr_idem _ h1 s, lookupOr_idem _ h2 s, lookupOr_idem _ h3 s, lookupOr_idem _ h4 s,
    lookupOr_idem _ h5 s⟩, h1, h2, h3, h4, h5⟩

theorem tolower_never_upper (c : Char) : ¬ (65 ≤ (tolower c).toNat ∧ (tolower c).toNat ≤ 90) := by
  by_cases h : 65 ≤ c.toNat ∧ c.toNat ≤ 90
  · rw [tolower_toNat_of_upper c h]
    omega
  · rw [tolower_of_not_upper c h]
    exact h

theorem FnToLower_no_upper (s : String) :
    ∀ c ∈ (FnToLower s).data, ¬ (65 ≤ c.toNat ∧ c.toNat ≤ 90) := by
  intro c hc
  simp only [FnToLower, List.mem_map] at hc
  obtain ⟨d, _, rfl⟩ := hc
  exact tolower_never_upper d

set_option maxRecDepth 1000000

theorem Extractor.call_cpuArchitectureSafe (ex : Extractor) (ua : String) (ms : smatch)
    (group : Nat) (r : Result) (hs : ex.cpuArchitectureSafe = true)
    (hr : ∀ c ∈ r.cpuArchitecture.data, ¬ (65 ≤ c.toNat ∧ c.toNat ≤ 90)) :
    ∀ c ∈ (ex.call ua ms group r).cpuArchitecture.data, ¬ (65 ≤ c.toNat ∧ c.toNat ≤ 90) := by
  by_cases hf : ex.f_ = Field.cpuArchitecture
  · unfold Extractor.cpuArchitectureSafe at hs
    cases hv : ex.v_ with
    | some v =>
      simp only [hv, hf, ne_eq, not_true_eq_false, decide_False, Bool.false_or] at hs
      have hval : (ex.call ua ms group r).cpuArchitecture = v := by
        simp only [Extractor.call, hv, hf]
        rfl
      rw [hval]
      have hmem : v ∈ cpuArchitectureLiterals := by simpa using hs
      have hall : ∀ w ∈ cpuArchitectureLiterals, ∀ c ∈ w.data,
          ¬ (65 ≤ c.toNat ∧ c.toNat ≤ 90) := by decide
      exact hall v hmem
    | none =>
      simp only [hv, hf, ne_eq, not_true_eq_false, decide_False, Bool.false_or,
        decide_eq_true_eq] at hs
      by_cases hg : group ≤ ms.size
      · have hcall := Extractor.call_capture_of_le ex ua ms group r hv hg
        rw [hcall, hs, hf]
        exact FnToLower_no_upper _
      · rw [Extractor.call_capture_of_gt ex ua ms group r hv (Nat.lt_of_not_le hg)]
        exact hr
  · have h2 : (ex.call ua ms group r).cpuArchitecture = r.cpuArchitecture :=
      Extractor.call_get_ne ex ua ms group r .cpuArchitecture hf
    rw [h2]
    exact hr

/-- C25: the `cpuArchitecture` that `parse` returns holds no letter `A`..`Z`;
every extractor of the table with this target assigns one of "amd64", "ia32",
"arm", "sparc" or a capture through `FnToLower`. -/
theorem C25_cpuArchitecture_has_no_uppercase (ua : String) :
    (∀ c ∈ (parse ua).cpuArchitecture.data, ¬ (65 ≤ c.toNat ∧ c.toNat ≤ 90))
      ∧ ∀ g ∈ getMatcherGroups, ∀ m ∈ g, ∀ ex ∈ m.extractors_,
          ex.f_ = Field.cpuArchitecture →
            (∃ v ∈ ["amd64", "ia32", "arm", "sparc"], ex.v_ = some v)
              ∨ (ex.v_ = none ∧ ex.fn_ = some Formatter.FnToLower) := by
  constructor
  · have hp : (parse ua).get .cpuArchitecture
        = (runGroup ua cpuGroup (runGroup ua browserGroup {})).get .cpuArchitecture := by
      rw [parse_eq, runGroup_get_of_not_writes ua osGroup _ _ (by decide!),
        runGroup_get_of_not_writes ua engineGroup _ _ (by decide!),
        runGroup_get_of_not_writes ua deviceGroup _ _ (by decide!)]
    have hp2 : (parse ua).cpuArchitecture
        = (runGroup ua cpuGroup (runGroup ua browserGroup {})).cpuArchitecture := hp
    rw [hp2]
    apply runGroup_inv (fun r1 => ∀ c ∈ r1.cpuArchitecture.data, ¬ (65 ≤ c.toNat ∧ c.toNat ≤ 90))
    · intro m hm r1 hr1
      have hsafe : (m.extractors_.all fun ex => ex.cpuArchitectureSafe) = true := by
        have hall : ∀ m1 ∈ cpuGroup, (m1.extractors_.all fun ex => ex.cpuArchitectureSafe) = true := by
          decide!
        exact hall m hm
      apply Matcher.tryExpressions_inv
        (fun r2 => ∀ c ∈ r2.cpuArchitecture.data, ¬ (65 ≤ c.toNat ∧ c.toNat ≤ 90))
      · intro e _ ms _
        apply Matcher.extract_inv
          (fun r2 => ∀ c ∈ r2.cpuArchitecture.data, ¬ (65 ≤ c.toNat ∧ c.toNat ≤ 90))
        · intro ex hex group r2 hr2
          exact Extractor.call_cpuArchitectureSafe ex ua ms group r2
            (List.all_eq_true.mp hsafe ex hex) hr2
        · exact hr1
      · exact hr1
    · have h0 : (runGroup ua browserGroup {}).get .cpuArchitecture = "" := by
        rw [runGroup_get_of_not_writes ua browserGroup _ _ (by decide!)]
        rfl
      have h1 : (runGroup ua browserGroup {}).cpuArchitecture = "" := h0
      rw [h1]
      intro c hc
      simp at hc
  · decide!

/-- C23: the Opera Mini user agent is matched by the Opera Mini alternative and
by the generic Opera alternative of the same matcher; `parse` returns the name
and version of the first, "Opera Mini" and "5.1.21214", not "Opera" and "9.80". -/
theorem C23_opera_mini_before_generic_opera :
    (parse "Opera/9.80 (J2ME/MIDP; Opera Mini/5.1.21214/19.916; U; en) Presto/2.5.25").browserName
        = "Opera Mini"
      ∧ (parse
          "Opera/9.80 (J2ME/MIDP; Opera Mini/5.1.21214/19.916; U; en) Presto/2.5.25").browserVersion
        = "5.1.21214"
      ∧ regex_search "Opera/9.80 (J2ME/MIDP; Opera Mini/5.1.21214/19.916; U; en) Presto/2.5.25"
          (regex.mk "(opera\\smini)\\/([\\w\\.-]+)" i)
        = some ⟨[some "Opera Mini/5.1.21214", some "Opera Mini", some "5.1.21214"]⟩
      ∧ regex_search "Opera/9.80 (J2ME/MIDP; Opera Mini/5.1.21214/19.916; U; en) Presto/2.5.25"
          (regex.mk "(opera)[\\/\\s]+([\\w\\.]+)" i)
        = some ⟨[some "Opera/9.80", some "Opera", some "9.80"]⟩
      ∧ browserGroup.head?
        = some (Matcher.mk
            [regex.mk "(opera\\smini)\\/([\\w\\.-]+)" i,
             regex.mk "(opera\\s[mobiletab]+).+version\\/([\\w\\.-]+)" i,
             regex.mk "(opera).+version\\/([\\w\\.]+)" i,
             regex.mk "(opera)[\\/\\s]+([\\w\\.]+)" i]
            [Extractor.capture .browserName,
             Extractor.capture .browserVersion]) := by
  have hb : runGroup "Opera/9.80 (J2ME/MIDP; Opera Mini/5.1.21214/19.916; U; en) Presto/2.5.25"
      browserGroup {}
      = { browserName := "Opera Mini", browserVersion := "5.1.21214" } := by decide!
  have hname := parse_browserName_eq "Opera/9.80 (J2ME/MIDP; Opera Mini/5.1.21214/19.916; U; en) Presto/2.5.25"
  have hver := parse_browserVersion_eq "Opera/9.80 (J2ME/MIDP; Opera Mini/5.1.21214/19.916; U; en) Presto/2.5.25"
    (by decide!)
  rw [hb] at hname hver
  exact ⟨hname, hver, by decide!, by decide!, by decide!⟩

end UaParser

namespace UaParser

open RegexImpl

/-! ### The guard of the extractor and the number of groups -/

set_option maxRecDepth 1000000

/-- C24 (counterexample): the last browser matcher binds its second extractor,
a capture, to `browserVersion`, and its first alternative `(swiftfox)` has one
group. On the Swiftfox user agent the match has two sub-matches, the guard
`matches.size() >= 2` passes, and index 2 is not below `matches.size()`. -/
theorem C24_counterexample_swiftfox_second_extractor :
    (browserGroup[20]?).map (fun m => (m.expressions_.head?, m.extractors_[1]?))
        = some (some (regex.mk "(swiftfox)" i), some (Extractor.capture .browserVersion))
      ∧ (Extractor.capture .browserVersion).v_ = none
      ∧ (regex.mk "(swiftfox)" i).mark_count = 1
      ∧ ¬ (1 + 1 ≤ (regex.mk "(swiftfox)" i).mark_count)
      ∧ regex_search
          "Mozilla/5.0 (X11; U; Linux i686; en-US; rv:1.8.1.13) Gecko/20080313 Firefox/2.0.0.13 (Swiftfox)"
          (regex.mk "(swiftfox)" i)
        = some ⟨[some "Swiftfox", some "Swiftfox"]⟩
      ∧ (smatch.mk [some "Swiftfox", some "Swiftfox"]).size ≥ 1 + 1
      ∧ ¬ (1 + 1 < (smatch.mk [some "Swiftfox", some "Swiftfox"]).size) := by
  decide!

/-- C24 (as amended): a successful search returns `mark_count() + 1`
sub-matches. For a capture extractor called with `group` at most the number of
groups of the alternative, the guard passes, `group` is below `matches.size()`
and the text of that sub-match is assigned; called with `group` above
`mark_count() + 1`, the guard fails and the result is left as it is. In the
table every capture extractor sits at a position at most the number of groups
of every alternative of its matcher, except at position 2 next to the nine
alternatives listed, which have fewer than two groups. -/
theorem C24_capture_reads_within_groups_are_in_range (ua : String) (e : regex) (ms : smatch)
    (ex : Extractor) (group : Nat) (r : Result)
    (hm : regex_search ua e = some ms) (hv : ex.v_ = none) :
    ms.size = e.mark_count + 1
      ∧ (group ≤ e.mark_count →
          ms.size ≥ group ∧ group < ms.size
            ∧ ex.call ua ms group r
              = r.set ex.f_ (match ex.fn_ with
                  | some fn => fn.call (sub_match_str (ms.get group))
                  | none => sub_match_str (ms.get group)))
      ∧ (e.mark_count + 1 < group → ¬ (ms.size ≥ group) ∧ ex.call ua ms group r = r)
      ∧ ∀ g ∈ getMatcherGroups, ∀ m ∈ g, ∀ e1 ∈ m.expressions_, ∀ p ∈ m.extractors_.enum,
          p.2.v_ = none →
            (¬ (p.1 + 1 ≤ e1.mark_count) ↔
              (e1.pattern, p.1 + 1) ∈
                [("(swiftfox)", 2),
                 ("\\s(ouya)\\s", 2),
                 ("(samsung);smarttv", 2),
                 ("(lg) netcast\\.tv", 2),
                 ("linux;.+(sailfish);", 2),
                 ("mozilla.+\\(mobile;.+gecko.+firefox", 2),
                 ("(mageia|vectorlinux)[;\\s]", 2),
                 ("(macintosh|mac(?=_powerpc)\\s)", 2),
                 ("(plan\\s9|minix|beos|os\\/2|amigaos|morphos|risc\\sos|openvms)", 2)]) := by
  have hsize := regex_search_size ua e ms hm
  refine ⟨hsize, ?_, ?_, ?_⟩
  · intro hg
    have hle : group ≤ ms.size := by omega
    exact ⟨hle, by omega, Extractor.call_capture_of_le ex ua ms group r hv hle⟩
  · intro hg
    have hlt : ms.size < group := by omega
    exact ⟨by omega, Extractor.call_capture_of_gt ex ua ms group r hv hlt⟩
  · decide!

/-- C24 (instance): the Firefox alternative of the last browser matcher has two
groups; on "Firefox/2.0.0.13" its match has three sub-matches and the second
extractor reads sub-match 2, "2.0.0.13". -/
theorem C24_witness_firefox_version :
    regex_search "Firefox/2.0.0.13"
        (regex.mk "(firefox|seamonkey|k-meleon|icecat|iceape|firebird|phoenix)\\/([\\w\\.-]+)" i)
      = some ⟨[some "Firefox/2.0.0.13", some "Firefox", some "2.0.0.13"]⟩
    ∧ (smatch.mk [some "Firefox/2.0.0.13", some "Firefox", some "2.0.0.13"]).size = 2 + 1
    ∧ 2 < (smatch.mk [some "Firefox/2.0.0.13", some "Firefox", some "2.0.0.13"]).size
    ∧ (Extractor.capture .browserVersion).call "Firefox/2.0.0.13"
        ⟨[some "Firefox/2.0.0.13", some "Firefox", some "2.0.0.13"]⟩ 2 {}
      = Result.set {} .browserVersion "2.0.0.13" :=
  have h := C24_capture_reads_within_groups_are_in_range "Firefox/2.0.0.13"
    (regex.mk "(firefox|seamonkey|k-meleon|icecat|iceape|firebird|phoenix)\\/([\\w\\.-]+)" i)
    ⟨[some "Firefox/2.0.0.13", some "Firefox", some "2.0.0.13"]⟩
    (Extractor.capture .browserVersion) 2 {} (by decide!) rfl
  have h2 := h.2.1 (by decide!)
  ⟨by decide!, by decide!, h2.2.1, h2.2.2⟩

end UaParser

namespace RegexImpl

/-! ### The Sprint pattern -/

/-- A successful repetition of a one-character step has consumed a run of
characters that pass the test, at least `min` with those counted before. -/
theorem repLoop_one_run (p : Nat → Bool) (min : Nat) (max : Option Nat) (greedy : Bool)
    (k : Cont) (bound cnt : Nat) (s t : MState)
    (h : repLoop (fun k1 s1 => one p k1 s1) min max greedy k bound cnt s = some t) :
    ∃ run rest1, s.rest = run ++ rest1 ∧ (∀ c ∈ run, p c = true) ∧ min ≤ cnt + run.length
      ∧ k ⟨s.pos + run.length, rest1, s.caps⟩ = some t := by
  induction bound generalizing cnt s with
  | zero =>
    simp only [repLoop] at h
    by_cases hm : Nat.ble min cnt = true
    · refine ⟨[], s.rest, rfl, by simp, Nat.le_of_ble_eq_true hm, ?_⟩
      simpa [hm] using h
    · simp [hm] at h
  | succ n ih =>
    have stop : (if Nat.ble min cnt = true then k s else none) = some t →
        ∃ run rest1, s.rest = run ++ rest1 ∧ (∀ c ∈ run, p c = true) ∧ min ≤ cnt + run.length
          ∧ k ⟨s.pos + run.length, rest1, s.caps⟩ = some t := by
      intro h1
      by_cases hm : Nat.ble min cnt = true
      · refine ⟨[], s.rest, rfl, by simp, Nat.le_of_ble_eq_true hm, ?_⟩
        simpa [hm] using h1
      · simp [hm] at h1
    have more : ∀ allowed : Bool,
        (if allowed = true then
            one p (fun s1 => if Nat.beq s1.pos s.pos = true then none
                            else repLoop (fun k1 s1 => one p k1 s1) min max greedy k n (cnt + 1) s1) s
          else none) = some t →
        ∃ run rest1, s.rest = run ++ rest1 ∧ (∀ c ∈ run, p c = true) ∧ min ≤ cnt + run.length
          ∧ k ⟨s.pos + run.length, rest1, s.caps⟩ = some t := by
      intro allowed h1
      cases allowed with
      | false => simp at h1
      | true =>
        simp only [if_true] at h1
        obtain ⟨x, xs, hr, hpx, hk1⟩ := one_some _ _ _ _ h1
        by_cases hp : Nat.beq (s.pos + 1) s.pos = true
        · simp [hp] at hk1
        · simp only [hp] at hk1
          obtain ⟨run, rest1, hr2, hall, hmin, hk2⟩ := ih _ _ hk1
          refine ⟨x :: run, rest1, ?_, ?_, ?_, ?_⟩
          · rw [hr]
            simp only at hr2
            rw [hr2]
            rfl
          · intro c hc
            rcases List.mem_cons.mp hc with hc1 | hc1
            · rw [hc1]
              exact hpx
            · exact hall c hc1
          · simp only [List.length_cons]
            omega
          · have hpos : s.pos + (x :: run).length = s.pos + 1 + run.length := by
              simp only [List.length_cons]
              omega
            rw [hpos]
            exact hk2
    simp only [repLoop] at h
    cases greedy with
    | true =>
      simp only [if_true] at h
      split at h
      · rename_i t1 heq
        simp only [Option.some.injEq] at h
        subst h
        exact more _ heq
      · exact stop h
    | false =>
      simp only [Bool.false_eq_true, if_false] at h
      split at h
      · rename_i t1 heq
        simp only [Option.some.injEq] at h
        subst h
        exact stop heq
      · exact more _ h

theorem matchNode_cls (icase : Bool) (c : CharClass) (k : Cont) (s t : MState)
    (h : matchNode icase (.cls c) k s = some t) :
    ∃ x xs, s.rest = x :: xs ∧ c.test x = true ∧ k ⟨s.pos + 1, xs, s.caps⟩ = some t := by
  simp only [matchNode] at h
  exact one_some _ _ _ _ h

/-- A match of `(sprint\s(\w+))`: six letters that fold to "sprint", a
whitespace character and a non-empty run of word characters; group 2 holds the
run and group 1 everything consumed. -/
theorem matchNode_sprint (k : Cont) (s t : MState)
    (h : matchNode true
      (.group 1 (.seq (.chr 115) (.seq (.chr 112) (.seq (.chr 114) (.seq (.chr 105)
        (.seq (.chr 110) (.seq (.chr 116) (.seq (.cls .space)
          (.group 2 (.rep (.cls .word) 1 none true)))))))))) k s = some t) :
    ∃ w ws run rest1, s.rest = w ++ ws :: (run ++ rest1)
      ∧ w.map fold = [115, 112, 114, 105, 110, 116]
      ∧ isSpace ws = true ∧ (∀ c ∈ run, isWord c = true) ∧ 1 ≤ run.length
      ∧ k ⟨s.pos + (w ++ ws :: run).length, rest1,
          (s.caps.set 2 (some run)).set 1 (some (w ++ ws :: run))⟩ = some t := by
  simp only [matchNode.eq_8, matchNode.eq_6] at h
  obtain ⟨x1, r1, h1, e1, h⟩ := matchNode_chr _ _ _ _ _ h
  obtain ⟨x2, r2, h2, e2, h⟩ := matchNode_chr _ _ _ _ _ h
  obtain ⟨x3, r3, h3, e3, h⟩ := matchNode_chr _ _ _ _ _ h
  obtain ⟨x4, r4, h4, e4, h⟩ := matchNode_chr _ _ _ _ _ h
  obtain ⟨x5, r5, h5, e5, h⟩ := matchNode_chr _ _ _ _ _ h
  obtain ⟨x6, r6, h6, e6, h⟩ := matchNode_chr _ _ _ _ _ h
  obtain ⟨ws, r7, h7, e7, h⟩ := matchNode_cls _ _ _ _ _ h
  simp only [matchNode.eq_12] at h
  have hbody : (fun (k1 : Cont) (s1 : MState) => matchNode true (.cls .word) k1 s1)
      = fun k1 s1 => one isWord k1 s1 := by
    funext k1 s1
    simp only [matchNode]
    rfl
  rw [hbody] at h
  obtain ⟨run, rest1, hr, hall, hmin, hk⟩ := repLoop_one_run _ _ _ _ _ _ _ _ _ h
  simp only at h1 h2 h3 h4 h5 h6 h7 hr hk
  subst hr
  subst h7
  subst h6
  subst h5
  subst h4
  subst h3
  subst h2
  refine ⟨[x1, x2, x3, x4, x5, x6], ws, run, rest1, h1, ?_, e7, hall, by omega, ?_⟩
  · simp only [tr, if_true] at e1 e2 e3 e4 e5 e6
    simp only [List.map_cons, List.map_nil, e1, e2, e3, e4, e5, e6]
    decide
  · have hp1 : s.pos + 1 + 1 + 1 + 1 + 1 + 1 + 1 + run.length - (s.pos + 1 + 1 + 1 + 1 + 1 + 1 + 1)
        = run.length := by omega
    have hp2 : s.pos + 1 + 1 + 1 + 1 + 1 + 1 + 1 + run.length - s.pos = 7 + run.length := by omega
    have hp3 : s.pos + ([x1, x2, x3, x4, x5, x6] ++ ws :: run).length
        = s.pos + 1 + 1 + 1 + 1 + 1 + 1 + 1 + run.length := by
      simp only [List.length_append, List.length_cons, List.length_nil]
      omega
    rw [hp1, hp2, h1] at hk
    rw [hp3]
    have ht1 : List.take run.length (run ++ rest1) = run := List.take_left' rfl
    have ht2 : List.take (7 + run.length) (x1 :: x2 :: x3 :: x4 :: x5 :: x6 :: ws :: (run ++ rest1))
        = [x1, x2, x3, x4, x5, x6] ++ ws :: run := by
      have : 7 + run.length = run.length + 1 + 1 + 1 + 1 + 1 + 1 + 1 := by omega
      rw [this]
      simp only [List.take_succ_cons, ht1]
      rfl
    rw [ht1, ht2] at hk
    exact hk

/-- A search for `(sprint\s(\w+))` that succeeds returns the matched text as the
whole match and as group 1, and the run of word characters as group 2. -/
theorem searchFrom_sprint (pos : Nat) (cs : List Nat) (caps : List (Option (List Nat)))
    (h : searchFrom true
      ⟨.group 1 (.seq (.chr 115) (.seq (.chr 112) (.seq (.chr 114) (.seq (.chr 105)
        (.seq (.chr 110) (.seq (.chr 116) (.seq (.cls .space)
          (.group 2 (.rep (.cls .word) 1 none true))))))))), 2⟩ pos cs = some caps) :
    ∃ w ws run, caps = [some (w ++ ws :: run), some (w ++ ws :: run), some run]
      ∧ w.map fold = [115, 112, 114, 105, 110, 116]
      ∧ isSpace ws = true ∧ (∀ c ∈ run, isWord c = true) ∧ 1 ≤ run.length := by
  induction cs generalizing pos with
  | nil =>
    simp only [searchFrom] at h
    split at h
    · rename_i t heq
      obtain ⟨w, ws, run, rest1, hr, _, _, _, _, _⟩ := matchNode_sprint _ _ _ heq
      simp at hr
    · simp at h
  | cons c cs ih =>
    simp only [searchFrom] at h
    split at h
    · rename_i t heq
      obtain ⟨w, ws, run, rest1, hr, hw, hws, hall, hlen, hk⟩ := matchNode_sprint _ _ _ heq
      simp only [Option.some.injEq] at hk h
      subst hk
      refine ⟨w, ws, run, ?_, hw, hws, hall, hlen⟩
      rw [← h]
      simp only at hr
      have htake : List.take (pos + (w ++ ws :: run).length - pos) (c :: cs) = w ++ ws :: run := by
        rw [Nat.add_sub_cancel_left, hr]
        have : w ++ ws :: (run ++ rest1) = (w ++ ws :: run) ++ rest1 := by simp
        rw [this]
        exact List.take_left' rfl
      simp only [htake]
      rfl
    · exact ih _ h

end RegexImpl

namespace UaParser

open RegexImpl

/-! ### The Sprint rule -/

set_option maxRecDepth 1000000

theorem compile_sprint :
    compile "(sprint\\s(\\w+))"
      = some ⟨.group 1 (.seq (.chr 115) (.seq (.chr 112) (.seq (.chr 114) (.seq (.chr 105)
          (.seq (.chr 110) (.seq (.chr 116) (.seq (.cls .space)
            (.group 2 (.rep (.cls .word) 1 none true))))))))), 2⟩ := by
  decide!

/-- The sub-matches of a match of the Sprint pattern. -/
theorem regex_search_sprint (ua : String) (ms : smatch)
    (h : regex_search ua (regex.mk "(sprint\\s(\\w+))" i) = some ms) :
    ∃ w ws run, ms = ⟨[some (toStr (w ++ ws :: run)), some (toStr (w ++ ws :: run)),
        some (toStr run)]⟩
      ∧ w.map fold = [115, 112, 114, 105, 110, 116]
      ∧ isSpace ws = true ∧ (∀ c ∈ run, isWord c = true) ∧ 1 ≤ run.length := by
  unfold regex_search at h
  simp only [compile_sprint] at h
  split at h
  · simp at h
  · rename_i caps heq
    simp only [Option.some.injEq] at h
    obtain ⟨w, ws, run, hc, hw, hws, hall, hlen⟩ := searchFrom_sprint _ _ _ heq
    refine ⟨w, ws, run, ?_, hw, hws, hall, hlen⟩
    rw [← h, hc]
    rfl

theorem deviceGroup_split_sprint :
    deviceGroup = deviceGroup.take 16
      ++ Matcher.mk [regex.mk "(sprint\\s(\\w+))" i]
          [Extractor.transform .deviceVendor .FnFixSprintDeviceVendor,
           Extractor.transform .deviceModel .FnFixSprintDeviceModel,
           Extractor.literal .deviceType MOBILE]
        :: deviceGroup.drop 17 := by
  decide!

theorem toStr_length (cs : List Nat) : (toStr cs).length = cs.length := by
  simp [toStr, String.length]

/-- The device fields after the group has run, when the Sprint matcher is the
first device matcher with an alternative found in `ua`. -/
theorem runGroup_deviceGroup_sprint (ua : String) (ms : smatch) (r : Result)
    (hprior : ∀ m ∈ deviceGroup.take 16, ∀ e ∈ m.expressions_, regex_search ua e = none)
    (hm : regex_search ua (regex.mk "(sprint\\s(\\w+))" i) = some ms) :
    runGroup ua deviceGroup r
      = ((r.set .deviceVendor (FnFixSprintDeviceVendor (sub_match_str (ms.get 1)))).set
          .deviceModel (FnFixSprintDeviceModel (sub_match_str (ms.get 2)))).set
          .deviceType MOBILE := by
  rw [deviceGroup_split_sprint, runGroup_append_of_no_match ua _ _ _ hprior]
  have hsize : ms.size = 2 + 1 := by
    have := regex_search_size ua _ ms hm
    rw [this]
    decide!
  simp only [runGroup, Matcher.call, Matcher.tryExpressions, hm, Matcher.extract]
  rw [Extractor.call_capture_of_le (Extractor.transform .deviceVendor .FnFixSprintDeviceVendor)
      ua ms (0 + 1) r rfl (by omega),
    Extractor.call_capture_of_le (Extractor.transform .deviceModel .FnFixSprintDeviceModel)
      ua ms (0 + 1 + 1) _ rfl (by omega)]
  rfl

/-- C27: when no device matcher before the Sprint matcher is found in `ua` and
the Sprint pattern is found, the whole match and group 1 are the same text, made
of six letters that spell "sprint" in some letter case, a whitespace character
and the non-empty token of group 2. `parse` returns that text as `deviceVendor`,
never "HTC", and as `deviceModel` the token, or "Evo Shift 4G" when the token is
"7373KT". The text handed to `FnFixSprintDeviceVendor` is never its key "APA",
and no other rule of the table uses this formatter. -/
theorem C27_sprint_vendor_is_whole_match (ua : String) (ms : smatch)
    (hprior : ∀ m ∈ deviceGroup.take 16, ∀ e ∈ m.expressions_, regex_search ua e = none)
    (hm : regex_search ua (regex.mk "(sprint\\s(\\w+))" i) = some ms) :
    (∃ whole token : String,
      ms.get 0 = some whole ∧ ms.get 1 = some whole ∧ ms.get 2 = some token
        ∧ (∃ w ws, whole.data = w ++ ws :: token.data ∧ w.map tolower = "sprint".data
            ∧ isSpace ws.toNat = true)
        ∧ 1 ≤ token.length
        ∧ (parse ua).deviceVendor = whole
        ∧ (parse ua).deviceModel = (if token = "7373KT" then "Evo Shift 4G" else token)
        ∧ whole ≠ "APA"
        ∧ (parse ua).deviceVendor ≠ "HTC")
      ∧ ∀ g ∈ getMatcherGroups, ∀ m ∈ g, ∀ ex ∈ m.extractors_,
          ex.fn_ = some .FnFixSprintDeviceVendor →
            m.expressions_ = [regex.mk "(sprint\\s(\\w+))" i] := by
  refine ⟨?_, by decide!⟩
  obtain ⟨w, ws, run, hms, hw, hws, hall, hlen⟩ := regex_search_sprint ua ms hm
  have hwlen : w.length = 6 := by
    have := congrArg List.length hw
    simpa using this
  have hne : ∀ s : String, s.length = 3 → toStr (w ++ ws :: run) ≠ s := by
    intro s hs heq
    have h1 := toStr_length (w ++ ws :: run)
    rw [heq, hs] at h1
    simp only [List.length_append, List.length_cons] at h1
    omega
  have hrun := runGroup_deviceGroup_sprint ua ms (runGroup ua cpuGroup (runGroup ua browserGroup {}))
    hprior hm
  have hg1 : ms.get 1 = some (toStr (w ++ ws :: run)) := by rw [hms]; rfl
  have hg2 : ms.get 2 = some (toStr run) := by rw [hms]; rfl
  have hvendor : (parse ua).deviceVendor = toStr (w ++ ws :: run) := by
    have h1 := (parse_get_device_only ua .deviceVendor (by decide!) (by decide!) (by decide!)
      (by decide!)).1
    have h2 : (parse ua).deviceVendor
        = (runGroup ua deviceGroup (runGroup ua cpuGroup (runGroup ua browserGroup {}))).deviceVendor :=
      h1
    rw [h2, hrun, hg1]
    show FnFixSprintDeviceVendor (toStr (w ++ ws :: run)) = toStr (w ++ ws :: run)
    apply lookupOr_of_not_key
    intro p hp
    have hp1 : p = ("APA", "HTC") := by simpa [FnFixSprintDeviceVendor.mapping] using hp
    rw [hp1]
    exact fun h => hne "APA" (by decide) h.symm
  have hmodel : (parse ua).deviceModel
      = if toStr run = "7373KT" then "Evo Shift 4G" else toStr run := by
    have h1 := (parse_get_device_only ua .deviceModel (by decide!) (by decide!) (by decide!)
      (by decide!)).1
    have h2 : (parse ua).deviceModel
        = (runGroup ua deviceGroup (runGroup ua cpuGroup (runGroup ua browserGroup {}))).deviceModel :=
      h1
    rw [h2, hrun, hg2]
    show FnFixSprintDeviceModel (toStr run) = _
    by_cases hk : toStr run = "7373KT"
    · rw [if_pos hk, hk]
      decide
    · rw [if_neg hk]
      apply lookupOr_of_not_key
      intro p hp
      have hp1 : p = ("7373KT", "Evo Shift 4G") := by
        simpa [FnFixSprintDeviceModel.mapping] using hp
      rw [hp1]
      exact fun h => hk h.symm
  refine ⟨toStr (w ++ ws :: run), toStr run, by rw [hms]; rfl, hg1, hg2, ?_, ?_, hvendor, hmodel,
    hne "APA" (by decide), ?_⟩
  · refine ⟨w.map Char.ofNat, Char.ofNat ws, ?_, ?_, ?_⟩
    · simp [toStr]
    · have : (w.map Char.ofNat).map tolower = (w.map fold).map Char.ofNat := by
        simp only [List.map_map]
        apply List.map_congr_left
        intro x _
        exact tolower_ofNat x
      rw [this, hw]
      decide
    · have hv : ws.isValidChar := by
        simp only [isSpace, Bool.or_eq_true, Bool.and_eq_true] at hws
        rcases hws with h | h
        · have := Nat.eq_of_beq_eq_true h
          exact Or.inl (by omega)
        · have := Nat.le_of_ble_eq_true h.2
          exact Or.inl (by omega)
      rw [toNat_ofNat_valid ws hv]
      exact hws
  · rw [toStr_length]
    exact hlen
  · rw [hvendor]
    exact hne "HTC" (by decide)

/-- C27 (instance): on the user agent of a Sprint phone with the token
"APA7373KT" no earlier device matcher is found; the vendor is the whole match
"Sprint APA7373KT" and the model is the token. -/
theorem C27_witness_sprint_apa7373kt :
    regex_search
        "Mozilla/5.0 (Linux; U; Android 2.3.4; en-us; Sprint APA7373KT Build/GRJ22) AppleWebKit/533.1 (KHTML, like Gecko) Version/4.0 Mobile Safari/533.1"
        (regex.mk "(sprint\\s(\\w+))" i)
      = some ⟨[some "Sprint APA7373KT", some "Sprint APA7373KT", some "APA7373KT"]⟩
    ∧ (parse
        "Mozilla/5.0 (Linux; U; Android 2.3.4; en-us; Sprint APA7373KT Build/GRJ22) AppleWebKit/533.1 (KHTML, like Gecko) Version/4.0 Mobile Safari/533.1").deviceVendor
      ≠ "HTC"
    ∧ (parse
        "Mozilla/5.0 (Linux; U; Android 2.3.4; en-us; Sprint APA7373KT Build/GRJ22) AppleWebKit/533.1 (KHTML, like Gecko) Version/4.0 Mobile Safari/533.1").deviceVendor
      = "Sprint APA7373KT"
    ∧ (parse
        "Mozilla/5.0 (Linux; U; Android 2.3.4; en-us; Sprint APA7373KT Build/GRJ22) AppleWebKit/533.1 (KHTML, like Gecko) Version/4.0 Mobile Safari/533.1").deviceModel
      = "APA7373KT" := by
  have hm : regex_search
      "Mozilla/5.0 (Linux; U; Android 2.3.4; en-us; Sprint APA7373KT Build/GRJ22) AppleWebKit/533.1 (KHTML, like Gecko) Version/4.0 Mobile Safari/533.1"
      (regex.mk "(sprint\\s(\\w+))" i)
      = some ⟨[some "Sprint APA7373KT", some "Sprint APA7373KT", some "APA7373KT"]⟩ := by
    decide!
  obtain ⟨whole, token, h0, _, h2, _, _, hvendor, hmodel, _, hhtc⟩ :=
    (C27_sprint_vendor_is_whole_match
      "Mozilla/5.0 (Linux; U; Android 2.3.4; en-us; Sprint APA7373KT Build/GRJ22) AppleWebKit/533.1 (KHTML, like Gecko) Version/4.0 Mobile Safari/533.1"
      ⟨[some "Sprint APA7373KT", some "Sprint APA7373KT", some "APA7373KT"]⟩
      (by decide!) hm).1
  have hw : whole = "Sprint APA7373KT" := (Option.some.inj h0).symm
  have ht : token = "APA7373KT" := (Option.some.inj h2).symm
  subst hw ht
  exact ⟨hm, hhtc, hvendor, hmodel.trans (by decide)⟩

end UaParser

namespace RegexImpl

/-! ### The first successful path of a greedy repetition -/

/-- A block of characters that pass a test, read from the start of a text,
ends before the first character of the text that fails the test. -/
theorem append_block (P : Nat → Bool) (c rest1 L R : List Nat) (y : Nat)
    (h : c ++ rest1 = L ++ y :: R) (hc : ∀ x ∈ c, P x = true) (hy : P y = false) :
    ∃ d, L = c ++ d ∧ rest1 = d ++ y :: R := by
  induction L generalizing c with
  | nil =>
    cases c with
    | nil => exact ⟨[], rfl, by simpa using h⟩
    | cons x c1 =>
      simp only [List.cons_append, List.nil_append, List.cons.injEq] at h
      have := hc x (List.mem_cons_self _ _)
      rw [h.1, hy] at this
      exact absurd this (by simp)
  | cons l L1 ih =>
    cases c with
    | nil => exact ⟨l :: L1, rfl, by simpa using h⟩
    | cons x c1 =>
      simp only [List.cons_append, List.cons.injEq] at h
      obtain ⟨d, hd1, hd2⟩ := ih c1 h.2 (fun z hz => hc z (List.mem_cons_of_mem _ hz))
      exact ⟨d, by rw [h.1, hd1]; rfl, hd2⟩

theorem one_of_head (p : Nat → Bool) (k : Cont) (s : MState) (x : Nat) (xs : List Nat)
    (hr : s.rest = x :: xs) (hx : p x = true) : one p k s = k ⟨s.pos + 1, xs, s.caps⟩ := by
  simp only [one, hr, hx, if_true]

/-- A greedy repetition of a one-character step returns what its continuation
returns after the longest run on which the continuation succeeds. -/
theorem repLoop_one_greedy_eq (p : Nat → Bool) (min : Nat) (k : Cont) (t : MState)
    (run rest1 : List Nat) (bound cnt : Nat) (s : MState)
    (hr : s.rest = run ++ rest1) (hall : ∀ c ∈ run, p c = true) (hb : run.length ≤ bound)
    (hmin : min ≤ cnt + run.length)
    (hk : k ⟨s.pos + run.length, rest1, s.caps⟩ = some t)
    (hfail : ∀ more rest2, rest1 = more ++ rest2 → more ≠ [] → (∀ c ∈ more, p c = true) →
      k ⟨s.pos + run.length + more.length, rest2, s.caps⟩ = none) :
    repLoop (fun k1 s1 => one p k1 s1) min none true k bound cnt s = some t := by
  induction run generalizing bound cnt s with
  | nil =>
    have hks : k s = some t := by
      cases s
      simp only [List.nil_append] at hr
      subst hr
      exact hk
    have hble : Nat.ble min cnt = true := Nat.ble_eq_true_of_le (by simpa using hmin)
    cases bound with
    | zero => simp only [repLoop, hble, if_true, hks]
    | succ n =>
      simp only [repLoop, if_true, hble]
      cases hbody : one p (fun s1 => if Nat.beq s1.pos s.pos = true then none
          else repLoop (fun k1 s1 => one p k1 s1) min none true k n (cnt + 1) s1) s with
      | none => exact hks
      | some t1 =>
        exfalso
        obtain ⟨x, xs, hx, hpx, hk1⟩ := one_some _ _ _ _ hbody
        rw [beq_add_pos s.pos 1 (by decide)] at hk1
        simp only [Bool.false_eq_true, if_false] at hk1
        obtain ⟨run2, rest2, hr2, hall2, _, hk2⟩ := repLoop_one_run _ _ _ _ _ _ _ _ _ hk1
        simp only at hr2 hk2
        have h1 := hfail (x :: run2) rest2
          (by
            have h0 : s.rest = rest1 := by simpa using hr
            rw [← h0, hx, hr2]
            rfl)
          (by simp)
          (by
            intro c hc
            rcases List.mem_cons.mp hc with h | h
            · rw [h]
              exact hpx
            · exact hall2 c h)
        have hpos : s.pos + ([] : List Nat).length + (x :: run2).length
            = s.pos + 1 + run2.length := by
          simp only [List.length_nil, List.length_cons]
          omega
        rw [hpos, hk2] at h1
        exact Option.noConfusion h1
  | cons x run1 ih =>
    cases bound with
    | zero => simp at hb
    | succ n =>
      have hpx : p x = true := hall x (List.mem_cons_self _ _)
      have hpos : s.pos + (x :: run1).length = s.pos + 1 + run1.length := by
        simp only [List.length_cons]
        omega
      have h1 := ih n (cnt + 1) ⟨s.pos + 1, run1 ++ rest1, s.caps⟩ rfl
        (fun c hc => hall c (List.mem_cons_of_mem _ hc)) (by simpa using hb)
        (by simp only [List.length_cons] at hmin; omega)
        (by rw [← hpos]; exact hk)
        (by
          intro more rest2 h1 h2 h3
          have := hfail more rest2 h1 h2 h3
          rw [hpos] at this
          exact this)
      simp only [repLoop, if_true]
      rw [one_of_head p _ s x (run1 ++ rest1) (by rw [hr]; rfl) hpx]
      simp only [beq_add_pos s.pos 1 (by decide), Bool.false_eq_true, if_false, h1]

theorem matchNode_rep_greedy_eq (icase : Bool) (r : Node) (p : Nat → Bool)
    (hbody : ∀ (k : Cont) (s : MState), matchNode icase r k s = one p k s)
    (min : Nat) (k : Cont) (t : MState) (s : MState) (run rest1 : List Nat)
    (hr : s.rest = run ++ rest1) (hall : ∀ c ∈ run, p c = true) (hmin : min ≤ run.length)
    (hk : k ⟨s.pos + run.length, rest1, s.caps⟩ = some t)
    (hfail : ∀ more rest2, rest1 = more ++ rest2 → more ≠ [] → (∀ c ∈ more, p c = true) →
      k ⟨s.pos + run.length + more.length, rest2, s.caps⟩ = none) :
    matchNode icase (.rep r min none true) k s = some t := by
  simp only [matchNode.eq_12]
  have hb : (fun (k1 : Cont) (s1 : MState) => matchNode icase r k1 s1)
      = fun k1 s1 => one p k1 s1 := by
    funext k1 s1
    exact hbody k1 s1
  rw [hb]
  apply repLoop_one_greedy_eq p min k t run rest1 _ 0 s hr hall
  · rw [hr, List.length_append]
    omega
  · omega
  · exact hk
  · exact hfail

/-- The greedy repetition of a one-character step takes the whole run when the
character after the run fails the test. -/
theorem matchNode_rep_max_eq (icase : Bool) (r : Node) (p : Nat → Bool)
    (hbody : ∀ (k : Cont) (s : MState), matchNode icase r k s = one p k s)
    (min : Nat) (k : Cont) (t : MState) (s : MState) (run rest1 : List Nat)
    (hr : s.rest = run ++ rest1) (hall : ∀ c ∈ run, p c = true) (hmin : min ≤ run.length)
    (hstop : ∀ y ys, rest1 = y :: ys → p y = false)
    (hk : k ⟨s.pos + run.length, rest1, s.caps⟩ = some t) :
    matchNode icase (.rep r min none true) k s = some t := by
  apply matchNode_rep_greedy_eq icase r p hbody min k t s run rest1 hr hall hmin hk
  intro more rest2 h1 h2 h3
  cases more with
  | nil => exact absurd rfl h2
  | cons y more1 =>
    have := hstop y (more1 ++ rest2) (by rw [h1]; rfl)
    rw [h3 y (List.mem_cons_self _ _)] at this
    exact absurd this (by simp)

theorem matchNode_rep_none_of_stop (icase : Bool) (r : Node) (p : Nat → Bool)
    (hbody : ∀ (k : Cont) (s : MState), matchNode icase r k s = one p k s)
    (min : Nat) (k : Cont) (s : MState) (hmin : 1 ≤ min)
    (hstop : ∀ y ys, s.rest = y :: ys → p y = false) :
    matchNode icase (.rep r min none true) k s = none := by
  cases h : matchNode icase (.rep r min none true) k s with
  | none => rfl
  | some t =>
    exfalso
    simp only [matchNode.eq_12] at h
    have hb : (fun (k1 : Cont) (s1 : MState) => matchNode icase r k1 s1)
        = fun k1 s1 => one p k1 s1 := by
      funext k1 s1
      exact hbody k1 s1
    rw [hb] at h
    obtain ⟨run, rest1, hr, hall, hm, _⟩ := repLoop_one_run _ _ _ _ _ _ _ _ _ h
    cases run with
    | nil =>
      simp only [List.length_nil] at hm
      omega
    | cons y run1 =>
      have := hstop y (run1 ++ rest1) (by rw [hr]; rfl)
      rw [hall y (List.mem_cons_self _ _)] at this
      exact absurd this (by simp)

/-- A starred group around a `+` over a one-character step takes the whole run
once, when the character after the run fails the test, and stores the run. -/
theorem matchNode_star_group_plus_eq (icase : Bool) (idx : Nat) (r : Node) (p : Nat → Bool)
    (hbody : ∀ (k : Cont) (s : MState), matchNode icase r k s = one p k s)
    (k : Cont) (t : MState) (s : MState) (run rest1 : List Nat)
    (hr : s.rest = run ++ rest1) (hall : ∀ c ∈ run, p c = true) (hlen : 1 ≤ run.length)
    (hstop : ∀ y ys, rest1 = y :: ys → p y = false)
    (hk : k ⟨s.pos + run.length, rest1, s.caps.set idx (some run)⟩ = some t) :
    matchNode icase (.rep (.group idx (.rep r 1 none true)) 0 none true) k s = some t := by
  have hbound : s.rest.length = (s.rest.length - 1) + 1 := by
    rw [hr, List.length_append]
    omega
  have htake : List.take (s.pos + run.length - s.pos) s.rest = run := by
    rw [Nat.add_sub_cancel_left, hr]
    exact List.take_left' rfl
  have hinner : repLoop (fun k1 s2 => matchNode icase (.group idx (.rep r 1 none true)) k1 s2)
      0 none true k s.rest.length (0 + 1) ⟨s.pos + run.length, rest1, s.caps.set idx (some run)⟩
      = some t := by
    rw [hbound]
    simp only [repLoop, if_true, matchNode.eq_8]
    rw [matchNode_rep_none_of_stop icase r p hbody 1 _ _ (Nat.le_refl 1) hstop]
    simp only [Nat.ble, hk]
    rfl
  rw [matchNode.eq_12]
  rw [show s.rest.length + 1 = s.rest.length + 1 from rfl]
  simp only [repLoop, if_true, matchNode.eq_8]
  rw [matchNode_rep_max_eq icase r p hbody 1 _ t s run rest1 hr hall hlen hstop]
  simp only [beq_add_pos s.pos run.length hlen, Bool.false_eq_true, if_false, htake]
  exact hinner

end RegexImpl

namespace RegexImpl

/-! ### The leftmost match of the Opera Webkit pattern -/

/-- The search passes over a stretch of the input in which the pattern matches
at no position. -/
theorem searchFrom_skip (icase : Bool) (p : Prog) (pre rest : List Nat) (pos : Nat)
    (h : ∀ a x b, pre = a ++ x :: b → ∀ pos1, matchNode icase p.node some
      ⟨pos1, x :: (b ++ rest), List.replicate (p.ngroups + 1) none⟩ = none) :
    searchFrom icase p pos (pre ++ rest) = searchFrom icase p (pos + pre.length) rest := by
  induction pre generalizing pos with
  | nil => rfl
  | cons x pre1 ih =>
    have hx := h [] x pre1 rfl pos
    simp only [List.nil_append] at hx
    rw [List.cons_append]
    simp only [searchFrom]
    rw [hx]
    simp only []
    rw [ih (pos + 1) (fun a y b hab => h (x :: a) y b (by rw [hab]; rfl))]
    simp only [List.length_cons]
    have hpos : pos + 1 + pre1.length = pos + (pre1.length + 1) := by omega
    rw [hpos]

theorem isSpace_le (w : Nat) (h : isSpace w = true) : w ≤ 32 := by
  simp only [isSpace, Bool.or_eq_true, Bool.and_eq_true] at h
  rcases h with h | h
  · have := Nat.eq_of_beq_eq_true h
    omega
  · have := Nat.le_of_ble_eq_true h.2
    omega

/-- The pattern `\s(opr)\/...` does not match at a whitespace character that is
not followed by "opr/" in some letter case, and not at any other character. -/
theorem matchNode_opr_none (tail : Node) (k : Cont) (pos x ws : Nat) (b R : List Nat)
    (caps : List (Option (List Nat))) (hws : isSpace ws = true)
    (hno : isSpace x = true → (b.take 4).map fold ≠ [111, 112, 114, 47]) :
    matchNode true
      (.seq (.cls .space) (.seq (.group 1 (mkSeq ([111, 112, 114].map .chr)))
        (.seq (.chr 47) tail))) k ⟨pos, x :: (b ++ ws :: R), caps⟩ = none := by
  cases h : matchNode true
      (.seq (.cls .space) (.seq (.group 1 (mkSeq ([111, 112, 114].map .chr)))
        (.seq (.chr 47) tail))) k ⟨pos, x :: (b ++ ws :: R), caps⟩ with
  | none => rfl
  | some t =>
    exfalso
    simp only [matchNode.eq_6] at h
    obtain ⟨x0, xs, hr, hx0, h⟩ := matchNode_cls _ _ _ _ _ h
    simp only [List.cons.injEq] at hr
    obtain ⟨hxx, hxs⟩ := hr
    subst hxx
    obtain ⟨ys, rest1, hr1, hys, h⟩ := matchNode_group_lits _ _ _ _ _ _ h
    obtain ⟨y4, r4, hr4, hy4, h⟩ := matchNode_chr _ _ _ _ _ h
    simp only at hr1 hr4
    have hys3 : ys.map fold = [111, 112, 114] := by
      have : ∀ l : List Nat, l.map (tr true) = l.map fold := fun l => rfl
      rw [this, this] at hys
      rw [hys]
      decide
    have hy47 : fold y4 = 47 := by
      have : tr true y4 = fold y4 := rfl
      rw [← this, hy4]
      decide
    have hblock : (ys ++ [y4]) ++ r4 = b ++ ws :: R := by
      rw [hxs, hr1, hr4]
      simp
    have hP : ∀ z ∈ ys ++ [y4], [111, 112, 114, 47].contains (fold z) = true := by
      intro z hz
      rcases List.mem_append.mp hz with h1 | h1
      · have hm : fold z ∈ ys.map fold := List.mem_map_of_mem fold h1
        rw [hys3] at hm
        simp only [List.contains_eq_any_beq, List.any_eq_true, beq_iff_eq]
        exact ⟨fold z, by
          rcases List.mem_cons.mp hm with h2 | h2
          · simp [h2]
          · rcases List.mem_cons.mp h2 with h3 | h3
            · simp [h3]
            · have := List.mem_singleton.mp h3
              simp [this], rfl⟩
      · have := List.mem_singleton.mp h1
        rw [this, hy47]
        decide
    have hsmall : ∀ w, w < 33 → [111, 112, 114, 47].contains (fold w) = false := by decide
    have hPws : [111, 112, 114, 47].contains (fold ws) = false :=
      hsmall ws (Nat.lt_succ_of_le (isSpace_le ws hws))
    obtain ⟨d, hd, _⟩ := append_block (fun z => [111, 112, 114, 47].contains (fold z))
      (ys ++ [y4]) r4 b R ws hblock hP hPws
    have hlen : ys.length = 3 := by
      have := congrArg List.length hys3
      simpa using this
    have htake : b.take 4 = ys ++ [y4] := by
      rw [hd]
      exact List.take_left' (by simp [hlen])
    apply hno hx0
    rw [htake, List.map_append, hys3]
    simp [hy47]

/-- The pattern `\s(opr)\/([\w\.]+)` at a whitespace character followed by
"OPR/20.0.1396.73164" and then no word character and no dot: group 2 is
"20.0.1396.73164". -/
theorem matchNode_opr_eq (pos ws : Nat) (postN : List Nat) (caps : List (Option (List Nat)))
    (hws : isSpace ws = true)
    (hstop : ∀ y ys, postN = y :: ys →
      [SetItem.cls .word, .single 46].any (SetItem.test true y) = false) :
    ∃ t, matchNode true
      (.seq (.cls .space) (.seq (.group 1 (mkSeq ([111, 112, 114].map .chr)))
        (.seq (.chr 47) (.group 2 (.rep (.set [.cls .word, .single 46]) 1 none true)))))
      some
      ⟨pos, ws :: 79 :: 80 :: 82 :: 47 :: ([50, 48, 46, 48, 46, 49, 51, 57, 54, 46, 55, 51, 49,
        54, 52] ++ postN), caps⟩ = some t
      ∧ t.caps = (caps.set 1 (some [79, 80, 82])).set 2
          (some [50, 48, 46, 48, 46, 49, 51, 57, 54, 46, 55, 51, 49, 54, 52]) := by
  simp only [matchNode.eq_6]
  rw [matchNode_cls_fwd true .space _ _ ws _ rfl hws]
  rw [matchNode_group_lits_fwd true 1 [111, 112, 114] _ _ [79, 80, 82]
    (47 :: ([50, 48, 46, 48, 46, 49, 51, 57, 54, 46, 55, 51, 49, 54, 52] ++ postN)) rfl
    (by decide)]
  simp only []
  rw [matchNode_chr_fwd true 47 _ _ 47 _ rfl rfl]
  rw [matchNode.eq_8]
  refine ⟨_, matchNode_rep_max_eq true (.set [.cls .word, .single 46])
    (fun x => [SetItem.cls .word, .single 46].any (SetItem.test true x)) (fun _ _ => rfl) 1 _ _ _
    [50, 48, 46, 48, 46, 49, 51, 57, 54, 46, 55, 51, 49, 54, 52] postN rfl (by decide)
    (by decide) hstop rfl, ?_⟩
  have htake : ∀ n : Nat, List.take (n
      + [50, 48, 46, 48, 46, 49, 51, 57, 54, 46, 55, 51, 49, 54, 52].length - n)
      ([50, 48, 46, 48, 46, 49, 51, 57, 54, 46, 55, 51, 49, 54, 52] ++ postN)
      = [50, 48, 46, 48, 46, 49, 51, 57, 54, 46, 55, 51, 49, 54, 52] := by
    intro n
    rw [Nat.add_sub_cancel_left]
    exact List.take_left' rfl
  simp only [htake]

/-- The leftmost match of the Opera Webkit pattern is at the token when no
whitespace character before it is followed by "opr/", and its group 2 is the
version when no word character and no dot follows the token. -/
theorem searchFrom_opr_group2 (preN postN : List Nat) (ws : Nat) (hws : isSpace ws = true)
    (hpre : ∀ a x b, preN = a ++ x :: b → isSpace x = true →
      (b.take 4).map fold ≠ [111, 112, 114, 47])
    (hstop : ∀ y ys, postN = y :: ys →
      [SetItem.cls .word, .single 46].any (SetItem.test true y) = false) :
    ∃ caps, searchFrom true
      ⟨.seq (.cls .space) (.seq (.group 1 (mkSeq ([111, 112, 114].map .chr)))
        (.seq (.chr 47) (.group 2 (.rep (.set [.cls .word, .single 46]) 1 none true)))), 1 + 1⟩
      0 (preN ++ ws :: 79 :: 80 :: 82 :: 47 :: ([50, 48, 46, 48, 46, 49, 51, 57, 54, 46, 55, 51,
        49, 54, 52] ++ postN)) = some caps
      ∧ caps.getD 2 none = some [50, 48, 46, 48, 46, 49, 51, 57, 54, 46, 55, 51, 49, 54, 52] := by
  rw [searchFrom_skip true _ preN _ 0
    (fun a x b hab pos1 => matchNode_opr_none _ some pos1 x ws b _ _ hws (hpre a x b hab))]
  obtain ⟨t, ht, hcaps⟩ := matchNode_opr_eq (0 + preN.length) ws postN
    (List.replicate (1 + 1 + 1) none) hws hstop
  simp only [searchFrom, ht]
  refine ⟨_, rfl, ?_⟩
  rw [hcaps]
  rfl

end RegexImpl

namespace UaParser

open RegexImpl

/-! ### Scenario B: the version after "OPR/" -/

theorem map_toNat_injective (l1 l2 : List Char)
    (h : l1.map Char.toNat = l2.map Char.toNat) : l1 = l2 := by
  have := congrArg (List.map Char.ofNat) h
  simpa [List.map_map, Function.comp_def, Char.ofNat_toNat] using this

set_option maxRecDepth 1000000

/-- The Opera Webkit pattern is found with group 2 "20.0.1396.73164" in every
input that holds a whitespace character followed by "OPR/20.0.1396.73164", when
no whitespace character before it is followed by "opr/" in some letter case and
the token is not followed by a word character or a dot. -/
theorem regex_search_opr_version (ua : String) (pre post : List Char) (ws : Char)
    (hua : ua.data = pre ++ ws :: ("OPR/20.0.1396.73164".data ++ post))
    (hws : isSpace ws.toNat = true)
    (hpre : ∀ a s b, pre = a ++ s :: b → isSpace s.toNat = true →
      (b.take 4).map tolower ≠ "opr/".data)
    (hpost : ∀ c cs, post = c :: cs → isWord c.toNat = false ∧ c ≠ '.') :
    ∃ ms, regex_search ua (regex.mk "\\s(opr)\\/([\\w\\.]+)" i) = some ms
      ∧ ms.get 2 = some "20.0.1396.73164" := by
  have hinput : ua.data.map Char.toNat
      = pre.map Char.toNat ++ ws.toNat :: 79 :: 80 :: 82 :: 47 ::
          ([50, 48, 46, 48, 46, 49, 51, 57, 54, 46, 55, 51, 49, 54, 52] ++ post.map Char.toNat) := by
    rw [hua]
    simp only [List.map_append, List.map_cons]
    rfl
  have hpreN : ∀ A x B, pre.map Char.toNat = A ++ x :: B → isSpace x = true →
      (B.take 4).map fold ≠ [111, 112, 114, 47] := by
    intro A x B hAB hx hB
    obtain ⟨a, sb, hab, _, hsb⟩ := List.map_eq_append_iff.mp hAB
    obtain ⟨s, b, hsb2, hs, hb⟩ := List.map_eq_cons_iff.mp hsb
    rw [hsb2] at hab
    rw [← hs] at hx
    apply hpre a s b hab hx
    apply map_toNat_injective
    rw [map_toNat_map_tolower, List.map_take, hb, hB]
    decide
  have hstop : ∀ y ys, post.map Char.toNat = y :: ys →
      [SetItem.cls .word, .single 46].any (SetItem.test true y) = false := by
    intro y ys hy
    obtain ⟨c, cs, hc, hcy, _⟩ := List.map_eq_cons_iff.mp hy
    obtain ⟨hw, hdot⟩ := hpost c cs hc
    rw [← hcy]
    have h46 : Nat.beq (tr true c.toNat) (tr true 46) = false := by
      cases hb : Nat.beq (tr true c.toNat) (tr true 46) with
      | false => rfl
      | true =>
        exfalso
        have h1 : fold c.toNat = 46 := Nat.eq_of_beq_eq_true hb
        have h2 : c.toNat = 46 := fold_eq_of_lt _ _ h1 (by decide)
        have h3 : Char.ofNat c.toNat = Char.ofNat 46 := congrArg Char.ofNat h2
        rw [Char.ofNat_toNat] at h3
        exact hdot h3
    simp only [List.any_cons, List.any_nil, SetItem.test, CharClass.test, hw, h46, Bool.or_false]
  obtain ⟨caps, hcaps, h2⟩ := searchFrom_opr_group2 (pre.map Char.toNat) (post.map Char.toNat)
    ws.toNat hws hpreN hstop
  refine ⟨⟨caps.map (Option.map toStr)⟩, ?_, ?_⟩
  · unfold regex_search
    simp only [compile_opr]
    have hi : (regex.mk "\\s(opr)\\/([\\w\\.]+)" i).flags.icase = true := rfl
    rw [hi, hinput, hcaps]
  · simp only [smatch.get, getD_map_toStr, h2]
    rfl

/-- C22 (as amended): for every input that holds a whitespace character
followed by "OPR/20.0.1396.73164", in which no whitespace character before the
token is followed by "opr/" in some letter case, the token is not followed by a
word character or a dot, and no alternative of the Presto matcher, the one
browser matcher before the Opera Webkit matcher, is found: the Opera Webkit
pattern is found with group 2 "20.0.1396.73164", `parse` returns
`browserName = "Opera"`, the literal of the rule, and, when the pattern
`(ia32(?=;))` of the cpu group is not found, `browserVersion =
"20.0.1396.73164"`. -/
theorem C22_opr_name_opera_and_token_version (ua : String) (pre post : List Char) (ws : Char)
    (hua : ua.data = pre ++ ws :: ("OPR/20.0.1396.73164".data ++ post))
    (hws : isSpace ws.toNat = true)
    (hpre : ∀ a s b, pre = a ++ s :: b → isSpace s.toNat = true →
      (b.take 4).map tolower ≠ "opr/".data)
    (hpost : ∀ c cs, post = c :: cs → isWord c.toNat = false ∧ c ≠ '.')
    (hprior : ∀ m ∈ browserGroup.take 1, ∀ e ∈ m.expressions_, regex_search ua e = none) :
    browserGroup[1]?
        = some (Matcher.mk [regex.mk "\\s(opr)\\/([\\w\\.]+)" i]
            [Extractor.literal .browserName "Opera", Extractor.capture .browserVersion])
      ∧ (∃ ms, regex_search ua (regex.mk "\\s(opr)\\/([\\w\\.]+)" i) = some ms
          ∧ ms.get 2 = some "20.0.1396.73164")
      ∧ (parse ua).browserName = "Opera"
      ∧ (regex_search ua (regex.mk "(ia32(?=;))" i) = none →
          (parse ua).browserVersion = "20.0.1396.73164") := by
  obtain ⟨ms, hm, h2⟩ := regex_search_opr_version ua pre post ws hua hws hpre hpost
  obtain ⟨hname, hver⟩ := parse_browser_of_opr_match ua ms hprior hm
  refine ⟨by decide!, ⟨ms, hm, h2⟩, hname, ?_⟩
  intro hia
  rw [hver hia, h2]
  rfl

/-- C22 (instance): in the user agent of Opera 20 the token follows a blank, ends
the input, no "opr/" comes before it and no alternative of the Presto matcher
or of the cpu pattern `(ia32(?=;))` is found; the name is "Opera" and the
version "20.0.1396.73164". -/
theorem C22_witness_opera_20 :
    ("Mozilla/5.0 (Windows NT 6.1; WOW64) AppleWebKit/537.36 (KHTML, like Gecko) Chrome/33.0.1750.154 Safari/537.36 OPR/20.0.1396.73164").data
        = "Mozilla/5.0 (Windows NT 6.1; WOW64) AppleWebKit/537.36 (KHTML, like Gecko) Chrome/33.0.1750.154 Safari/537.36".data
          ++ ' ' :: ("OPR/20.0.1396.73164".data ++ [])
    ∧ (parse
        "Mozilla/5.0 (Windows NT 6.1; WOW64) AppleWebKit/537.36 (KHTML, like Gecko) Chrome/33.0.1750.154 Safari/537.36 OPR/20.0.1396.73164").browserName
      = "Opera"
    ∧ (parse
        "Mozilla/5.0 (Windows NT 6.1; WOW64) AppleWebKit/537.36 (KHTML, like Gecko) Chrome/33.0.1750.154 Safari/537.36 OPR/20.0.1396.73164").browserVersion
      = "20.0.1396.73164" := by
  have htails : ∀ tl ∈ ("Mozilla/5.0 (Windows NT 6.1; WOW64) AppleWebKit/537.36 (KHTML, like Gecko) Chrome/33.0.1750.154 Safari/537.36".data).tails,
      ((tl.drop 1).take 4).map tolower ≠ "opr/".data := by decide!
  obtain ⟨_, _, hname, hver⟩ := C22_opr_name_opera_and_token_version
    "Mozilla/5.0 (Windows NT 6.1; WOW64) AppleWebKit/537.36 (KHTML, like Gecko) Chrome/33.0.1750.154 Safari/537.36 OPR/20.0.1396.73164"
    "Mozilla/5.0 (Windows NT 6.1; WOW64) AppleWebKit/537.36 (KHTML, like Gecko) Chrome/33.0.1750.154 Safari/537.36".data
    [] ' ' (by decide!) (by decide!)
    (fun a s b hab _ => htails (s :: b) ((List.mem_tails _ _).mpr ⟨a, hab.symm⟩))
    (fun c cs h => List.noConfusion h) (by decide!)
  exact ⟨by decide!, hname, hver (by decide!)⟩

end UaParser

namespace RegexImpl

/-! ### The leftmost match of the iOS pattern -/

theorem matchNode_seq_chr_none (icase : Bool) (c : Nat) (b : Node) (k : Cont) (s : MState)
    (h : ∀ y ys, s.rest = y :: ys → Nat.beq (tr icase y) (tr icase c) = false) :
    matchNode icase (.seq (.chr c) b) k s = none := by
  rw [matchNode.eq_6, matchNode.eq_1]
  unfold one
  cases hr : s.rest with
  | nil => rfl
  | cons y ys => simp only [h y ys hr, Bool.false_eq_true, if_false]

/-- The end of the iOS pattern, `\slike\smac`, on " like Mac". -/
theorem matchNode_like_mac_eq (pos : Nat) (post : List Nat) (caps : List (Option (List Nat))) :
    ∃ t, matchNode true
      (.seq (.cls .space) (.seq (.chr 108) (.seq (.chr 105) (.seq (.chr 107)
        (.seq (.chr 101) (.seq (.cls .space) (.seq (.chr 109)
          (.seq (.chr 97) (.chr 99)))))))))
      some
      ⟨pos, 32 :: 108 :: 105 :: 107 :: 101 :: 32 :: 77 :: 97 :: 99 :: post, caps⟩ = some t
      ∧ t.caps = caps := by
  simp only [matchNode.eq_6]
  rw [matchNode_cls_fwd true .space _ _ 32 _ rfl (by decide)]
  rw [matchNode_chr_fwd true 108 _ _ 108 _ rfl rfl]
  rw [matchNode_chr_fwd true 105 _ _ 105 _ rfl rfl]
  rw [matchNode_chr_fwd true 107 _ _ 107 _ rfl rfl]
  rw [matchNode_chr_fwd true 101 _ _ 101 _ rfl rfl]
  rw [matchNode_cls_fwd true .space _ _ 32 _ rfl (by decide)]
  rw [matchNode_chr_fwd true 109 _ _ 77 _ rfl (by decide)]
  rw [matchNode_chr_fwd true 97 _ _ 97 _ rfl rfl]
  rw [matchNode_chr_fwd true 99 _ _ 99 _ rfl rfl]
  exact ⟨_, rfl, rfl⟩

/-- The part `os\s*([\w]+)*\slike\smac` of the iOS pattern on "OS 9_1 like Mac":
group 2 is "9_1". -/
theorem matchNode_os_tail_eq (pos : Nat) (post : List Nat) (caps : List (Option (List Nat))) :
    ∃ t, matchNode true
      (.seq (.chr 111) (.seq (.chr 115)
        (.seq (.rep (.cls .space) 0 none true)
          (.seq (.rep (.group 2 (.rep (.set [.cls .word]) 1 none true)) 0 none true)
            (.seq (.cls .space) (.seq (.chr 108) (.seq (.chr 105) (.seq (.chr 107)
              (.seq (.chr 101) (.seq (.cls .space) (.seq (.chr 109)
                (.seq (.chr 97) (.chr 99)))))))))))))
      some
      ⟨pos, 79 :: 83 :: 32 :: 57 :: 95 :: 49 :: 32 :: 108 :: 105 :: 107 :: 101 :: 32 :: 77
        :: 97 :: 99 :: post, caps⟩ = some t
      ∧ t.caps = caps.set 2 (some [57, 95, 49]) := by
  obtain ⟨t, ht, hc⟩ := matchNode_like_mac_eq (pos + 1 + 1 + [32].length + [57, 95, 49].length)
    post (caps.set 2 (some [57, 95, 49]))
  refine ⟨t, ?_, hc⟩
  rw [matchNode.eq_6, matchNode_chr_fwd true 111 _ _ 79 _ rfl (by decide)]
  rw [matchNode.eq_6, matchNode_chr_fwd true 115 _ _ 83 _ rfl (by decide)]
  rw [matchNode.eq_6]
  apply matchNode_rep_max_eq true (.cls .space) CharClass.space.test (fun _ _ => rfl) 0 _ t _
    [32] (57 :: 95 :: 49 :: 32 :: 108 :: 105 :: 107 :: 101 :: 32 :: 77 :: 97 :: 99 :: post) rfl
    (by decide) (by decide)
  · intro y ys hy
    simp only [List.cons.injEq] at hy
    rw [← hy.1]
    decide
  rw [matchNode.eq_6]
  apply matchNode_star_group_plus_eq true 2 (.set [.cls .word])
    (fun x => [SetItem.cls .word].any (SetItem.test true x)) (fun _ _ => rfl) _ t _
    [57, 95, 49] (32 :: 108 :: 105 :: 107 :: 101 :: 32 :: 77 :: 97 :: 99 :: post) rfl
    (by decide) (by decide)
  · intro y ys hy
    simp only [List.cons.injEq] at hy
    rw [← hy.1]
    decide
  exact ht

/-- A match of `os\s*([\w]+)*\slike\smac` has a whitespace character, "like",
a whitespace character and "mac" ahead, in some letter case. -/
theorem matchNode_os_tail_like (s t : MState)
    (h : matchNode true
      (.seq (.chr 111) (.seq (.chr 115)
        (.seq (.rep (.cls .space) 0 none true)
          (.seq (.rep (.group 2 (.rep (.set [.cls .word]) 1 none true)) 0 none true)
            (.seq (.cls .space) (.seq (.chr 108) (.seq (.chr 105) (.seq (.chr 107)
              (.seq (.chr 101) (.seq (.cls .space) (.seq (.chr 109)
                (.seq (.chr 97) (.chr 99)))))))))))))
      some s = some t) :
    ∃ a x0 x1 x2 x3 x4 x5 x6 x7 x8 c,
      s.rest = a ++ x0 :: x1 :: x2 :: x3 :: x4 :: x5 :: x6 :: x7 :: x8 :: c
      ∧ isSpace x0 = true ∧ [x1, x2, x3, x4].map fold = [108, 105, 107, 101]
      ∧ isSpace x5 = true ∧ [x6, x7, x8].map fold = [109, 97, 99] := by
  rw [matchNode.eq_6] at h
  obtain ⟨s1, ha1, h⟩ := matchNode_ahead _ _ _ _ _ h
  rw [matchNode.eq_6] at h
  obtain ⟨s2, ha2, h⟩ := matchNode_ahead _ _ _ _ _ h
  rw [matchNode.eq_6] at h
  obtain ⟨s3, ha3, h⟩ := matchNode_ahead _ _ _ _ _ h
  rw [matchNode.eq_6] at h
  obtain ⟨s4, ha4, h⟩ := matchNode_ahead _ _ _ _ _ h
  simp only [matchNode.eq_6] at h
  obtain ⟨x0, r0, hr0, e0, h⟩ := matchNode_cls _ _ _ _ _ h
  obtain ⟨x1, r1, hr1, e1, h⟩ := matchNode_chr _ _ _ _ _ h
  obtain ⟨x2, r2, hr2, e2, h⟩ := matchNode_chr _ _ _ _ _ h
  obtain ⟨x3, r3, hr3, e3, h⟩ := matchNode_chr _ _ _ _ _ h
  obtain ⟨x4, r4, hr4, e4, h⟩ := matchNode_chr _ _ _ _ _ h
  obtain ⟨x5, r5, hr5, e5, h⟩ := matchNode_cls _ _ _ _ _ h
  obtain ⟨x6, r6, hr6, e6, h⟩ := matchNode_chr _ _ _ _ _ h
  obtain ⟨x7, r7, hr7, e7, h⟩ := matchNode_chr _ _ _ _ _ h
  obtain ⟨x8, r8, hr8, e8, h⟩ := matchNode_chr _ _ _ _ _ h
  simp only at hr1 hr2 hr3 hr4 hr5 hr6 hr7 hr8
  obtain ⟨_, c, hc, _⟩ := ahead_trans (ahead_trans (ahead_trans ha1 ha2) ha3) ha4
  refine ⟨c, x0, x1, x2, x3, x4, x5, x6, x7, x8, r8, ?_, e0, ?_, e5, ?_⟩
  · rw [hc, hr0, hr1, hr2, hr3, hr4, hr5, hr6, hr7, hr8]
  · simp only [tr, if_true] at e1 e2 e3 e4
    simp only [List.map_cons, List.map_nil, e1, e2, e3, e4]
    decide
  · simp only [tr, if_true] at e6 e7 e8
    simp only [List.map_cons, List.map_nil, e6, e7, e8]
    decide

/-- After "OS 9_1 like Mac" has begun, `os\s*([\w]+)*\slike\smac` matches at no
later position when no whitespace character, "like", whitespace character and
"mac" follow the token. -/
theorem matchNode_os_tail_none_after (post more rest2 : List Nat) (pos : Nat)
    (caps : List (Option (List Nat)))
    (hpost : ∀ a x0 x1 x2 x3 x4 x5 x6 x7 x8 c,
      post = a ++ x0 :: x1 :: x2 :: x3 :: x4 :: x5 :: x6 :: x7 :: x8 :: c →
      isSpace x0 = true → [x1, x2, x3, x4].map fold = [108, 105, 107, 101] →
      isSpace x5 = true → [x6, x7, x8].map fold ≠ [109, 97, 99])
    (h : [79, 83, 32, 57, 95, 49, 32, 108, 105, 107, 101, 32, 77, 97, 99] ++ post
      = more ++ rest2) (hmore : more ≠ []) :
    matchNode true
      (.seq (.chr 111) (.seq (.chr 115)
        (.seq (.rep (.cls .space) 0 none true)
          (.seq (.rep (.group 2 (.rep (.set [.cls .word]) 1 none true)) 0 none true)
            (.seq (.cls .space) (.seq (.chr 108) (.seq (.chr 105) (.seq (.chr 107)
              (.seq (.chr 101) (.seq (.cls .space) (.seq (.chr 109)
                (.seq (.chr 97) (.chr 99)))))))))))))
      some ⟨pos, rest2, caps⟩ = none := by
  have hsuffix : ∀ a1, post = a1 ++ rest2 → matchNode true
      (.seq (.chr 111) (.seq (.chr 115)
        (.seq (.rep (.cls .space) 0 none true)
          (.seq (.rep (.group 2 (.rep (.set [.cls .word]) 1 none true)) 0 none true)
            (.seq (.cls .space) (.seq (.chr 108) (.seq (.chr 105) (.seq (.chr 107)
              (.seq (.chr 101) (.seq (.cls .space) (.seq (.chr 109)
                (.seq (.chr 97) (.chr 99)))))))))))))
      some ⟨pos, rest2, caps⟩ = none := by
    intro a1 ha1
    cases hm : matchNode true
      (.seq (.chr 111) (.seq (.chr 115)
        (.seq (.rep (.cls .space) 0 none true)
          (.seq (.rep (.group 2 (.rep (.set [.cls .word]) 1 none true)) 0 none true)
            (.seq (.cls .space) (.seq (.chr 108) (.seq (.chr 105) (.seq (.chr 107)
              (.seq (.chr 101) (.seq (.cls .space) (.seq (.chr 109)
                (.seq (.chr 97) (.chr 99)))))))))))))
      some ⟨pos, rest2, caps⟩ with
    | none => rfl
    | some t =>
      exfalso
      obtain ⟨a, x0, x1, x2, x3, x4, x5, x6, x7, x8, c, hr, h0, hf, h5, hg⟩ :=
        matchNode_os_tail_like _ _ hm
      simp only at hr
      exact hpost (a1 ++ a) x0 x1 x2 x3 x4 x5 x6 x7 x8 c
        (by rw [ha1, hr, List.append_assoc]) h0 hf h5 hg
  rcases List.append_eq_append_iff.mp h with ⟨a1, _, h2⟩ | ⟨c1, h1, h2⟩
  · exact hsuffix a1 h2
  · cases c1 with
    | nil =>
      rw [List.nil_append] at h2
      exact hsuffix [] (by rw [h2]; rfl)
    | cons y c2 =>
      cases more with
      | nil => exact absurd rfl hmore
      | cons m more1 =>
        simp only [List.cons_append, List.cons.injEq] at h1
        have hy : y ∈ [83, 32, 57, 95, 49, 32, 108, 105, 107, 101, 32, 77, 97, 99] := by
          rw [h1.2]
          simp
        have hall : ∀ z ∈ [83, 32, 57, 95, 49, 32, 108, 105, 107, 101, 32, 77, 97, 99],
            Nat.beq (tr true z) (tr true 111) = false := by decide
        apply matchNode_seq_chr_none
        intro z zs hz
        rw [h2] at hz
        simp only [List.cons_append, List.cons.injEq] at hz
        rw [← hz.1]
        exact hall y hy

/-- The first alternative after group 1 of the iOS pattern, begun anywhere before
"OS 9_1 like Mac": the greedy `.*` runs up to this "OS" when no " like mac" follows
the token, and group 2 is "9_1". -/
theorem matchNode_any_os_tail_eq (s : MState) (d post : List Nat)
    (hr : s.rest = d ++ ([79, 83, 32, 57, 95, 49, 32, 108, 105, 107, 101, 32, 77, 97, 99] ++ post))
    (hpost : ∀ a x0 x1 x2 x3 x4 x5 x6 x7 x8 c,
      post = a ++ x0 :: x1 :: x2 :: x3 :: x4 :: x5 :: x6 :: x7 :: x8 :: c →
      isSpace x0 = true → [x1, x2, x3, x4].map fold = [108, 105, 107, 101] →
      isSpace x5 = true → [x6, x7, x8].map fold ≠ [109, 97, 99]) :
    ∃ t, matchNode true
      (.seq (.rep .any 0 none true)
        (.seq (.chr 111) (.seq (.chr 115)
          (.seq (.rep (.cls .space) 0 none true)
            (.seq (.rep (.group 2 (.rep (.set [.cls .word]) 1 none true)) 0 none true)
              (.seq (.cls .space) (.seq (.chr 108) (.seq (.chr 105) (.seq (.chr 107)
                (.seq (.chr 101) (.seq (.cls .space) (.seq (.chr 109)
                  (.seq (.chr 97) (.chr 99))))))))))))))
      some s = some t
      ∧ t.caps = s.caps.set 2 (some [57, 95, 49]) := by
  obtain ⟨t, ht, hc⟩ := matchNode_os_tail_eq (s.pos + d.length) post s.caps
  refine ⟨t, ?_, hc⟩
  rw [matchNode.eq_6]
  apply matchNode_rep_greedy_eq true .any (fun _ => true) (fun _ _ => rfl) 0 _ t s d
    ([79, 83, 32, 57, 95, 49, 32, 108, 105, 107, 101, 32, 77, 97, 99] ++ post) hr
    (fun _ _ => rfl) (Nat.zero_le _) ht
  intro more rest2 h1 h2 _
  exact matchNode_os_tail_none_after post more rest2 _ _ hpost h1 h2

end RegexImpl

namespace RegexImpl

theorem getD_set_self (l : List (Option (List Nat))) (n : Nat) (v : Option (List Nat))
    (h : n < l.length) : (l.set n v).getD n none = v := by
  simp [List.getD_eq_getElem?_getD, List.getElem?_set_self h]

/-- A match of the iOS pattern that starts at or before "iPhone OS 9_1 like Mac"
has group 2 "9_1" when no " like mac" follows the token. -/
theorem matchNode_ios_group2 (s t : MState) (b post : List Nat)
    (hr : s.rest = (b ++ [105, 80, 104, 111, 110, 101]) ++ 32
      :: ([79, 83, 32, 57, 95, 49, 32, 108, 105, 107, 101, 32, 77, 97, 99] ++ post))
    (hcaps : s.caps.length = 2 + 1)
    (hpost : ∀ a x0 x1 x2 x3 x4 x5 x6 x7 x8 c,
      post = a ++ x0 :: x1 :: x2 :: x3 :: x4 :: x5 :: x6 :: x7 :: x8 :: c →
      isSpace x0 = true → [x1, x2, x3, x4].map fold = [108, 105, 107, 101] →
      isSpace x5 = true → [x6, x7, x8].map fold ≠ [109, 97, 99])
    (h : matchNode true
      (.seq
        (.group 1 (.seq (.chr 105) (.seq (.chr 112)
          (.rep (.set [.single 104, .single 111, .single 110, .single 101, .single 97,
            .single 100]) 1 none true))))
        (.ncgroup (.alt
          (.seq (.rep .any 0 none true)
            (.seq (.chr 111) (.seq (.chr 115)
              (.seq (.rep (.cls .space) 0 none true)
                (.seq (.rep (.group 2 (.rep (.set [.cls .word]) 1 none true)) 0 none true)
                  (.seq (.cls .space) (.seq (.chr 108) (.seq (.chr 105) (.seq (.chr 107)
                    (.seq (.chr 101) (.seq (.cls .space) (.seq (.chr 109)
                      (.seq (.chr 97) (.chr 99))))))))))))))
          (.seq (.chr 59) (.seq (.cls .space) (.seq (.chr 111) (.seq (.chr 112)
            (.seq (.chr 101) (.seq (.chr 114) (.chr 97))))))))))
      some s = some t) :
    t.caps.getD 2 none = some [57, 95, 49] := by
  rw [matchNode.eq_6, matchNode.eq_8, matchNode.eq_6] at h
  obtain ⟨x1, r1, hr1, e1, h⟩ := matchNode_chr _ _ _ _ _ h
  rw [matchNode.eq_6] at h
  obtain ⟨x2, r2, hr2, e2, h⟩ := matchNode_chr _ _ _ _ _ h
  rw [matchNode.eq_12] at h
  have hb : (fun (k1 : Cont) (s1 : MState) => matchNode true
      (.set [.single 104, .single 111, .single 110, .single 101, .single 97, .single 100]) k1 s1)
      = fun k1 s1 => one (fun x => [SetItem.single 104, .single 111, .single 110, .single 101,
          .single 97, .single 100].any (SetItem.test true x)) k1 s1 := by
    funext k1 s1
    rfl
  rw [hb] at h
  obtain ⟨run, rest1, hr3, hall, _, h⟩ := repLoop_one_run _ _ _ _ _ _ _ _ _ h
  simp only at hr2 hr3 h
  rw [matchNode.eq_9, matchNode.eq_7] at h
  have hblock : (x1 :: x2 :: run) ++ rest1 = (b ++ [105, 80, 104, 111, 110, 101]) ++ 32
      :: ([79, 83, 32, 57, 95, 49, 32, 108, 105, 107, 101, 32, 77, 97, 99] ++ post) := by
    rw [← hr, hr1, hr2, hr3]
    rfl
  have hP : ∀ z ∈ x1 :: x2 :: run,
      (fun z => Nat.beq (fold z) 105 || Nat.beq (fold z) 112
        || [SetItem.single 104, .single 111, .single 110, .single 101,
          .single 97, .single 100].any (SetItem.test true z)) z = true := by
    intro z hz
    simp only [tr, if_true] at e1 e2
    rcases List.mem_cons.mp hz with h1 | h1
    · have : fold z = 105 := by rw [h1, e1]; decide
      simp only [this, Nat.beq_refl, Bool.true_or]
    · rcases List.mem_cons.mp h1 with h2 | h2
      · have : fold z = 112 := by rw [h2, e2]; decide
        simp only [this, Nat.beq_refl, Bool.true_or, Bool.or_true]
      · simp only [hall z h2, Bool.or_true]
  obtain ⟨d, _, hd⟩ := append_block _ (x1 :: x2 :: run) rest1 _ _ 32 hblock hP (by decide)
  obtain ⟨t0, ht0, hc0⟩ := matchNode_any_os_tail_eq
    ⟨s.pos + 1 + 1 + run.length, rest1,
      s.caps.set 1 (some (List.take (s.pos + 1 + 1 + run.length - s.pos) s.rest))⟩
    (d ++ [32]) post (by rw [hd]; simp) hpost
  rw [ht0] at h
  simp only [Option.some.injEq] at h
  rw [← h, hc0]
  exact getD_set_self _ 2 _ (by simp only [List.length_set]; omega)

/-- A search for the iOS pattern in an input that contains
"iPhone OS 9_1 like Mac", with no " like mac" after the token: group 2 of
the leftmost match is "9_1". -/
theorem searchFrom_ios_group2 (b post : List Nat) (pos : Nat)
    (caps : List (Option (List Nat)))
    (hpost : ∀ a x0 x1 x2 x3 x4 x5 x6 x7 x8 c,
      post = a ++ x0 :: x1 :: x2 :: x3 :: x4 :: x5 :: x6 :: x7 :: x8 :: c →
      isSpace x0 = true → [x1, x2, x3, x4].map fold = [108, 105, 107, 101] →
      isSpace x5 = true → [x6, x7, x8].map fold ≠ [109, 97, 99])
    (h : searchFrom true
      ⟨.seq
        (.group 1 (.seq (.chr 105) (.seq (.chr 112)
          (.rep (.set [.single 104, .single 111, .single 110, .single 101, .single 97,
            .single 100]) 1 none true))))
        (.ncgroup (.alt
          (.seq (.rep .any 0 none true)
            (.seq (.chr 111) (.seq (.chr 115)
              (.seq (.rep (.cls .space) 0 none true)
                (.seq (.rep (.group 2 (.rep (.set [.cls .word]) 1 none true)) 0 none true)
                  (.seq (.cls .space) (.seq (.chr 108) (.seq (.chr 105) (.seq (.chr 107)
                    (.seq (.chr 101) (.seq (.cls .space) (.seq (.chr 109)
                      (.seq (.chr 97) (.chr 99))))))))))))))
          (.seq (.chr 59) (.seq (.cls .space) (.seq (.chr 111) (.seq (.chr 112)
            (.seq (.chr 101) (.seq (.chr 114) (.chr 97))))))))), 2⟩
      pos (b ++ (105 :: 80 :: 104 :: 111 :: 110 :: 101 :: 32 :: 79 :: 83 :: 32 :: 57 :: 95 :: 49
        :: 32 :: 108 :: 105 :: 107 :: 101 :: 32 :: 77 :: 97 :: 99 :: post)) = some caps) :
    caps.getD 2 none = some [57, 95, 49] := by
  induction b generalizing pos with
  | nil =>
    rw [List.nil_append] at h
    simp only [searchFrom] at h
    split at h
    · rename_i t heq
      simp only [Option.some.injEq] at h
      rw [← h, getD_set_ne _ _ _ _ _ (by decide)]
      exact matchNode_ios_group2 _ t [] post rfl (by simp) hpost heq
    · rename_i hnone
      have := matchNode_ios_isSome pos post (List.replicate (2 + 1) none)
      rw [hnone] at this
      exact absurd this (by simp)
  | cons x b1 ih =>
    rw [List.cons_append] at h
    simp only [searchFrom] at h
    split at h
    · rename_i t heq
      simp only [Option.some.injEq] at h
      rw [← h, getD_set_ne _ _ _ _ _ (by decide)]
      exact matchNode_ios_group2 _ t (x :: b1) post (by simp) (by simp) hpost heq
    · exact ih _ h

end RegexImpl

namespace UaParser

open RegexImpl

/-! ### Scenario E: the version before "like Mac" -/

set_option maxRecDepth 1000000

theorem isSpace_fold (x : Nat) (h : isSpace x = true) : isSpace (fold x) = true := by
  have hle := isSpace_le x h
  have hf : fold x = x := by
    unfold fold
    have : isUpper x = false := by
      simp only [isUpper, Bool.and_eq_false_iff]
      left
      cases hb : Nat.ble 65 x with
      | false => rfl
      | true =>
        have := Nat.le_of_ble_eq_true hb
        omega
    rw [this]
    rfl
  rw [hf]
  exact h

/-- In an input that contains "iPhone OS 9_1 like Mac" after which no whitespace
character, "like", whitespace character and "mac" follow in any letter case,
group 2 of the match of the iOS pattern is "9_1". -/
theorem regex_search_ios_version (ua : String) (pre post : List Char) (ms : smatch)
    (hua : ua.data = pre ++ ("iPhone OS 9_1 like Mac".data ++ post))
    (hpost : ∀ a c s1 s2, isSpace s1.toNat = true → isSpace s2.toNat = true →
      post.map tolower ≠ a ++ s1 :: ("like".data ++ s2 :: ("mac".data ++ c)))
    (hm : regex_search ua
      (regex.mk "(ip[honead]+)(?:.*os\\s*([\\w]+)*\\slike\\smac|;\\sopera)" i) = some ms) :
    ms.get 2 = some "9_1" := by
  have hinput : ua.data.map Char.toNat
      = pre.map Char.toNat ++ (105 :: 80 :: 104 :: 111 :: 110 :: 101 :: 32 :: 79 :: 83 :: 32
          :: 57 :: 95 :: 49 :: 32 :: 108 :: 105 :: 107 :: 101 :: 32 :: 77 :: 97 :: 99
          :: post.map Char.toNat) := by
    rw [hua]
    simp only [List.map_append]
    rfl
  have hpostN : ∀ a x0 x1 x2 x3 x4 x5 x6 x7 x8 c,
      post.map Char.toNat = a ++ x0 :: x1 :: x2 :: x3 :: x4 :: x5 :: x6 :: x7 :: x8 :: c →
      isSpace x0 = true → [x1, x2, x3, x4].map fold = [108, 105, 107, 101] →
      isSpace x5 = true → [x6, x7, x8].map fold ≠ [109, 97, 99] := by
    intro a x0 x1 x2 x3 x4 x5 x6 x7 x8 c hdec h0 hf h5 hg
    have hlow : (post.map tolower).map Char.toNat
        = a.map fold ++ fold x0 :: ("like".data.map Char.toNat
            ++ fold x5 :: ("mac".data.map Char.toNat ++ c.map fold)) := by
      simp only [List.map_cons, List.map_nil, List.cons.injEq, and_true] at hf hg
      rw [map_toNat_map_tolower, hdec]
      simp only [List.map_append, List.map_cons, hf.1, hf.2.1, hf.2.2.1, hf.2.2.2, hg.1, hg.2.1,
        hg.2.2]
      rfl
    obtain ⟨a1, r1, e1, _, e2⟩ := List.map_eq_append_iff.mp hlow
    obtain ⟨s1, r2, e3, e4, e5⟩ := List.map_eq_cons_iff.mp e2
    obtain ⟨m1, r3, e6, e7, e8⟩ := List.map_eq_append_iff.mp e5
    obtain ⟨s2, r4, e9, e10, e11⟩ := List.map_eq_cons_iff.mp e8
    obtain ⟨m2, c1, e12, e13, _⟩ := List.map_eq_append_iff.mp e11
    have hm1 : m1 = "like".data := map_toNat_injective _ _ e7
    have hm2 : m2 = "mac".data := map_toNat_injective _ _ e13
    apply hpost a1 c1 s1 s2 (by rw [e4]; exact isSpace_fold x0 h0)
      (by rw [e10]; exact isSpace_fold x5 h5)
    rw [e1, e3, e6, e9, e12, hm1, hm2]
  unfold regex_search at hm
  simp only [compile_ios] at hm
  have hi : (regex.mk "(ip[honead]+)(?:.*os\\s*([\\w]+)*\\slike\\smac|;\\sopera)" i).flags.icase
      = true := rfl
  rw [hi, hinput] at hm
  split at hm
  · exact Option.noConfusion hm
  · rename_i caps heq
    simp only [Option.some.injEq] at hm
    have h2 := searchFrom_ios_group2 _ _ _ _ hpostN heq
    rw [← hm]
    simp only [smatch.get, getD_map_toStr, h2]
    rfl

/-- C21 (as amended): for every input that contains "iPhone OS 9_1 like Mac",
in which the token is not followed anywhere by a whitespace character, "like", a
whitespace character and "mac" in any letter case, and in which no alternative
of the twelve os matchers before the iOS matcher is found: the iOS pattern is
found with group 2 "9_1", and `parse` returns `osName = "iOS"`, the literal of
the rule, and `osVersion = "9.1"`, group 2 with every underscore replaced by a
dot. -/
theorem C21_ios_name_and_version_9_1 (ua : String) (pre post : List Char)
    (hua : ua.data = pre ++ ("iPhone OS 9_1 like Mac".data ++ post))
    (hpost : ∀ a c s1 s2, isSpace s1.toNat = true → isSpace s2.toNat = true →
      post.map tolower ≠ a ++ s1 :: ("like".data ++ s2 :: ("mac".data ++ c)))
    (hprior : ∀ m ∈ osGroup.take 12, ∀ e ∈ m.expressions_, regex_search ua e = none) :
    osGroup[12]?
        = some (Matcher.mk
            [regex.mk "(ip[honead]+)(?:.*os\\s*([\\w]+)*\\slike\\smac|;\\sopera)" i]
            [Extractor.literal .osName "iOS",
             Extractor.transform .osVersion (.FnReplace '_' '.')])
      ∧ (∃ ms, regex_search ua
            (regex.mk "(ip[honead]+)(?:.*os\\s*([\\w]+)*\\slike\\smac|;\\sopera)" i) = some ms
          ∧ ms.get 2 = some "9_1")
      ∧ (parse ua).osName = "iOS"
      ∧ (parse ua).osVersion = "9.1" := by
  obtain ⟨ms, hm⟩ := regex_search_ios_found ua pre post hua
  have h2 := regex_search_ios_version ua pre post ms hua hpost hm
  obtain ⟨hname, hver⟩ := parse_os_of_ios_match ua ms hprior hm
  refine ⟨by decide!, ⟨ms, hm, h2⟩, hname, ?_⟩
  rw [hver, h2]
  decide

/-- C21 (instance): the user agent of Safari on iOS 9.1 contains the token, no
"mac" follows it, no earlier os matcher is found in it, and `parse` returns
"iOS" and "9.1". -/
theorem C21_witness_iphone_ios_9_1 :
    ("Mozilla/5.0 (iPhone; CPU iPhone OS 9_1 like Mac OS X) AppleWebKit/601.1.46 (KHTML, like Gecko) Version/9.0 Mobile/13B143 Safari/601.1").data
        = "Mozilla/5.0 (iPhone; CPU ".data
          ++ ("iPhone OS 9_1 like Mac".data
            ++ " OS X) AppleWebKit/601.1.46 (KHTML, like Gecko) Version/9.0 Mobile/13B143 Safari/601.1".data)
    ∧ (parse
        "Mozilla/5.0 (iPhone; CPU iPhone OS 9_1 like Mac OS X) AppleWebKit/601.1.46 (KHTML, like Gecko) Version/9.0 Mobile/13B143 Safari/601.1").osName
      = "iOS"
    ∧ (parse
        "Mozilla/5.0 (iPhone; CPU iPhone OS 9_1 like Mac OS X) AppleWebKit/601.1.46 (KHTML, like Gecko) Version/9.0 Mobile/13B143 Safari/601.1").osVersion
      = "9.1" := by
  have hmac : ¬ "mac".data <:+: (" OS X) AppleWebKit/601.1.46 (KHTML, like Gecko) Version/9.0 Mobile/13B143 Safari/601.1".data).map tolower := by
    decide!
  obtain ⟨_, _, hname, hver⟩ := C21_ios_name_and_version_9_1
    "Mozilla/5.0 (iPhone; CPU iPhone OS 9_1 like Mac OS X) AppleWebKit/601.1.46 (KHTML, like Gecko) Version/9.0 Mobile/13B143 Safari/601.1"
    "Mozilla/5.0 (iPhone; CPU ".data
    " OS X) AppleWebKit/601.1.46 (KHTML, like Gecko) Version/9.0 Mobile/13B143 Safari/601.1".data
    (by decide!)
    (fun a c s1 s2 _ _ h => hmac ⟨a ++ s1 :: ("like".data ++ [s2]), c, by rw [h]; simp⟩)
    (by decide!)
  exact ⟨by decide!, hname, hver⟩

end UaParser
